import Mathlib

/-!
# Pod log policy manager (`pkg/kubelet/log/logmanager`)

A shallow embedding of `state_manager.go` and `manager.go`, and the properties
of the specification proved (or refuted) against it.

Modelling conventions

* `sets.String` (a Go `map[string]Empty`) is a list of strings; the order of the
  list is the order in which a `range` loop visits the elements.  `Insert` keeps
  the list free of duplicates, `Delete` removes every occurrence.
* A Go `map[K]V` is an association list `GoMap K V`; `m[k] = v` replaces the
  binding of `k`, `delete(m, k)` removes it, and `range` visits the bindings in
  list order.
* Go `error` values are strings; `nil` is `none`.
* Everything outside the manager (plugin endpoints, pod source, config-map
  cache, volume manager, API server, clock) is an `Env`: the answer each outside
  call gives during one manager operation.  Calls issued by the manager are
  recorded, oldest first, in the `calls` field of the manager state.
-/

namespace LogManager

/-! ## `sets.String` -/

/-- A `sets.String`. -/
abbrev StringSet := List String

namespace StringSet

/-- The result of `sets.NewString()`. -/
def NewString : StringSet := []

/-- The method `Insert`: adding a present element changes nothing. -/
def Insert (s : StringSet) (x : String) : StringSet :=
  if x ∈ s then s else s ++ [x]

/-- The method `Delete`. -/
def Delete (s : StringSet) (x : String) : StringSet :=
  s.filter (fun y => decide (y ≠ x))

/-- The method `Has`. -/
def Has (s : StringSet) (x : String) : Bool := decide (x ∈ s)

/-- The method `Len`. -/
def Len (s : StringSet) : Nat := s.length

/-- The method `Difference`: the elements of `s` that are not in `t`. -/
def Difference (s t : StringSet) : StringSet :=
  s.filter (fun y => decide (y ∉ t))

end StringSet

/-! ## Go maps -/

/-- A Go `map[K]V`. -/
abbrev GoMap (K V : Type) := List (K × V)

namespace GoMap

variable {K V : Type} [DecidableEq K]

/-- The lookup `v, exists := m[k]`. -/
def get (m : GoMap K V) (k : K) : Option V := List.lookup k m

/-- The deletion `delete(m, k)`. -/
def delete (m : GoMap K V) (k : K) : GoMap K V :=
  m.filter (fun p => decide (p.1 ≠ k))

/-- The assignment `m[k] = v`. -/
def set (m : GoMap K V) (k : K) (v : V) : GoMap K V :=
  (k, v) :: delete m k

/-- The keys a `range` loop visits. -/
def keys (m : GoMap K V) : List K := m.map Prod.fst

end GoMap

/-! ## Types of the log policy API (`api/v1alpha1/types.go`) -/

/-- A pod UID (`k8stypes.UID`). -/
abbrev UID := String

/-- The struct `ContainerLogPolicy`. -/
structure ContainerLogPolicy where
  Category : String
  Path : String
  VolumeName : String
  PluginConfigMap : String
  deriving DecidableEq, Repr

/-- The struct `PodLogPolicy`, for a policy none of whose entries is a nil
pointer: the entries of a container are given as the values they point to.
The struct with its pointers is `Nilable.PodLogPolicy` below. -/
structure PodLogPolicy where
  LogPlugin : String
  SafeDeletionEnabled : Bool
  ContainerLogPolicies : GoMap String (List ContainerLogPolicy)
  deriving DecidableEq, Repr

/-- The struct `PodLogPolicy` with its pointers: the type `ContainerLogPolicies`
is a slice of `*ContainerLogPolicy`, and an entry may be the nil pointer
(`none`), which is what `json.Unmarshal` leaves for a JSON `null`. -/
structure Nilable.PodLogPolicy where
  LogPlugin : String
  SafeDeletionEnabled : Bool
  ContainerLogPolicies : GoMap String (List (Option ContainerLogPolicy))
  deriving DecidableEq, Repr

/-- No entry of the policy is a nil pointer. -/
def Nilable.PodLogPolicy.NoNilEntry (p : Nilable.PodLogPolicy) : Prop :=
  ∀ x ∈ p.ContainerLogPolicies, none ∉ x.2

/-- The entries of the policy that are not nil: the whole policy when
`NoNilEntry` holds. -/
def Nilable.PodLogPolicy.entries (p : Nilable.PodLogPolicy) : LogManager.PodLogPolicy :=
  { LogPlugin := p.LogPlugin
    SafeDeletionEnabled := p.SafeDeletionEnabled
    ContainerLogPolicies := p.ContainerLogPolicies.map (fun x => (x.1, x.2.filterMap id)) }

/-- A policy without nil entry, with its pointers. -/
def PodLogPolicy.toNilable (p : PodLogPolicy) : Nilable.PodLogPolicy :=
  { LogPlugin := p.LogPlugin
    SafeDeletionEnabled := p.SafeDeletionEnabled
    ContainerLogPolicies := p.ContainerLogPolicies.map (fun x => (x.1, x.2.map some)) }

/-- How a call ends: it returns, or it stops in a run-time panic (here always the
dereference of a nil pointer). -/
inductive Outcome (α : Type) where
  | returns (a : α)
  | panics
  deriving DecidableEq, Repr

/-- The struct `logVolume` of `state_manager.go`. -/
structure logVolume where
  volumeName : String
  path : String
  hostPath : String
  logDirPath : String
  deriving DecidableEq, Repr

/-- The type `logVolumesMap`: volume name to log volume. -/
abbrev logVolumesMap := GoMap String logVolume

/-! ## The pod state store (`state_manager.go`) -/

/-- The struct `podStateManager` (the lock is not modelled). -/
structure podStateManager where
  podLogPolicies : GoMap UID PodLogPolicy
  podLogVolumes : GoMap UID logVolumesMap
  podConfigMaps : GoMap UID StringSet
  configMapPodUIDs : GoMap String StringSet
  deriving DecidableEq, Repr

/-- The constructor `newPodStateManager`. -/
def newPodStateManager : podStateManager :=
  { podLogPolicies := [], podLogVolumes := [], podConfigMaps := [], configMapPodUIDs := [] }

namespace podStateManager

/-- One pass of the loop of `updateConfigMapKeys`: the set stored under `key`
(a fresh one if there is none) receives `podUID`. -/
def addPodUID (podUID : UID) (idx : GoMap String StringSet) (key : String) :
    GoMap String StringSet :=
  match idx.get key with
  | some podUIDs => idx.set key (podUIDs.Insert podUID)
  | none => idx.set key (StringSet.NewString.Insert podUID)

/-- The method `updateConfigMapKeys`. -/
def updateConfigMapKeys (m : podStateManager) (podUID : UID) (configMapKeys : StringSet) :
    podStateManager :=
  { m with
    podConfigMaps := m.podConfigMaps.set podUID configMapKeys
    configMapPodUIDs := configMapKeys.foldl (addPodUID podUID) m.configMapPodUIDs }

/-- One pass of the loop of `removeConfigMapKeys`: `podUID` leaves the set stored
under `key`, and the entry is dropped when the set becomes empty. -/
def dropPodUID (podUID : UID) (idx : GoMap String StringSet) (key : String) :
    GoMap String StringSet :=
  match idx.get key with
  | some podUIDs =>
    if (podUIDs.Delete podUID).Len = 0 then idx.delete key
    else idx.set key (podUIDs.Delete podUID)
  | none => idx

/-- The method `removeConfigMapKeys`. -/
def removeConfigMapKeys (m : podStateManager) (podUID : UID) : podStateManager :=
  { m with
    configMapPodUIDs :=
      match m.podConfigMaps.get podUID with
      | some configMapKeys => configMapKeys.foldl (dropPodUID podUID) m.configMapPodUIDs
      | none => m.configMapPodUIDs
    podConfigMaps := m.podConfigMaps.delete podUID }

/-- The method `getAllConfigMapKeys`. -/
def getAllConfigMapKeys (m : podStateManager) : StringSet :=
  m.configMapPodUIDs.keys.foldl StringSet.Insert StringSet.NewString

/-- The method `getPodUIDs`. -/
def getPodUIDs (m : podStateManager) (configMapKey : String) : StringSet :=
  match m.configMapPodUIDs.get configMapKey with
  | some podUIDs => podUIDs
  | none => StringSet.NewString

/-- The method `updateLogPolicy`. -/
def updateLogPolicy (m : podStateManager) (podUID : UID) (podLogPolicy : PodLogPolicy) :
    podStateManager :=
  { m with podLogPolicies := m.podLogPolicies.set podUID podLogPolicy }

/-- The method `removeLogPolicy`. -/
def removeLogPolicy (m : podStateManager) (podUID : UID) : podStateManager :=
  { m with podLogPolicies := m.podLogPolicies.delete podUID }

/-- The method `getLogPolicy`. -/
def getLogPolicy (m : podStateManager) (podUID : UID) : Option PodLogPolicy :=
  m.podLogPolicies.get podUID

/-- The method `updateLogVolumes`. -/
def updateLogVolumes (m : podStateManager) (podUID : UID) (logVolumes : logVolumesMap) :
    podStateManager :=
  { m with podLogVolumes := m.podLogVolumes.set podUID logVolumes }

/-- The method `removeLogVolumes`. -/
def removeLogVolumes (m : podStateManager) (podUID : UID) : podStateManager :=
  { m with podLogVolumes := m.podLogVolumes.delete podUID }

/-- The method `getLogVolumes`. -/
def getLogVolumes (m : podStateManager) (podUID : UID) : Option logVolumesMap :=
  m.podLogVolumes.get podUID

/-- The key set stored for a pod (`podConfigMaps[podUID]`), empty when there is none. -/
def configMapKeysOf (m : podStateManager) (podUID : UID) : StringSet :=
  match m.podConfigMaps.get podUID with
  | some keys => keys
  | none => StringSet.NewString

end podStateManager

/-! ## Types of the plugin API (`apis/logplugin/v1alpha1`, used by `manager.go`) -/

/-- The message `ConfigMeta`. -/
structure ConfigMeta where
  Name : String
  PodNamespace : String
  PodName : String
  PodUID : String
  ContainerName : String
  deriving DecidableEq, Repr

/-- The message `ConfigSpec`. -/
structure ConfigSpec where
  Content : String
  Path : String
  Category : String
  deriving DecidableEq, Repr

/-- The message `Config`. -/
structure Config where
  Metadata : ConfigMeta
  Spec : ConfigSpec
  deriving DecidableEq, Repr

/-- Modelled from the spec: the enumeration `pluginapi.State` is declared outside
the files at hand; the spec lists the answers of `getState` as
`Running | Finished | Unknown`. -/
inductive State where
  | Running
  | Finished
  | Unknown
  deriving DecidableEq, Repr

/-- A `pluginEndpoint` value: the client handle of one plugin, identified by the
plugin name and the socket it was dialled on. -/
structure pluginEndpoint where
  name : String
  socketPath : String
  deriving DecidableEq, Repr

/-- The type `logConfigsMap`: config name to config. -/
abbrev logConfigsMap := GoMap String Config

/-! ## The plugin state store (`state_manager.go`) -/

/-- The struct `pluginStateManager` (the lock is not modelled). -/
structure pluginStateManager where
  podLogConfigNames : GoMap UID StringSet
  podLogPluginEndpoint : GoMap UID pluginEndpoint
  deriving DecidableEq, Repr

/-- The constructor `newPluginStateManager`; reading the endpoint map, which it
leaves nil, finds nothing. -/
def newPluginStateManager : pluginStateManager :=
  { podLogConfigNames := [], podLogPluginEndpoint := [] }

namespace pluginStateManager

/-- The method `getLogConfigNames`. -/
def getLogConfigNames (m : pluginStateManager) (podUID : UID) : StringSet :=
  match m.podLogConfigNames.get podUID with
  | some configNames => configNames
  | none => StringSet.NewString

/-- One pass of the loop of `updateAllLogConfigs` over the two fresh maps. -/
def addLogConfig (endpoint : pluginEndpoint)
    (acc : GoMap UID StringSet × GoMap UID pluginEndpoint) (config : Config) :
    GoMap UID StringSet × GoMap UID pluginEndpoint :=
  let names :=
    match acc.1.get config.Metadata.PodUID with
    | some configNames => acc.1.set config.Metadata.PodUID (configNames.Insert config.Metadata.Name)
    | none =>
      acc.1.set config.Metadata.PodUID (StringSet.NewString.Insert config.Metadata.Name)
  let endpoints :=
    match acc.2.get config.Metadata.PodUID with
    | some _ => acc.2
    | none => acc.2.set config.Metadata.PodUID endpoint
  (names, endpoints)

/-- The method `updateAllLogConfigs`; `none` is the nil slice, on which the method
returns at once. -/
def updateAllLogConfigs (m : pluginStateManager) (configs : Option (List Config))
    (endpoint : pluginEndpoint) : pluginStateManager :=
  match configs with
  | none => m
  | some cs =>
    let r := cs.foldl (addLogConfig endpoint) ([], [])
    { podLogConfigNames := r.1, podLogPluginEndpoint := r.2 }

/-- The method `getAllPodUIDs`. -/
def getAllPodUIDs (m : pluginStateManager) : StringSet :=
  m.podLogConfigNames.keys.foldl StringSet.Insert StringSet.NewString

/-- The method `getLogPluginEndpoint`. -/
def getLogPluginEndpoint (m : pluginStateManager) (podUID : UID) : Option pluginEndpoint :=
  m.podLogPluginEndpoint.get podUID

end pluginStateManager

/-! ## Pods, config maps and the world outside the manager -/

/-- The fields of `v1.PodCondition` that are compared when a condition is updated
(`CondType` is the field `Type`). -/
structure PodCondition where
  CondType : String
  Status : String
  Reason : String
  Message : String
  deriving DecidableEq, Repr

/-- The fields of `v1.Pod` the manager reads or writes.  Times are nanoseconds
since the epoch; `DeletionGracePeriodSeconds` is a `*int64`. -/
structure Pod where
  UID : UID
  Namespace : String
  Name : String
  Annotations : GoMap String String
  DeletionTimestamp : Option Int
  DeletionGracePeriodSeconds : Option Int
  Conditions : List PodCondition
  deriving DecidableEq, Repr

/-- The fields of `v1.ConfigMap` the manager reads. -/
structure ConfigMap where
  Namespace : String
  Name : String
  Data : GoMap String String
  deriving DecidableEq, Repr

/-- A Go `error`. -/
abbrev Error := String

/-- A call the manager issues to a component outside itself. -/
inductive Call where
  | addConfig (endpoint : pluginEndpoint) (config : Config)
  | delConfig (endpoint : pluginEndpoint) (configName : String)
  | listConfig (endpoint : pluginEndpoint)
  | getState (endpoint : pluginEndpoint) (configName : String)
  | updateStatus (pod : Pod)
  | event (podUID : UID) (eventtype : String) (reason : String)
  | mkdirAll (path : String)
  | symlink (oldname : String) (newname : String)
  | watcherSync (keys : StringSet)
  | newEndpointImpl (socketPath : String) (name : String)
  | stop (endpoint : pluginEndpoint)
  deriving DecidableEq, Repr

/-- The answers of the world outside the manager during one operation: the four
plugin RPCs, the sources-ready gate, the pod source, the config-map cache, the
volume manager, the API server, the clock, the file system, and the helpers of
the package that are declared outside the files at hand (JSON decoding of the
annotation and the three name builders).  Four fields serve plugin
registration: the constants `pluginapi.Version` and `pluginapi.LogPluginPath`,
`filepath.Join` on two elements, and the constructor `newEndpointImpl`, which
dials the socket and may fail.  The JSON decoding of the annotation comes
twice: `jsonUnmarshal` gives the policy with its pointers, nil entries
included, and `unmarshal` gives the policy for the annotations that decode
without nil entry. -/
structure Env where
  addConfig : pluginEndpoint → Config → Except Error Unit
  delConfig : pluginEndpoint → String → Except Error Unit
  listConfig : pluginEndpoint → Except Error (Option (List Config))
  getState : pluginEndpoint → String → Except Error State
  allReady : Bool
  getPods : List Pod
  getPodByUID : UID → Option Pod
  isPodTerminated : Pod → Bool
  getConfigMap : String → String → Except Error ConfigMap
  getMountedVolumesForPod : UID → GoMap String String
  updateStatus : Pod → Option Error
  now : Int
  unmarshal : String → Except Error PodLogPolicy
  buildLogConfigName : UID → String → String → String → String
  buildPodLogsDirectory : UID → String
  buildLogPolicyDirectory : UID → String → String → String
  statNotExist : String → Bool
  lstatNotExist : String → Bool
  mkdirAll : String → Option Error
  symlink : String → String → Option Error
  dir : String → String
  Version : String
  LogPluginPath : String
  join : String → String → String
  newEndpointImpl : String → String → Except Error pluginEndpoint
  jsonUnmarshal : String → Except Error Nilable.PodLogPolicy

/-! ## Helpers of the API package (`api/v1alpha1/util/util.go`) -/

/-- The constant `PodLogPolicyLabelKey`. -/
def PodLogPolicyLabelKey : String := "alpha.log.qiniu.com/log-policy"

/-- The constant `podLogPolicyCategoryStd`. -/
def podLogPolicyCategoryStd : String := "std"

/-- The function `IsPodLogPolicyExists`. -/
def IsPodLogPolicyExists (pod : Pod) : Bool :=
  (pod.Annotations.get PodLogPolicyLabelKey).isSome

/-- The function `GetPodLogPolicy`; decoding the JSON value is left to `Env.unmarshal`. -/
def GetPodLogPolicy (env : Env) (pod : Pod) : Except Error PodLogPolicy :=
  match pod.Annotations.get PodLogPolicyLabelKey with
  | none => .error "key is not exists"
  | some podLogPolicyLabelValue => env.unmarshal podLogPolicyLabelValue

/-- Modelled from the spec: `buildConfigMapKey` is declared outside the files at
hand; the spec gives the key of a config map as `<namespace>/<name>`. -/
def buildConfigMapKey (ns : String) (name : String) : String :=
  ns ++ "/" ++ name

/-- Modelled from the spec: the name and value of the condition that
`setCollectFinished` writes, `PodLogCollectFinished = True`. -/
def collectFinishedCondition : PodCondition :=
  { CondType := "PodLogCollectFinished", Status := "True", Reason := "", Message := "" }

/-- Modelled from the spec: `podutil.UpdatePodCondition` is declared outside the
files at hand.  The condition of the same type is replaced (or the new one is
appended when there is none), and the result says whether the condition
actually changed. -/
def UpdatePodCondition : List PodCondition → PodCondition → List PodCondition × Bool
  | [], condition => ([condition], true)
  | old :: rest, condition =>
    if old.CondType = condition.CondType then (condition :: rest, decide (old ≠ condition))
    else ((old :: (UpdatePodCondition rest condition).1), (UpdatePodCondition rest condition).2)

/-! ## The manager (`manager.go`) -/

/-- The struct `ManagerImpl`: the endpoint table and the two stores.  `calls` is
the record of the calls issued so far to outside components, oldest first. -/
structure ManagerImpl where
  logPlugins : GoMap String pluginEndpoint
  podStateManager : podStateManager
  pluginStateManager : pluginStateManager
  calls : List Call
  deriving DecidableEq, Repr

/-- A 64-bit signed integer after wrap-around. -/
def wrapInt64 (x : Int) : Int := (x + 2 ^ 63) % 2 ^ 64 - 2 ^ 63

namespace ManagerImpl

/-- The function `filterPods`. -/
def filterPods (allPods : List Pod) : List Pod :=
  allPods.filter IsPodLogPolicyExists

/-- The method `getLogPluginEndpoint`. -/
def getLogPluginEndpoint (m : ManagerImpl) (logPluginName : String) :
    Except Error pluginEndpoint :=
  match m.logPlugins.get logPluginName with
  | none => .error ("invalid endpoint " ++ logPluginName)
  | some ep => .ok ep

/-- The loop `for configName := range names { endpoint.delConfig(configName) }`,
left at the first error: the error (if any) and the calls issued. -/
def delConfigs (env : Env) (endpoint : pluginEndpoint) : List String → Option Error × List Call
  | [] => (none, [])
  | configName :: rest =>
    match env.delConfig endpoint configName with
    | .error err => (some err, [Call.delConfig endpoint configName])
    | .ok _ =>
      ((delConfigs env endpoint rest).1,
        Call.delConfig endpoint configName :: (delConfigs env endpoint rest).2)

/-- The loop `for _, config := range logConfigs { endpoint.addConfig(config) }`,
left at the first error: the error (if any) and the calls issued. -/
def addConfigs (env : Env) (endpoint : pluginEndpoint) : List Config → Option Error × List Call
  | [] => (none, [])
  | config :: rest =>
    match env.addConfig endpoint config with
    | .error err => (some err, [Call.addConfig endpoint config])
    | .ok _ =>
      ((addConfigs env endpoint rest).1,
        Call.addConfig endpoint config :: (addConfigs env endpoint rest).2)

/-- The method `pushPluginConfigs`. -/
def pushPluginConfigs (env : Env) (m : ManagerImpl) (podUID : UID) (endpoint : pluginEndpoint)
    (logConfigs : logConfigsMap) : Option Error × ManagerImpl :=
  let configNames := logConfigs.keys.foldl StringSet.Insert StringSet.NewString
  let deleted := (m.pluginStateManager.getLogConfigNames podUID).Difference configNames
  match delConfigs env endpoint deleted with
  | (some err, issued) => (some err, { m with calls := m.calls ++ issued })
  | (none, issued) =>
    let added := addConfigs env endpoint (logConfigs.map Prod.snd)
    (added.1, { m with calls := m.calls ++ issued ++ added.2 })

/-- The method `deletePluginConfigs`. -/
def deletePluginConfigs (env : Env) (m : ManagerImpl) (podUID : UID)
    (endpoint : pluginEndpoint) : Option Error × ManagerImpl :=
  let r := delConfigs env endpoint (m.pluginStateManager.getLogConfigNames podUID)
  (r.1, { m with calls := m.calls ++ r.2 })

/-- The method `removePodState`. -/
def removePodState (m : ManagerImpl) (podUID : UID) : ManagerImpl :=
  { m with
    podStateManager :=
      ((m.podStateManager.removeConfigMapKeys podUID).removeLogVolumes podUID).removeLogPolicy
        podUID }

/-- The method `exceedTerminationGracePeriod`.  The grace period is an `int64`
count of seconds turned into a `time.Duration` (an `int64` count of
nanoseconds) by a multiplication that wraps around. -/
def exceedTerminationGracePeriod (env : Env) (pod : Pod) : Bool :=
  match pod.DeletionTimestamp, pod.DeletionGracePeriodSeconds with
  | some deletionTime, some seconds =>
    let gracePeriod := wrapInt64 (seconds * 1000000000)
    decide (deletionTime + gracePeriod < env.now)
  | _, _ => false

/-- The method `setCollectFinished`: the error, the manager and the pod, whose
status the method changes in place. -/
def setCollectFinished (env : Env) (m : ManagerImpl) (pod : Pod) :
    Option Error × ManagerImpl × Pod :=
  let r := UpdatePodCondition pod.Conditions collectFinishedCondition
  let pod1 := { pod with Conditions := r.1 }
  if r.2 then
    (env.updateStatus pod1, { m with calls := m.calls ++ [Call.updateStatus pod1] }, pod1)
  else (none, m, pod1)

/-- The loop of `checkCollectFinished` over the observed config names: the
verdict and the `getState` calls issued. -/
def checkStates (env : Env) (endpoint : pluginEndpoint) : List String → Bool × List Call
  | [] => (true, [])
  | configName :: rest =>
    match env.getState endpoint configName with
    | .error _ => (false, [Call.getState endpoint configName])
    | .ok state =>
      if state = State.Running then (false, [Call.getState endpoint configName])
      else
        ((checkStates env endpoint rest).1,
          Call.getState endpoint configName :: (checkStates env endpoint rest).2)

/-- The method `checkCollectFinished`. -/
def checkCollectFinished (env : Env) (m : ManagerImpl) (podUID : UID)
    (podLogPolicy : PodLogPolicy) : Bool × ManagerImpl :=
  let configNames := m.pluginStateManager.getLogConfigNames podUID
  if configNames.Len = 0 then (true, m)
  else
    match m.getLogPluginEndpoint podLogPolicy.LogPlugin with
    | .error _ => (false, m)
    | .ok endpoint =>
      let r := checkStates env endpoint configNames
      (r.1, { m with calls := m.calls ++ r.2 })

/-- The method `RemoveLogPolicy`: the error, the manager and the pod, whose
status the method may change in place; `none` is the nil pod. -/
def RemoveLogPolicy (env : Env) (m : ManagerImpl) (pod : Option Pod) :
    Option Error × ManagerImpl × Option Pod :=
  match pod with
  | none => (none, m, none)
  | some pod =>
    if !IsPodLogPolicyExists pod then (none, m, some pod)
    else
      match m.podStateManager.getLogPolicy pod.UID with
      | none => (none, m, some pod)
      | some podLogPolicy =>
        let c := checkCollectFinished env m pod.UID podLogPolicy
        if !c.1 && podLogPolicy.SafeDeletionEnabled then
          (some "log config state is running and SafeDeletionEnabled, cannot remove log policy",
            c.2, some pod)
        else if !c.1 && !exceedTerminationGracePeriod env pod then
          (some "log config state is running, cannot remove log policy after grace period seconds",
            c.2, some pod)
        else
          match setCollectFinished env c.2 pod with
          | (some err, m1, pod1) => (some err, m1, some pod1)
          | (none, m1, pod1) =>
            match m1.getLogPluginEndpoint podLogPolicy.LogPlugin with
            | .error err => (some err, m1, some pod1)
            | .ok endpoint =>
              match deletePluginConfigs env m1 pod1.UID endpoint with
              | (some err, m2) => (some err, m2, some pod1)
              | (none, m2) =>
                let m3 := removePodState m2 pod1.UID
                (none,
                  { m3 with
                    calls := m3.calls ++ [Call.event pod1.UID "Normal" "LogPolicyRemoveSuccess"] },
                  some pod1)

/-- The inner loop of `buildPodLogVolumes`, over the policies of one container. -/
def buildContainerLogVolumes (env : Env) (pod : Pod) (podVolumes : GoMap String String)
    (containerName : String) : List ContainerLogPolicy → logVolumesMap → Except Error logVolumesMap
  | [], logVolumes => .ok logVolumes
  | containerLogPolicy :: rest, logVolumes =>
    if containerLogPolicy.Category = podLogPolicyCategoryStd then
      buildContainerLogVolumes env pod podVolumes containerName rest logVolumes
    else
      match podVolumes.get containerLogPolicy.VolumeName with
      | none => .error "volume is not found in podVolumes"
      | some hostPath =>
        buildContainerLogVolumes env pod podVolumes containerName rest
          (logVolumes.set containerLogPolicy.VolumeName
            { volumeName := containerLogPolicy.VolumeName
              path := containerLogPolicy.Path
              hostPath := hostPath
              logDirPath :=
                env.buildLogPolicyDirectory pod.UID containerName containerLogPolicy.Category })

/-- The outer loop of `buildPodLogVolumes`, over the containers. -/
def buildAllLogVolumes (env : Env) (pod : Pod) (podVolumes : GoMap String String) :
    List (String × List ContainerLogPolicy) → logVolumesMap → Except Error logVolumesMap
  | [], logVolumes => .ok logVolumes
  | (containerName, containerLogPolicies) :: rest, logVolumes =>
    match buildContainerLogVolumes env pod podVolumes containerName containerLogPolicies
        logVolumes with
    | .error err => .error err
    | .ok logVolumes1 => buildAllLogVolumes env pod podVolumes rest logVolumes1

/-- The method `buildPodLogVolumes`. -/
def buildPodLogVolumes (env : Env) (pod : Pod) (podLogPolicy : PodLogPolicy) :
    Except Error logVolumesMap :=
  buildAllLogVolumes env pod (env.getMountedVolumesForPod pod.UID)
    podLogPolicy.ContainerLogPolicies []

/-- The inner loop of `buildPodLogConfigMapKeys`, over the policies of one container. -/
def buildContainerConfigMapKeys (env : Env) (pod : Pod) :
    List ContainerLogPolicy → StringSet → Except Error StringSet
  | [], configMapKeys => .ok configMapKeys
  | containerLogPolicy :: rest, configMapKeys =>
    match env.getConfigMap pod.Namespace containerLogPolicy.PluginConfigMap with
    | .error err => .error err
    | .ok configMap =>
      buildContainerConfigMapKeys env pod rest
        (configMapKeys.Insert (buildConfigMapKey configMap.Namespace configMap.Name))

/-- The outer loop of `buildPodLogConfigMapKeys`, over the containers. -/
def buildAllConfigMapKeys (env : Env) (pod : Pod) :
    List (String × List ContainerLogPolicy) → StringSet → Except Error StringSet
  | [], configMapKeys => .ok configMapKeys
  | (_, containerLogPolicies) :: rest, configMapKeys =>
    match buildContainerConfigMapKeys env pod containerLogPolicies configMapKeys with
    | .error err => .error err
    | .ok configMapKeys1 => buildAllConfigMapKeys env pod rest configMapKeys1

/-- The method `buildPodLogConfigMapKeys`. -/
def buildPodLogConfigMapKeys (env : Env) (pod : Pod) (podLogPolicy : PodLogPolicy) :
    Except Error StringSet :=
  buildAllConfigMapKeys env pod podLogPolicy.ContainerLogPolicies StringSet.NewString

/-- The innermost loop of `buildPodLogConfigs`, over the entries of one config map. -/
def buildFileConfigs (env : Env) (pod : Pod) (containerName : String) (category : String)
    (path : String) (data : GoMap String String) (logConfigs : logConfigsMap) : logConfigsMap :=
  data.foldl
    (fun acc entry =>
      acc.set (env.buildLogConfigName pod.UID containerName category entry.1)
        { Metadata :=
            { Name := env.buildLogConfigName pod.UID containerName category entry.1
              PodNamespace := pod.Namespace
              PodName := pod.Name
              PodUID := pod.UID
              ContainerName := containerName }
          Spec := { Content := entry.2, Path := path, Category := category } })
    logConfigs

/-- The middle loop of `buildPodLogConfigs`, over the policies of one container. -/
def buildContainerLogConfigs (env : Env) (pod : Pod) (podLogVolumes : logVolumesMap)
    (containerName : String) : List ContainerLogPolicy → logConfigsMap → Except Error logConfigsMap
  | [], logConfigs => .ok logConfigs
  | containerLogPolicy :: rest, logConfigs =>
    match env.getConfigMap pod.Namespace containerLogPolicy.PluginConfigMap with
    | .error err => .error err
    | .ok configMap =>
      if containerLogPolicy.Category = podLogPolicyCategoryStd then
        buildContainerLogConfigs env pod podLogVolumes containerName rest
          (buildFileConfigs env pod containerName containerLogPolicy.Category
            (env.buildPodLogsDirectory pod.UID) configMap.Data logConfigs)
      else
        match podLogVolumes.get containerLogPolicy.VolumeName with
        | none => buildContainerLogConfigs env pod podLogVolumes containerName rest logConfigs
        | some logVolume =>
          buildContainerLogConfigs env pod podLogVolumes containerName rest
            (buildFileConfigs env pod containerName containerLogPolicy.Category
              logVolume.logDirPath configMap.Data logConfigs)

/-- The outer loop of `buildPodLogConfigs`, over the containers. -/
def buildAllLogConfigs (env : Env) (pod : Pod) (podLogVolumes : logVolumesMap) :
    List (String × List ContainerLogPolicy) → logConfigsMap → Except Error logConfigsMap
  | [], logConfigs => .ok logConfigs
  | (containerName, containerLogPolicies) :: rest, logConfigs =>
    match buildContainerLogConfigs env pod podLogVolumes containerName containerLogPolicies
        logConfigs with
    | .error err => .error err
    | .ok logConfigs1 => buildAllLogConfigs env pod podLogVolumes rest logConfigs1

/-- The method `buildPodLogConfigs`. -/
def buildPodLogConfigs (env : Env) (pod : Pod) (podLogPolicy : PodLogPolicy)
    (podLogVolumes : logVolumesMap) : Except Error logConfigsMap :=
  buildAllLogConfigs env pod podLogVolumes podLogPolicy.ContainerLogPolicies []

/-- The method `refreshPodState`. -/
def refreshPodState (env : Env) (m : ManagerImpl) (pod : Pod) : Option Error × ManagerImpl :=
  match GetPodLogPolicy env pod with
  | .error err => (some err, m)
  | .ok podLogPolicy =>
    match buildPodLogVolumes env pod podLogPolicy with
    | .error err => (some err, m)
    | .ok podLogVolumes =>
      match buildPodLogConfigMapKeys env pod podLogPolicy with
      | .error err => (some err, m)
      | .ok podConfigMapKeys =>
        (none,
          { m with
            podStateManager :=
              ((m.podStateManager.updateConfigMapKeys pod.UID podConfigMapKeys).updateLogVolumes
                pod.UID podLogVolumes).updateLogPolicy pod.UID podLogPolicy })

/-- The method `pushConfigs`. -/
def pushConfigs (env : Env) (m : ManagerImpl) (pod : Pod) : Option Error × ManagerImpl :=
  match m.podStateManager.getLogPolicy pod.UID with
  | none => (some "log policy not found in state manager", m)
  | some logPolicy =>
    match m.podStateManager.getLogVolumes pod.UID with
    | none => (some "log volumes not found in state manager", m)
    | some logVolumes =>
      match buildPodLogConfigs env pod logPolicy logVolumes with
      | .error err => (some err, m)
      | .ok podLogConfigs =>
        match m.getLogPluginEndpoint logPolicy.LogPlugin with
        | .error err => (some err, m)
        | .ok endpoint => pushPluginConfigs env m pod.UID endpoint podLogConfigs

/-- The method `refreshPluginState`. -/
def refreshPluginState (env : Env) (m : ManagerImpl) (endpoint : pluginEndpoint) :
    Option Error × ManagerImpl :=
  match env.listConfig endpoint with
  | .error err => (some err, { m with calls := m.calls ++ [Call.listConfig endpoint] })
  | .ok configs =>
    (none,
      { m with
        calls := m.calls ++ [Call.listConfig endpoint]
        pluginStateManager := m.pluginStateManager.updateAllLogConfigs configs endpoint })

/-- The first loop of `sync`: every registered plugin is asked for its configs; the
loop is left at the first error. -/
def refreshAllPluginStates (env : Env) :
    List (String × pluginEndpoint) → ManagerImpl → Option Error × ManagerImpl
  | [], m => (none, m)
  | (_, endpoint) :: rest, m =>
    match refreshPluginState env m endpoint with
    | (some err, m1) => (some err, m1)
    | (none, m1) => refreshAllPluginStates env rest m1

/-- The second loop of `sync`: desired state is rebuilt and pushed for every pod
with a policy that is not terminated; errors are logged and the loop goes on. -/
def syncPods (env : Env) : List Pod → ManagerImpl → ManagerImpl
  | [], m => m
  | pod :: rest, m =>
    if env.isPodTerminated pod then syncPods env rest m
    else
      match refreshPodState env m pod with
      | (some _, m1) => syncPods env rest m1
      | (none, m1) => syncPods env rest (pushConfigs env m1 pod).2

/-- The third loop of `sync`: the pods of the plugin state store that the pod
source does not know are removed. -/
def removeUnknownPods (env : Env) : List String → ManagerImpl → ManagerImpl
  | [], m => m
  | podUID :: rest, m =>
    match env.getPodByUID podUID with
    | some _ => removeUnknownPods env rest m
    | none =>
      match m.pluginStateManager.getLogPluginEndpoint podUID with
      | none => removeUnknownPods env rest m
      | some endpoint =>
        removeUnknownPods env rest (deletePluginConfigs env (removePodState m podUID) podUID endpoint).2

/-- The method `sync`. -/
def sync (env : Env) (m : ManagerImpl) : ManagerImpl :=
  if !env.allReady then m
  else
    match refreshAllPluginStates env m.logPlugins m with
    | (some _, m1) => m1
    | (none, m1) =>
      let m2 := syncPods env (filterPods env.getPods) m1
      let m3 := removeUnknownPods env m2.pluginStateManager.getAllPodUIDs m2
      { m3 with calls := m3.calls ++ [Call.watcherSync m3.podStateManager.getAllConfigMapKeys] }

/-- The first half of one pass of `createPodLogDirSymLink`: the directory of the
container is created when `os.Stat` does not find it. -/
def createContainerLogDir (env : Env) (logVolume : logVolume) : Option Error × List Call :=
  if env.statNotExist (env.dir logVolume.logDirPath) then
    (env.mkdirAll (env.dir logVolume.logDirPath), [Call.mkdirAll (env.dir logVolume.logDirPath)])
  else (none, [])

/-- The second half of one pass of `createPodLogDirSymLink`: the symbolic link is
created when `os.Lstat` does not find it. -/
def createLogDirSymLink (env : Env) (logVolume : logVolume) : Option Error × List Call :=
  if env.lstatNotExist logVolume.logDirPath then
    (env.symlink logVolume.hostPath logVolume.logDirPath,
      [Call.symlink logVolume.hostPath logVolume.logDirPath])
  else (none, [])

/-- The method `createPodLogDirSymLink`, over the log volumes in the order the
`range` loop visits them: the error (if any) and the calls issued.  `os.Stat`
and `os.Lstat` answer as `Env` says for each path. -/
def createPodLogDirSymLink (env : Env) : List logVolume → Option Error × List Call
  | [] => (none, [])
  | logVolume :: rest =>
    match createContainerLogDir env logVolume with
    | (some err, issued) => (some err, issued)
    | (none, issued) =>
      match createLogDirSymLink env logVolume with
      | (some err, issued1) => (some err, issued ++ issued1)
      | (none, issued1) =>
        ((createPodLogDirSymLink env rest).1,
          issued ++ issued1 ++ (createPodLogDirSymLink env rest).2)

/-- The method `CreateLogPolicy`. -/
def CreateLogPolicy (env : Env) (m : ManagerImpl) (pod : Pod) : Option Error × ManagerImpl :=
  if !IsPodLogPolicyExists pod then (none, m)
  else
    match refreshPodState env m pod with
    | (some err, m1) => (some err, m1)
    | (none, m1) =>
      let logVolumes :=
        match m1.podStateManager.getLogVolumes pod.UID with
        | some logVolumes => logVolumes
        | none => []
      match createPodLogDirSymLink env (logVolumes.map Prod.snd) with
      | (some err, issued) => (some err, { m1 with calls := m1.calls ++ issued })
      | (none, issued) =>
        match pushConfigs env { m1 with calls := m1.calls ++ issued } pod with
        | (some err, m2) => (some err, m2)
        | (none, m2) =>
          (none,
            { m2 with calls := m2.calls ++ [Call.event pod.UID "Normal" "LogPolicyCreateSuccess"] })

/-- The method `CollectFinished`. -/
def CollectFinished (env : Env) (m : ManagerImpl) (pod : Pod) : Bool × ManagerImpl :=
  if !IsPodLogPolicyExists pod then (true, m)
  else
    match m.podStateManager.getLogPolicy pod.UID with
    | none => (true, m)
    | some podLogPolicy => checkCollectFinished env m pod.UID podLogPolicy

end ManagerImpl

/-! ## The builders on a policy with its pointers

The loops of `buildPodLogVolumes`, `buildPodLogConfigMapKeys` and
`buildPodLogConfigs` read a field of every entry they visit; on a nil entry
that is the dereference of a nil pointer, and the call panics.  The functions
of this section are the same loops on `Nilable.PodLogPolicy`; on a policy
without nil entry they return what the functions above return. -/

namespace Nilable

/-- The function `GetPodLogPolicy`, with the pointers of the decoded policy. -/
def GetPodLogPolicy (env : Env) (pod : Pod) : Except Error PodLogPolicy :=
  match pod.Annotations.get PodLogPolicyLabelKey with
  | none => .error "key is not exists"
  | some podLogPolicyLabelValue => env.jsonUnmarshal podLogPolicyLabelValue

/-- The inner loop of `buildPodLogVolumes`, over the policies of one container. -/
def buildContainerLogVolumes (env : Env) (pod : Pod) (podVolumes : GoMap String String)
    (containerName : String) :
    List (Option ContainerLogPolicy) → logVolumesMap → Outcome (Except Error logVolumesMap)
  | [], logVolumes => .returns (.ok logVolumes)
  | none :: _, _ => .panics
  | some containerLogPolicy :: rest, logVolumes =>
    if containerLogPolicy.Category = podLogPolicyCategoryStd then
      buildContainerLogVolumes env pod podVolumes containerName rest logVolumes
    else
      match podVolumes.get containerLogPolicy.VolumeName with
      | none => .returns (.error "volume is not found in podVolumes")
      | some hostPath =>
        buildContainerLogVolumes env pod podVolumes containerName rest
          (logVolumes.set containerLogPolicy.VolumeName
            { volumeName := containerLogPolicy.VolumeName
              path := containerLogPolicy.Path
              hostPath := hostPath
              logDirPath :=
                env.buildLogPolicyDirectory pod.UID containerName containerLogPolicy.Category })

/-- The outer loop of `buildPodLogVolumes`, over the containers. -/
def buildAllLogVolumes (env : Env) (pod : Pod) (podVolumes : GoMap String String) :
    List (String × List (Option ContainerLogPolicy)) → logVolumesMap →
      Outcome (Except Error logVolumesMap)
  | [], logVolumes => .returns (.ok logVolumes)
  | (containerName, containerLogPolicies) :: rest, logVolumes =>
    match buildContainerLogVolumes env pod podVolumes containerName containerLogPolicies
        logVolumes with
    | .panics => .panics
    | .returns (.error err) => .returns (.error err)
    | .returns (.ok logVolumes1) => buildAllLogVolumes env pod podVolumes rest logVolumes1

/-- The method `buildPodLogVolumes`. -/
def buildPodLogVolumes (env : Env) (pod : Pod) (podLogPolicy : PodLogPolicy) :
    Outcome (Except Error logVolumesMap) :=
  buildAllLogVolumes env pod (env.getMountedVolumesForPod pod.UID)
    podLogPolicy.ContainerLogPolicies []

/-- The inner loop of `buildPodLogConfigMapKeys`, over the policies of one container. -/
def buildContainerConfigMapKeys (env : Env) (pod : Pod) :
    List (Option ContainerLogPolicy) → StringSet → Outcome (Except Error StringSet)
  | [], configMapKeys => .returns (.ok configMapKeys)
  | none :: _, _ => .panics
  | some containerLogPolicy :: rest, configMapKeys =>
    match env.getConfigMap pod.Namespace containerLogPolicy.PluginConfigMap with
    | .error err => .returns (.error err)
    | .ok configMap =>
      buildContainerConfigMapKeys env pod rest
        (configMapKeys.Insert (buildConfigMapKey configMap.Namespace configMap.Name))

/-- The outer loop of `buildPodLogConfigMapKeys`, over the containers. -/
def buildAllConfigMapKeys (env : Env) (pod : Pod) :
    List (String × List (Option ContainerLogPolicy)) → StringSet →
      Outcome (Except Error StringSet)
  | [], configMapKeys => .returns (.ok configMapKeys)
  | (_, containerLogPolicies) :: rest, configMapKeys =>
    match buildContainerConfigMapKeys env pod containerLogPolicies configMapKeys with
    | .panics => .panics
    | .returns (.error err) => .returns (.error err)
    | .returns (.ok configMapKeys1) => buildAllConfigMapKeys env pod rest configMapKeys1

/-- The method `buildPodLogConfigMapKeys`. -/
def buildPodLogConfigMapKeys (env : Env) (pod : Pod) (podLogPolicy : PodLogPolicy) :
    Outcome (Except Error StringSet) :=
  buildAllConfigMapKeys env pod podLogPolicy.ContainerLogPolicies StringSet.NewString

/-- The middle loop of `buildPodLogConfigs`, over the policies of one container. -/
def buildContainerLogConfigs (env : Env) (pod : Pod) (podLogVolumes : logVolumesMap)
    (containerName : String) :
    List (Option ContainerLogPolicy) → logConfigsMap → Outcome (Except Error logConfigsMap)
  | [], logConfigs => .returns (.ok logConfigs)
  | none :: _, _ => .panics
  | some containerLogPolicy :: rest, logConfigs =>
    match env.getConfigMap pod.Namespace containerLogPolicy.PluginConfigMap with
    | .error err => .returns (.error err)
    | .ok configMap =>
      if containerLogPolicy.Category = podLogPolicyCategoryStd then
        buildContainerLogConfigs env pod podLogVolumes containerName rest
          (ManagerImpl.buildFileConfigs env pod containerName containerLogPolicy.Category
            (env.buildPodLogsDirectory pod.UID) configMap.Data logConfigs)
      else
        match podLogVolumes.get containerLogPolicy.VolumeName with
        | none => buildContainerLogConfigs env pod podLogVolumes containerName rest logConfigs
        | some logVolume =>
          buildContainerLogConfigs env pod podLogVolumes containerName rest
            (ManagerImpl.buildFileConfigs env pod containerName containerLogPolicy.Category
              logVolume.logDirPath configMap.Data logConfigs)

/-- The outer loop of `buildPodLogConfigs`, over the containers. -/
def buildAllLogConfigs (env : Env) (pod : Pod) (podLogVolumes : logVolumesMap) :
    List (String × List (Option ContainerLogPolicy)) → logConfigsMap →
      Outcome (Except Error logConfigsMap)
  | [], logConfigs => .returns (.ok logConfigs)
  | (containerName, containerLogPolicies) :: rest, logConfigs =>
    match buildContainerLogConfigs env pod podLogVolumes containerName containerLogPolicies
        logConfigs with
    | .panics => .panics
    | .returns (.error err) => .returns (.error err)
    | .returns (.ok logConfigs1) => buildAllLogConfigs env pod podLogVolumes rest logConfigs1

/-- The method `buildPodLogConfigs`. -/
def buildPodLogConfigs (env : Env) (pod : Pod) (podLogPolicy : PodLogPolicy)
    (podLogVolumes : logVolumesMap) : Outcome (Except Error logConfigsMap) :=
  buildAllLogConfigs env pod podLogVolumes podLogPolicy.ContainerLogPolicies []

/-- The method `refreshPodState`.  When the store is written both loops have
visited every entry without a panic, so the policy has no nil entry and is
stored as `podLogPolicy.entries`. -/
def refreshPodState (env : Env) (m : ManagerImpl) (pod : Pod) :
    Outcome (Option Error × ManagerImpl) :=
  match GetPodLogPolicy env pod with
  | .error err => .returns (some err, m)
  | .ok podLogPolicy =>
    match buildPodLogVolumes env pod podLogPolicy with
    | .panics => .panics
    | .returns (.error err) => .returns (some err, m)
    | .returns (.ok podLogVolumes) =>
      match buildPodLogConfigMapKeys env pod podLogPolicy with
      | .panics => .panics
      | .returns (.error err) => .returns (some err, m)
      | .returns (.ok podConfigMapKeys) =>
        .returns (none,
          { m with
            podStateManager :=
              ((m.podStateManager.updateConfigMapKeys pod.UID podConfigMapKeys).updateLogVolumes
                pod.UID podLogVolumes).updateLogPolicy pod.UID podLogPolicy.entries })

/-- The method `CreateLogPolicy`.  After `refreshPodState` the policy that
`pushConfigs` reads back from the store has no nil entry, and the method goes
on as `ManagerImpl.CreateLogPolicy` does. -/
def CreateLogPolicy (env : Env) (m : ManagerImpl) (pod : Pod) :
    Outcome (Option Error × ManagerImpl) :=
  if !IsPodLogPolicyExists pod then .returns (none, m)
  else
    match refreshPodState env m pod with
    | .panics => .panics
    | .returns (some err, m1) => .returns (some err, m1)
    | .returns (none, m1) =>
      let logVolumes :=
        match m1.podStateManager.getLogVolumes pod.UID with
        | some logVolumes => logVolumes
        | none => []
      match ManagerImpl.createPodLogDirSymLink env (logVolumes.map Prod.snd) with
      | (some err, issued) => .returns (some err, { m1 with calls := m1.calls ++ issued })
      | (none, issued) =>
        match ManagerImpl.pushConfigs env { m1 with calls := m1.calls ++ issued } pod with
        | (some err, m2) => .returns (some err, m2)
        | (none, m2) =>
          .returns (none,
            { m2 with
              calls := m2.calls ++ [Call.event pod.UID "Normal" "LogPolicyCreateSuccess"] })

end Nilable

/-- The two decodings of the annotation go together: `unmarshal` fails where
`jsonUnmarshal` fails, and otherwise gives the entries of the decoded policy. -/
def Env.Coherent (env : Env) : Prop :=
  ∀ s, env.unmarshal s =
    match env.jsonUnmarshal s with
    | .error err => .error err
    | .ok p => .ok p.entries

/-- A call on the reverse index of the pod state store. -/
inductive ConfigMapOp where
  | update (podUID : UID) (configMapKeys : StringSet)
  | remove (podUID : UID)
  deriving DecidableEq, Repr

/-- The effect of one call. -/
def ConfigMapOp.apply (m : podStateManager) : ConfigMapOp → podStateManager
  | .update podUID configMapKeys => m.updateConfigMapKeys podUID configMapKeys
  | .remove podUID => m.removeConfigMapKeys podUID

/-- The store after a sequence of calls, starting from `m`. -/
def runConfigMapOps (m : podStateManager) (ops : List ConfigMapOp) : podStateManager :=
  ops.foldl ConfigMapOp.apply m

/-- Every entry of a reverse index holds a non-empty set. -/
def NoEmptyEntry (idx : GoMap String StringSet) : Prop :=
  ∀ p ∈ idx, p.2 ≠ []

/-- The config names stored for a pod in a `podLogConfigNames` map, empty when
there is no entry (what `getLogConfigNames` reads). -/
def namesOf (names : GoMap UID StringSet) (podUID : UID) : StringSet :=
  match names.get podUID with
  | some configNames => configNames
  | none => StringSet.NewString

/-- Every pod with observed config names has an endpoint binding: the part of the
well-formedness of the plugin state store that the garbage collection of `sync`
relies on. -/
def EndpointBound (names : GoMap UID StringSet) (endpoints : GoMap UID pluginEndpoint) : Prop :=
  ∀ podUID, podUID ∈ names.keys → ∃ ep, endpoints.get podUID = some ep

/-- The pod has no policy, no log volumes and no config-map keys in the pod state
store. -/
def podStateManager.Absent (m : podStateManager) (podUID : UID) : Prop :=
  m.getLogPolicy podUID = none ∧ m.getLogVolumes podUID = none ∧
    m.podConfigMaps.get podUID = none

/-! ## Concrete worlds and managers used in the examples -/

/-- A world in which every call succeeds: plugins list nothing and report
`Finished`, all sources are ready, the pod source is empty. -/
def quietEnv : Env :=
  { addConfig := fun _ _ => .ok ()
    delConfig := fun _ _ => .ok ()
    listConfig := fun _ => .ok none
    getState := fun _ _ => .ok State.Finished
    allReady := true
    getPods := []
    getPodByUID := fun _ => none
    isPodTerminated := fun _ => false
    getConfigMap := fun ns name => .ok { Namespace := ns, Name := name, Data := [] }
    getMountedVolumesForPod := fun _ => []
    updateStatus := fun _ => none
    now := 0
    unmarshal := fun _ => .error "invalid character"
    buildLogConfigName := fun podUID containerName category filename =>
      podUID ++ "_" ++ containerName ++ "_" ++ category ++ "_" ++ filename
    buildPodLogsDirectory := fun podUID => "/var/log/pods/" ++ podUID
    buildLogPolicyDirectory := fun podUID containerName category =>
      "/var/log/pods/" ++ podUID ++ "/" ++ containerName ++ "/" ++ category
    statNotExist := fun _ => true
    lstatNotExist := fun _ => true
    mkdirAll := fun _ => none
    symlink := fun _ _ => none
    dir := fun path => path
    Version := "v1alpha1"
    LogPluginPath := "/var/lib/kubelet/log-plugins"
    join := fun dir file => dir ++ "/" ++ file
    newEndpointImpl := fun socketPath name => .ok { name := name, socketPath := socketPath }
    jsonUnmarshal := fun _ => .error "invalid character" }

/-- A world like `quietEnv` in which every config is still being collected. -/
def runningEnv : Env :=
  { quietEnv with getState := fun _ _ => .ok State.Running }

/-- The endpoint of the plugin `lp`. -/
def lpEndpoint : pluginEndpoint := { name := "lp", socketPath := "/var/lib/kubelet/log-plugins/lp.sock" }

/-- A policy for the plugin `lp` with one `std` entry of container `c`. -/
def stdPolicy (safeDeletionEnabled : Bool) : PodLogPolicy :=
  { LogPlugin := "lp"
    SafeDeletionEnabled := safeDeletionEnabled
    ContainerLogPolicies :=
      [("c", [{ Category := "std", Path := "-", VolumeName := "", PluginConfigMap := "m" }])] }

/-- A pod `u1` with the log-policy annotation and the given deletion timestamp and
grace period. -/
def annotatedPod (deletionTimestamp : Option Int) (gracePeriodSeconds : Option Int) : Pod :=
  { UID := "u1"
    Namespace := "ns"
    Name := "p"
    Annotations := [(PodLogPolicyLabelKey, "policy")]
    DeletionTimestamp := deletionTimestamp
    DeletionGracePeriodSeconds := gracePeriodSeconds
    Conditions := [] }

/-- A manager in which the plugin `lp` is registered, pod `u1` has the given
policy, no log volumes and the key `ns/m`, and the plugin was observed to hold
the config `c1` for `u1`. -/
def trackingManager (policy : PodLogPolicy) : ManagerImpl :=
  { logPlugins := [("lp", lpEndpoint)]
    podStateManager :=
      { podLogPolicies := [("u1", policy)]
        podLogVolumes := [("u1", [])]
        podConfigMaps := [("u1", ["ns/m"])]
        configMapPodUIDs := [("ns/m", ["u1"])] }
    pluginStateManager :=
      { podLogConfigNames := [("u1", ["c1"])]
        podLogPluginEndpoint := [("u1", lpEndpoint)] }
    calls := [] }

/-- The config that `buildPodLogConfigs` derives in `quietEnv` for pod `u1`,
container `c`, category `std` and the config-map entry `x.conf = A`. -/
def sampleConfig : Config :=
  { Metadata :=
      { Name := "u1_c_std_x.conf"
        PodNamespace := "ns"
        PodName := "p"
        PodUID := "u1"
        ContainerName := "c" }
    Spec := { Content := "A", Path := "/var/log/pods/u1", Category := "std" } }

/-- A world like `quietEnv` in which every config map holds the entry
`x.conf = A` and every plugin lists `sampleConfig`. -/
def pushEnv : Env :=
  { quietEnv with
    getConfigMap := fun ns name => .ok { Namespace := ns, Name := name, Data := [("x.conf", "A")] }
    listConfig := fun _ => .ok (some [sampleConfig]) }

/-- A manager in which the plugin `lp` is registered and pod `u1` has the `std`
policy; nothing has been observed in the plugin yet. -/
def freshManager : ManagerImpl :=
  { logPlugins := [("lp", lpEndpoint)]
    podStateManager :=
      { podLogPolicies := [("u1", stdPolicy false)]
        podLogVolumes := [("u1", [])]
        podConfigMaps := [("u1", ["ns/m"])]
        configMapPodUIDs := [("ns/m", ["u1"])] }
    pluginStateManager := newPluginStateManager
    calls := [] }

/-- A world like `quietEnv` in which every plugin answers `Unknown` to `getState`. -/
def unknownEnv : Env :=
  { quietEnv with getState := fun _ _ => .ok State.Unknown }

/-- A world like `pushEnv` (every plugin lists `sampleConfig`, the pod source is
empty) in which every config is still being collected. -/
def runningListEnv : Env :=
  { pushEnv with getState := fun _ _ => .ok State.Running }

/-- The endpoint of a second plugin, `lp2`. -/
def lp2Endpoint : pluginEndpoint :=
  { name := "lp2", socketPath := "/var/lib/kubelet/log-plugins/lp2.sock" }

/-- A config of pod `u2`, held by the plugin `lp2`. -/
def otherConfig : Config :=
  { Metadata :=
      { Name := "u2_c_std_x.conf"
        PodNamespace := "ns"
        PodName := "q"
        PodUID := "u2"
        ContainerName := "c" }
    Spec := { Content := "B", Path := "/var/log/pods/u2", Category := "std" } }

/-- A world like `quietEnv` with two plugins: `lp` lists `sampleConfig` (pod `u1`)
and every other plugin lists `otherConfig` (pod `u2`). -/
def twoPluginEnv : Env :=
  { quietEnv with
    listConfig := fun ep =>
      if ep.name = "lp" then .ok (some [sampleConfig]) else .ok (some [otherConfig]) }

/-- A manager with the plugins `lp` and `lp2` registered and empty stores. -/
def twoPluginManager : ManagerImpl :=
  { logPlugins := [("lp", lpEndpoint), ("lp2", lp2Endpoint)]
    podStateManager := newPodStateManager
    pluginStateManager := newPluginStateManager
    calls := [] }

/-- Every endpoint binding of the map is to `ep`. -/
def AllBoundTo (ep : pluginEndpoint) (endpoints : GoMap UID pluginEndpoint) : Prop :=
  ∀ podUID e, endpoints.get podUID = some e → e = ep

/-- A policy for the plugin `lp` with one file-log entry of container `c`:
category `app` on volume `v`. -/
def appPolicy : PodLogPolicy :=
  { LogPlugin := "lp"
    SafeDeletionEnabled := false
    ContainerLogPolicies :=
      [("c", [{ Category := "app", Path := "/logs", VolumeName := "v", PluginConfigMap := "m" }])] }

/-- A world like `pushEnv` in which the annotation decodes to `appPolicy` and no
volume is mounted (scenario S4). -/
def unmountedEnv : Env :=
  { pushEnv with
    unmarshal := fun _ => .ok appPolicy
    jsonUnmarshal := fun _ => .ok appPolicy.toNilable }

/-- A world like `unmountedEnv` in which the volume `v` is mounted at `/host/v`
(scenario S3). -/
def mountedEnv : Env :=
  { unmountedEnv with getMountedVolumesForPod := fun _ => [("v", "/host/v")] }

/-- A manager with no plugin registered in which pod `u1` has the `std` policy and
nothing is observed. -/
def unregisteredManager : ManagerImpl :=
  { freshManager with logPlugins := [] }

/-- A policy in which two file-log entries of container `c`, categories `app` and
`audit`, name the same volume `v`. -/
def sharedVolumePolicy : PodLogPolicy :=
  { LogPlugin := "lp"
    SafeDeletionEnabled := false
    ContainerLogPolicies :=
      [("c",
        [{ Category := "app", Path := "/logs/app", VolumeName := "v", PluginConfigMap := "m" },
          { Category := "audit", Path := "/logs/audit", VolumeName := "v",
            PluginConfigMap := "m" }])] }

/-- A world like `mountedEnv` in which the annotation decodes to
`sharedVolumePolicy`. -/
def sharedVolumeEnv : Env :=
  { mountedEnv with
    unmarshal := fun _ => .ok sharedVolumePolicy
    jsonUnmarshal := fun _ => .ok sharedVolumePolicy.toNilable }

/-- The one entry of `appPolicy`. -/
def appEntry : ContainerLogPolicy :=
  { Category := "app", Path := "/logs", VolumeName := "v", PluginConfigMap := "m" }

/-- The log volume of the entry `audit` of `sharedVolumePolicy` in
`sharedVolumeEnv`. -/
def auditLogVolume : logVolume :=
  { volumeName := "v", path := "/logs/audit", hostPath := "/host/v",
    logDirPath := "/var/log/pods/u1/c/audit" }

/-- The policy decoded from an annotation in which the list of container `c`
holds a JSON `null` followed by the entry `app` on volume `v`: the first entry
of container `c` is nil. -/
def nilEntryPolicy : Nilable.PodLogPolicy :=
  { LogPlugin := "lp"
    SafeDeletionEnabled := false
    ContainerLogPolicies := [("c", [none, some appEntry])] }

/-- A world like `pushEnv` in which the annotation decodes to `nilEntryPolicy`
and no volume is mounted. -/
def nilEntryEnv : Env :=
  { pushEnv with jsonUnmarshal := fun _ => .ok nilEntryPolicy }

/-- An entry `audit` on volume `w`. -/
def auditEntry : ContainerLogPolicy :=
  { Category := "audit", Path := "/logs/audit", VolumeName := "w", PluginConfigMap := "m" }

/-- The log volume of the entry `app` of container `c` of pod `u1`. -/
def appLogVolume : logVolume :=
  { volumeName := "v", path := "/logs", hostPath := "/host/v",
    logDirPath := "/var/log/pods/u1/c/app" }

/-- The config built in `pushEnv` for pod `u1`, container `c`, the entry `app` with
the log volume `appLogVolume`, and the config-map entry `x.conf = A`. -/
def appConfig : Config :=
  { Metadata :=
      { Name := "u1_c_app_x.conf"
        PodNamespace := "ns"
        PodName := "p"
        PodUID := "u1"
        ContainerName := "c" }
    Spec := { Content := "A", Path := "/var/log/pods/u1/c/app", Category := "app" } }

/-- A `std` entry reading the config map `m`. -/
def stdEntry : ContainerLogPolicy :=
  { Category := "std", Path := "-", VolumeName := "", PluginConfigMap := "m" }

/-- A policy whose container `c` has three entries: `std`, `app` on volume `v`
and `audit` on volume `w`. -/
def pathRulePolicy : PodLogPolicy :=
  { LogPlugin := "lp"
    SafeDeletionEnabled := false
    ContainerLogPolicies := [("c", [stdEntry, appEntry, auditEntry])] }

/-- A policy with the containers `a` and `a_b`, visited in this order: `a` has an
entry of category `b_c`, `a_b` an entry of category `c`, both on volume `v`. -/
def collisionPolicy : PodLogPolicy :=
  { LogPlugin := "lp"
    SafeDeletionEnabled := false
    ContainerLogPolicies :=
      [("a", [{ Category := "b_c", Path := "/logs", VolumeName := "v", PluginConfigMap := "m" }]),
        ("a_b", [{ Category := "c", Path := "/logs", VolumeName := "v", PluginConfigMap := "m" }])] }

/-- The policy `collisionPolicy` with the containers visited in the other order. -/
def collisionPolicySwapped : PodLogPolicy :=
  { LogPlugin := "lp"
    SafeDeletionEnabled := false
    ContainerLogPolicies :=
      [("a_b", [{ Category := "c", Path := "/logs", VolumeName := "v", PluginConfigMap := "m" }]),
        ("a", [{ Category := "b_c", Path := "/logs", VolumeName := "v", PluginConfigMap := "m" }])] }

/-- A policy with a `std` entry for each of the containers `a` and `b`, visited in
this order. -/
def twoContainerPolicy : PodLogPolicy :=
  { LogPlugin := "lp"
    SafeDeletionEnabled := false
    ContainerLogPolicies := [("a", [stdEntry]), ("b", [stdEntry])] }

/-- The policy `twoContainerPolicy` with the containers visited in the other
order. -/
def twoContainerPolicySwapped : PodLogPolicy :=
  { LogPlugin := "lp"
    SafeDeletionEnabled := false
    ContainerLogPolicies := [("b", [stdEntry]), ("a", [stdEntry])] }

/-- The config was built from entry `e` of container `containerName`: it carries
the pod and the container, the category of the entry, and the path the entry
calls for: the standard log directory of the pod for `std`, the `logDirPath`
of the log volume stored under the volume name of the entry otherwise. -/
def BuiltFrom (env : Env) (pod : Pod) (podLogVolumes : logVolumesMap) (containerName : String)
    (e : ContainerLogPolicy) (cfg : Config) : Prop :=
  cfg.Metadata.ContainerName = containerName ∧ cfg.Metadata.PodUID = pod.UID ∧
  cfg.Metadata.PodNamespace = pod.Namespace ∧ cfg.Metadata.PodName = pod.Name ∧
  cfg.Spec.Category = e.Category ∧
  (e.Category = podLogPolicyCategoryStd → cfg.Spec.Path = env.buildPodLogsDirectory pod.UID) ∧
  (e.Category ≠ podLogPolicyCategoryStd →
    ∃ lv, podLogVolumes.get e.VolumeName = some lv ∧ cfg.Spec.Path = lv.logDirPath)

/-- The config that the innermost loop of `buildPodLogConfigs` builds for one
entry `(filename, content)` of a config map. -/
def fileConfig (env : Env) (pod : Pod) (containerName category path : String)
    (entry : String × String) : Config :=
  { Metadata :=
      { Name := env.buildLogConfigName pod.UID containerName category entry.1
        PodNamespace := pod.Namespace
        PodName := pod.Name
        PodUID := pod.UID
        ContainerName := containerName }
    Spec := { Content := entry.2, Path := path, Category := category } }

/-- The path that `buildPodLogConfigs` gives the configs of an entry: the standard
log directory of the pod when the category is `std`, otherwise the
`logDirPath` of the log volume stored under the volume name of the entry;
an entry that is not `std` and whose volume name is not in `podLogVolumes` has
no path. -/
def EntryPath (env : Env) (pod : Pod) (podLogVolumes : logVolumesMap) (e : ContainerLogPolicy)
    (path : String) : Prop :=
  (e.Category = podLogPolicyCategoryStd ∧ path = env.buildPodLogsDirectory pod.UID) ∨
  (e.Category ≠ podLogPolicyCategoryStd ∧
    ∃ lv, podLogVolumes.get e.VolumeName = some lv ∧ path = lv.logDirPath)

/-- The config `cfg` is the one that entry `e` of container `containerName` yields
under the name `n`: the config built, with the path of the entry, for a key of
the config map that the entry names. -/
def FileOf (env : Env) (pod : Pod) (podLogVolumes : logVolumesMap) (containerName : String)
    (e : ContainerLogPolicy) (n : String) (cfg : Config) : Prop :=
  ∃ cm entry path, env.getConfigMap pod.Namespace e.PluginConfigMap = .ok cm ∧
    entry ∈ cm.Data ∧ EntryPath env pod podLogVolumes e path ∧
    n = env.buildLogConfigName pod.UID containerName e.Category entry.1 ∧
    cfg = fileConfig env pod containerName e.Category path entry

/-- The name `n` is one that the entries `clps` of container `containerName` can
give to a config: the name built for an entry and a key of its config map. -/
def WrittenBy (env : Env) (pod : Pod) (containerName : String)
    (clps : List ContainerLogPolicy) (n : String) : Prop :=
  ∃ e ∈ clps, ∃ cm, env.getConfigMap pod.Namespace e.PluginConfigMap = .ok cm ∧
    ∃ entry ∈ cm.Data, n = env.buildLogConfigName pod.UID containerName e.Category entry.1

/-- The two worlds hold the same config maps in the namespace, up to the order in
which the entries of a config map are visited: a fetch fails in both or
succeeds in both, with the entries of one a permutation of those of the other,
each key occurring once. -/
def SameConfigMaps (env env' : Env) (ns : String) : Prop :=
  ∀ name,
    (∃ e e', env.getConfigMap ns name = .error e ∧ env'.getConfigMap ns name = .error e') ∨
    (∃ cm cm', env.getConfigMap ns name = .ok cm ∧ env'.getConfigMap ns name = .ok cm' ∧
      cm.Data.Perm cm'.Data ∧ (cm.Data.map Prod.fst).Nodup)

/-- Two results of `buildPodLogConfigs` are the same: both are errors, or both are
maps with the same config under every name. -/
def SameResult (r r' : Except Error logConfigsMap) : Prop :=
  match r, r' with
  | .ok a, .ok a' => ∀ n, a.get n = a'.get n
  | .error _, .error _ => True
  | _, _ => False

/-- Two results of a loop of `buildPodLogConfigs`, started from the maps `acc` and
`acc'`, go together: both are errors, or both are maps that give a name the
same config whenever `acc` and `acc'` did. -/
def AgreeFrom (acc acc' : logConfigsMap) (r r' : Except Error logConfigsMap) : Prop :=
  match r, r' with
  | .ok a, .ok a' => ∀ n, acc.get n = acc'.get n → a.get n = a'.get n
  | .error _, .error _ => True
  | _, _ => False

/-! ## Plugin registration (`manager.go`) -/

/-- The fields of `pluginapi.RegisterRequest`. -/
structure RegisterRequest where
  Version : String
  Endpoint : String
  Name : String
  deriving DecidableEq, Repr

/-- The first half of the critical section of `addEndpoint`: `stop()` is called on
the endpoint the table holds under the name, if there is one; the table is not
written. -/
def ManagerImpl.stopOldLogPlugin (m : ManagerImpl) (name : String) : ManagerImpl :=
  match m.logPlugins.get name with
  | some oldLogPlugin => { m with calls := m.calls ++ [Call.stop oldLogPlugin] }
  | none => m

/-- The method `addEndpoint`: the endpoint is constructed; when that fails the
method returns, otherwise the old endpoint is stopped and the table entry is
written. -/
def ManagerImpl.addEndpoint (env : Env) (m : ManagerImpl) (r : RegisterRequest) : ManagerImpl :=
  let socketPath := env.join env.LogPluginPath r.Endpoint
  let m0 := { m with calls := m.calls ++ [Call.newEndpointImpl socketPath r.Name] }
  match env.newEndpointImpl socketPath r.Name with
  | .error _ => m0
  | .ok e =>
    let m1 := m0.stopOldLogPlugin r.Name
    { m1 with logPlugins := m1.logPlugins.set r.Name e }

/-- What `Register` leaves behind when it returns: the error (if any), the
manager, and the requests for which it started `go m.addEndpoint(r)`; the
started calls have not run yet. -/
structure RegisterResult where
  err : Option Error
  manager : ManagerImpl
  started : List RegisterRequest
  deriving DecidableEq, Repr

/-- The method `Register`. -/
def ManagerImpl.Register (env : Env) (m : ManagerImpl) (r : RegisterRequest) : RegisterResult :=
  if r.Version ≠ env.Version then
    { err := some ("invalid version: " ++ r.Version ++ ", expected: " ++ env.Version)
      manager := m
      started := [] }
  else
    { err := none, manager := m, started := [r] }

/-- The manager after the `addEndpoint` calls that `Register` started have run. -/
def RegisterResult.settle (env : Env) (res : RegisterResult) : ManagerImpl :=
  res.started.foldl (ManagerImpl.addEndpoint env) res.manager

/-- A registration request of the plugin `lp` with the supported version. -/
def lpRequest : RegisterRequest :=
  { Version := "v1alpha1", Endpoint := "lp-new.sock", Name := "lp" }

/-- The reverse index holds the pod under the key. -/
def InIndex (idx : GoMap String StringSet) (key : String) (podUID : UID) : Prop :=
  ∃ s, idx.get key = some s ∧ podUID ∈ s

/-- Every key stored for a pod has the pod in its reverse-index entry. -/
def ForwardIndexed (m : podStateManager) : Prop :=
  ∀ podUID keys, m.podConfigMaps.get podUID = some keys →
    ∀ key ∈ keys, InIndex m.configMapPodUIDs key podUID

/-- The plugin state store after a sequence of `updateAllLogConfigs` calls,
starting from `m`. -/
def runUpdateAllLogConfigs (m : pluginStateManager)
    (calls : List (Option (List Config) × pluginEndpoint)) : pluginStateManager :=
  calls.foldl (fun acc call => acc.updateAllLogConfigs call.1 call.2) m

/-- The two maps of a plugin state store go together: a pod has a config-name
entry exactly when it has an endpoint binding, and no stored set is empty. -/
def PluginStoreWF (names : GoMap UID StringSet) (endpoints : GoMap UID pluginEndpoint) : Prop :=
  (∀ podUID, podUID ∈ names.keys ↔ podUID ∈ endpoints.keys) ∧ NoEmptyEntry names

end LogManager

/-! # The CPU manager state checkpoint (`cm/cpumanager/state/state_checkpoint.go`) -/

namespace CPUManagerState

/-- A value of `cpuset.CPUSet`: the ids of the CPUs it holds. -/
abbrev CPUSet := List Nat

/-- The type `ContainerCPUAssignments`: container id to CPU set. -/
abbrev ContainerCPUAssignments := LogManager.GoMap String CPUSet

/-- The in-memory `State` behind `sc.cache`: the default CPU set and the
container assignments. -/
structure stateMemory where
  assignments : ContainerCPUAssignments
  defaultCPUSet : CPUSet
  deriving DecidableEq, Repr

namespace stateMemory

/-- The method `SetDefaultCPUSet` of the cache. -/
def SetDefaultCPUSet (s : stateMemory) (cset : CPUSet) : stateMemory :=
  { s with defaultCPUSet := cset }

/-- The method `SetCPUAssignments` of the cache. -/
def SetCPUAssignments (s : stateMemory) (a : ContainerCPUAssignments) : stateMemory :=
  { s with assignments := a }

end stateMemory

/-- The fields of `CPUManagerCheckpoint` that `restoreState` and `storeState`
read and write. -/
structure CPUManagerCheckpoint where
  PolicyName : String
  DefaultCPUSet : String
  Entries : LogManager.GoMap String String
  deriving DecidableEq, Repr

/-- The error of `GetCheckpoint`: the value `errors.ErrCheckpointNotFound`, or any
other error. -/
inductive GetCheckpointError where
  | ErrCheckpointNotFound
  | other (err : String)
  deriving DecidableEq, Repr

/-- The answers of the checkpoint manager and of the package `cpuset`:
`GetCheckpoint`, `CreateCheckpoint`, `cpuset.Parse` and the method `String` of a
CPU set. -/
structure Env where
  getCheckpoint : String → Except GetCheckpointError CPUManagerCheckpoint
  createCheckpoint : String → CPUManagerCheckpoint → Option String
  parse : String → Except String CPUSet
  format : CPUSet → String

/-- The struct `stateCheckpoint` (the lock is not modelled).  `created` is the
record of the checkpoints handed to `CreateCheckpoint`, oldest first. -/
structure stateCheckpoint where
  policyName : String
  cache : stateMemory
  checkpointName : String
  created : List CPUManagerCheckpoint
  deriving DecidableEq, Repr

/-- The method `storeState`. -/
def stateCheckpoint.storeState (env : Env) (sc : stateCheckpoint) :
    Option String × stateCheckpoint :=
  let checkpoint : CPUManagerCheckpoint :=
    { PolicyName := sc.policyName
      DefaultCPUSet := env.format sc.cache.defaultCPUSet
      Entries := sc.cache.assignments.foldl
        (fun entries p => LogManager.GoMap.set entries p.1 (env.format p.2)) [] }
  (env.createCheckpoint sc.checkpointName checkpoint,
    { sc with created := sc.created ++ [checkpoint] })

/-- The loop of `restoreState` over the entries of the checkpoint, left at the
first entry that does not parse. -/
def parseEntries (env : Env) :
    List (String × String) → ContainerCPUAssignments → Except String ContainerCPUAssignments
  | [], tmpAssignments => .ok tmpAssignments
  | (containerID, cpuString) :: rest, tmpAssignments =>
    match env.parse cpuString with
    | .error err =>
      .error ("could not parse cpuset " ++ cpuString ++ " for container id " ++ containerID
        ++ ": " ++ err)
    | .ok tmpContainerCPUSet =>
      parseEntries env rest (LogManager.GoMap.set tmpAssignments containerID tmpContainerCPUSet)

/-- The method `restoreState`. -/
def stateCheckpoint.restoreState (env : Env) (sc : stateCheckpoint) :
    Option String × stateCheckpoint :=
  match env.getCheckpoint sc.checkpointName with
  | .error GetCheckpointError.ErrCheckpointNotFound => sc.storeState env
  | .error (GetCheckpointError.other err) => (some err, sc)
  | .ok checkpoint =>
    if sc.policyName ≠ checkpoint.PolicyName then
      (some ("configured policy " ++ sc.policyName ++ " differs from state checkpoint policy "
        ++ checkpoint.PolicyName), sc)
    else
      match env.parse checkpoint.DefaultCPUSet with
      | .error err =>
        (some ("could not parse default cpu set " ++ checkpoint.DefaultCPUSet ++ ": " ++ err), sc)
      | .ok tmpDefaultCPUSet =>
        match parseEntries env checkpoint.Entries [] with
        | .error err => (some err, sc)
        | .ok tmpAssignments =>
          (none, { sc with
            cache := (sc.cache.SetDefaultCPUSet tmpDefaultCPUSet).SetCPUAssignments
              tmpAssignments })

end CPUManagerState

/-! # The container hash shim (`container/hackhash.go`) -/

namespace Container

/-- The class `\s` of Go regular expressions: tab, newline, form feed, carriage
return and space. -/
def isSpace (c : Char) : Bool :=
  c.toNat = 9 || c.toNat = 10 || c.toNat = 12 || c.toNat = 13 || c.toNat = 32

/-- The class `[\s}]` that ends a field value. -/
def isTerminator (c : Char) : Bool :=
  isSpace c || c.toNat = 125

/-- The literal part of the pattern. -/
def fieldName : List Char := "VolumeDevices:".data

/-- The literal at the start of the text: what follows it, if it is there. -/
def stripLiteral : List Char → List Char → Option (List Char)
  | [], l => some l
  | _ :: _, [] => none
  | a :: lit, b :: l => if a = b then stripLiteral lit l else none

/-- The part `(.*?)([\s}])` of the pattern at the start of the text: the lazy
group stops before the first character of the class `[\s}]`, which is group 2;
the result is that character and the text after it.  The dot does not match a
newline, but a newline is in the class, so the lazy group never meets one. -/
def matchValue : List Char → Option (Char × List Char)
  | [] => none
  | c :: rest => if isTerminator c then some (c, rest) else matchValue rest

/-- A match of the whole pattern that starts at the start of the text: group 2
and the text after the match.  The greedy `\s*` takes the whole run of
characters of the class `\s`; giving some of them back cannot help, since the
literal starts with `V`. -/
def matchAt (l : List Char) : Option (Char × List Char) :=
  match stripLiteral fieldName (l.dropWhile isSpace) with
  | none => none
  | some rest => matchValue rest

/-- The loop of `ReplaceAllString` for the pattern and the template `${2}`: at
each position the leftmost match is looked for; a match is replaced by its
group 2 and the scan goes on after it, otherwise the character is copied. -/
def replaceAllFrom : Nat → List Char → List Char
  | 0, l => l
  | _ + 1, [] => []
  | fuel + 1, c :: rest =>
    match matchAt (c :: rest) with
    | some (t, after) => t :: replaceAllFrom fuel after
    | none => c :: replaceAllFrom fuel rest

/-- The call `re.ReplaceAllString(s, "${2}")` for the pattern
`\s*VolumeDevices:(.*?)([\s}])`: the text is scanned from the left, every match
is replaced by its group 2, and the scan goes on after the match.  A step
consumes at least one character, so the length of the text is fuel enough. -/
def ReplaceAllString (l : List Char) : List Char :=
  replaceAllFrom l.length l

/-- The function `hackGoString19to18`. -/
def hackGoString19to18 (s : String) : String :=
  String.mk (ReplaceAllString s.data)

/-- The text holds the literal `VolumeDevices:`. -/
def ContainsField (l : List Char) : Prop :=
  ∃ pre post, l = pre ++ fieldName ++ post

/-- A check of `ContainsField`. -/
def hasField : List Char → Bool
  | [] => false
  | c :: rest => (stripLiteral fieldName (c :: rest)).isSome || hasField rest

end Container

namespace LogManager

/-! ## Facts about sets and maps -/

theorem StringSet.mem_Insert (s : StringSet) (x y : String) :
    y ∈ s.Insert x ↔ y ∈ s ∨ y = x := by
  unfold StringSet.Insert
  by_cases h : x ∈ s
  · simp only [h, if_true]
    constructor
    · exact Or.inl
    · rintro (h1 | h1)
      · exact h1
      · exact h1 ▸ h
  · simp [h]

theorem StringSet.Insert_ne_nil (s : StringSet) (x : String) : s.Insert x ≠ [] := by
  intro h
  have : x ∈ s.Insert x := (StringSet.mem_Insert s x x).2 (Or.inr rfl)
  rw [h] at this
  exact List.not_mem_nil _ this

theorem StringSet.mem_Delete (s : StringSet) (x y : String) :
    y ∈ s.Delete x ↔ y ∈ s ∧ y ≠ x := by
  simp [StringSet.Delete]

theorem StringSet.mem_Difference (s t : StringSet) (y : String) :
    y ∈ s.Difference t ↔ y ∈ s ∧ y ∉ t := by
  simp [StringSet.Difference]

theorem StringSet.mem_foldl_Insert (l : List String) (s : StringSet) (y : String) :
    y ∈ l.foldl StringSet.Insert s ↔ y ∈ s ∨ y ∈ l := by
  induction l generalizing s with
  | nil => simp
  | cons a l ih =>
    rw [List.foldl_cons, ih, StringSet.mem_Insert]
    simp only [List.mem_cons]
    tauto

theorem StringSet.nodup_Insert (s : StringSet) (x : String) (h : s.Nodup) :
    (s.Insert x).Nodup := by
  unfold StringSet.Insert
  by_cases hx : x ∈ s
  · simpa [hx] using h
  · simp only [hx, if_false]
    rw [List.nodup_append]
    refine ⟨h, List.nodup_singleton x, ?_⟩
    intro a ha hb
    simp only [List.mem_singleton] at hb
    exact hx (hb ▸ ha)

theorem StringSet.nodup_foldl_Insert (l : List String) (s : StringSet) (h : s.Nodup) :
    (l.foldl StringSet.Insert s).Nodup := by
  induction l generalizing s with
  | nil => simpa using h
  | cons a l ih => exact ih _ (StringSet.nodup_Insert s a h)

section GoMapFacts

variable {K V : Type} [DecidableEq K]

theorem GoMap.get_delete (m : GoMap K V) (k k' : K) :
    (m.delete k).get k' = if k' = k then none else m.get k' := by
  induction m with
  | nil => simp [GoMap.delete, GoMap.get]
  | cons p m ih =>
    obtain ⟨a, b⟩ := p
    simp only [GoMap.delete, GoMap.get] at ih ⊢
    by_cases hak : a = k
    · subst hak
      by_cases hk : k' = a
      · subst hk
        simpa [List.filter_cons] using ih
      · have hne : (k' == a) = false := by simpa using hk
        simp only [List.filter_cons, ne_eq, not_true_eq_false, decide_False, Bool.false_eq_true,
          if_false, List.lookup_cons, hne]
        simpa [hk] using ih
    · have hdec : decide ((a, b).1 ≠ k) = true := by simpa using hak
      simp only [List.filter_cons, hdec, if_true, List.lookup_cons]
      by_cases hk : k' = a
      · subst hk
        simp [hak]
      · have hne : (k' == a) = false := by simpa using hk
        simp only [hne]
        exact ih

theorem GoMap.get_set (m : GoMap K V) (k k' : K) (v : V) :
    (m.set k v).get k' = if k' = k then some v else m.get k' := by
  by_cases hk : k' = k
  · subst hk
    simp [GoMap.set, GoMap.get, List.lookup_cons]
  · have hne : (k' == k) = false := by simpa using hk
    have h := GoMap.get_delete m k k'
    simp only [GoMap.get] at h
    simp only [GoMap.set, GoMap.get, List.lookup_cons, hne, hk, if_false]
    simpa [hk] using h

theorem GoMap.mem_delete (m : GoMap K V) (k : K) (p : K × V) :
    p ∈ m.delete k ↔ p ∈ m ∧ p.1 ≠ k := by
  simp [GoMap.delete]

theorem GoMap.mem_set (m : GoMap K V) (k : K) (v : V) (p : K × V) :
    p ∈ m.set k v ↔ p = (k, v) ∨ (p ∈ m ∧ p.1 ≠ k) := by
  simp [GoMap.set, GoMap.mem_delete]

theorem GoMap.mem_of_get (m : GoMap K V) (k : K) (v : V) (h : m.get k = some v) :
    (k, v) ∈ m := by
  induction m with
  | nil => simp [GoMap.get] at h
  | cons p m ih =>
    obtain ⟨a, b⟩ := p
    simp only [GoMap.get, List.lookup_cons] at h ih
    by_cases hk : k = a
    · subst hk
      simp only [beq_self_eq_true, Option.some.injEq] at h
      subst h
      exact List.mem_cons_self _ _
    · have hne : (k == a) = false := by simpa using hk
      simp only [hne] at h
      exact List.mem_cons_of_mem _ (ih h)

theorem GoMap.get_isSome_of_mem_keys (m : GoMap K V) (k : K) (h : k ∈ m.keys) :
    ∃ v, m.get k = some v := by
  induction m with
  | nil => simp [GoMap.keys] at h
  | cons p m ih =>
    obtain ⟨a, b⟩ := p
    simp only [GoMap.keys, List.map_cons, List.mem_cons] at h
    simp only [GoMap.get, List.lookup_cons]
    by_cases hk : k = a
    · subst hk
      exact ⟨b, by simp⟩
    · have hne : (k == a) = false := by simpa using hk
      simp only [hne]
      rcases h with h | h
      · exact absurd h hk
      · exact ih h

theorem GoMap.mem_keys_of_get (m : GoMap K V) (k : K) (v : V) (h : m.get k = some v) :
    k ∈ m.keys := by
  have := GoMap.mem_of_get m k v h
  exact List.mem_map.2 ⟨(k, v), this, rfl⟩

end GoMapFacts

/-! ## The reverse index of the pod state store -/

theorem NoEmptyEntry_addPodUID (podUID : UID) (idx : GoMap String StringSet) (key : String)
    (h : NoEmptyEntry idx) : NoEmptyEntry (podStateManager.addPodUID podUID idx key) := by
  intro p hp
  unfold podStateManager.addPodUID at hp
  cases hget : idx.get key with
  | none =>
    rw [hget] at hp
    rcases (GoMap.mem_set _ _ _ _).1 hp with h1 | h1
    · rw [h1]; exact StringSet.Insert_ne_nil StringSet.NewString podUID
    · exact h p h1.1
  | some podUIDs =>
    rw [hget] at hp
    rcases (GoMap.mem_set _ _ _ _).1 hp with h1 | h1
    · rw [h1]; exact StringSet.Insert_ne_nil podUIDs podUID
    · exact h p h1.1

theorem NoEmptyEntry_dropPodUID (podUID : UID) (idx : GoMap String StringSet) (key : String)
    (h : NoEmptyEntry idx) : NoEmptyEntry (podStateManager.dropPodUID podUID idx key) := by
  intro p hp
  unfold podStateManager.dropPodUID at hp
  cases hget : idx.get key with
  | none =>
    rw [hget] at hp
    exact h p hp
  | some podUIDs =>
    rw [hget] at hp
    by_cases hlen : (StringSet.Delete podUIDs podUID).Len = 0
    · simp only [hlen, if_true] at hp
      exact h p ((GoMap.mem_delete _ _ _).1 hp).1
    · simp only [hlen, if_false] at hp
      rcases (GoMap.mem_set _ _ _ _).1 hp with h1 | h1
      · rw [h1]
        intro hnil
        apply hlen
        have hnil1 : StringSet.Delete podUIDs podUID = [] := hnil
        show (StringSet.Delete podUIDs podUID).length = 0
        rw [hnil1]; rfl
      · exact h p h1.1

theorem NoEmptyEntry_foldl_addPodUID (podUID : UID) (keys : List String)
    (idx : GoMap String StringSet) (h : NoEmptyEntry idx) :
    NoEmptyEntry (keys.foldl (podStateManager.addPodUID podUID) idx) := by
  induction keys generalizing idx with
  | nil => exact h
  | cons k keys ih => exact ih _ (NoEmptyEntry_addPodUID podUID idx k h)

theorem NoEmptyEntry_foldl_dropPodUID (podUID : UID) (keys : List String)
    (idx : GoMap String StringSet) (h : NoEmptyEntry idx) :
    NoEmptyEntry (keys.foldl (podStateManager.dropPodUID podUID) idx) := by
  induction keys generalizing idx with
  | nil => exact h
  | cons k keys ih => exact ih _ (NoEmptyEntry_dropPodUID podUID idx k h)

theorem NoEmptyEntry_apply (m : podStateManager) (op : ConfigMapOp)
    (h : NoEmptyEntry m.configMapPodUIDs) : NoEmptyEntry (op.apply m).configMapPodUIDs := by
  cases op with
  | update podUID configMapKeys =>
    exact NoEmptyEntry_foldl_addPodUID podUID configMapKeys _ h
  | remove podUID =>
    show NoEmptyEntry (m.removeConfigMapKeys podUID).configMapPodUIDs
    unfold podStateManager.removeConfigMapKeys
    cases hget : m.podConfigMaps.get podUID with
    | none => exact h
    | some configMapKeys => exact NoEmptyEntry_foldl_dropPodUID podUID configMapKeys _ h

theorem NoEmptyEntry_run (ops : List ConfigMapOp) (m : podStateManager)
    (h : NoEmptyEntry m.configMapPodUIDs) :
    NoEmptyEntry (runConfigMapOps m ops).configMapPodUIDs := by
  induction ops generalizing m with
  | nil => exact h
  | cons op ops ih => exact ih _ (NoEmptyEntry_apply m op h)

/-- C4 (the defect): replacing the key set of a pod leaves the pod in the
reverse-index entry of a key it no longer references.  After
`updateConfigMapKeys("u", {"a"})` and `updateConfigMapKeys("u", {"b"})` the pod
`u` is still in `getPodUIDs("a")` although `a` is not among the keys stored
for `u`. -/
theorem reverse_index_keeps_replaced_key :
    "u" ∈ (runConfigMapOps newPodStateManager
        [ConfigMapOp.update "u" ["a"], ConfigMapOp.update "u" ["b"]]).getPodUIDs "a" ∧
      "a" ∉ (runConfigMapOps newPodStateManager
        [ConfigMapOp.update "u" ["a"], ConfigMapOp.update "u" ["b"]]).configMapKeysOf "u" := by
  decide

/-- C5 (the defect): after `updateConfigMapKeys("u", {"a"})`,
`updateConfigMapKeys("u", {"b"})` and then `removeConfigMapKeys("u")`, the pod
`u` is still in `getPodUIDs("a")`, and `a` is still returned by
`getAllConfigMapKeys`. -/
theorem removed_pod_stays_in_reverse_index :
    "u" ∈ (runConfigMapOps newPodStateManager
        [ConfigMapOp.update "u" ["a"], ConfigMapOp.update "u" ["b"],
          ConfigMapOp.remove "u"]).getPodUIDs "a" ∧
      "a" ∈ (runConfigMapOps newPodStateManager
        [ConfigMapOp.update "u" ["a"], ConfigMapOp.update "u" ["b"],
          ConfigMapOp.remove "u"]).getAllConfigMapKeys := by
  decide

/-- C6: in every state of the pod state store reached from the empty store by
`updateConfigMapKeys` and `removeConfigMapKeys` calls, every entry of the
reverse index holds a non-empty set, and every key returned by
`getAllConfigMapKeys` has at least one pod in `getPodUIDs`. -/
theorem no_empty_reverse_index_entry (ops : List ConfigMapOp) (key : String)
    (hkey : key ∈ (runConfigMapOps newPodStateManager ops).getAllConfigMapKeys) :
    (∀ p ∈ (runConfigMapOps newPodStateManager ops).configMapPodUIDs, p.2.Len ≠ 0) ∧
      ∃ podUID, podUID ∈ (runConfigMapOps newPodStateManager ops).getPodUIDs key := by
  have hinv : NoEmptyEntry (runConfigMapOps newPodStateManager ops).configMapPodUIDs :=
    NoEmptyEntry_run ops newPodStateManager (by intro p hp; cases hp)
  constructor
  · intro p hp hlen
    exact hinv p hp (List.length_eq_zero.1 hlen)
  · have hk : key ∈ (runConfigMapOps newPodStateManager ops).configMapPodUIDs.keys := by
      have := (StringSet.mem_foldl_Insert _ _ _).1 hkey
      rcases this with h | h
      · cases h
      · exact h
    obtain ⟨s, hs⟩ := GoMap.get_isSome_of_mem_keys _ _ hk
    have hne := hinv _ (GoMap.mem_of_get _ _ _ hs)
    unfold podStateManager.getPodUIDs
    rw [hs]
    cases s with
    | nil => exact absurd rfl hne
    | cons a s => exact ⟨a, List.mem_cons_self _ _⟩

/-- C6 at a concrete run: two pods share the key `ns/m`, one of them is removed. -/
theorem no_empty_reverse_index_entry_witness :
    "ns/m" ∈ (runConfigMapOps newPodStateManager
        [ConfigMapOp.update "u1" ["ns/m"], ConfigMapOp.update "u2" ["ns/m"],
          ConfigMapOp.remove "u1"]).getAllConfigMapKeys ∧
      ((∀ p ∈ (runConfigMapOps newPodStateManager
        [ConfigMapOp.update "u1" ["ns/m"], ConfigMapOp.update "u2" ["ns/m"],
          ConfigMapOp.remove "u1"]).configMapPodUIDs, p.2.Len ≠ 0) ∧
      ∃ podUID, podUID ∈ (runConfigMapOps newPodStateManager
        [ConfigMapOp.update "u1" ["ns/m"], ConfigMapOp.update "u2" ["ns/m"],
          ConfigMapOp.remove "u1"]).getPodUIDs "ns/m") :=
  ⟨by decide, no_empty_reverse_index_entry _ "ns/m" (by decide)⟩

/-! ## `checkCollectFinished` -/

theorem checkStates_eq_true_iff (env : Env) (ep : pluginEndpoint) (names : List String) :
    (ManagerImpl.checkStates env ep names).1 = true ↔
      ∀ n ∈ names, ∃ st, env.getState ep n = .ok st ∧ st ≠ State.Running := by
  induction names with
  | nil => simp [ManagerImpl.checkStates]
  | cons a names ih =>
    unfold ManagerImpl.checkStates
    cases hst : env.getState ep a with
    | error e =>
      simp only [Bool.false_eq_true, List.mem_cons, false_iff, not_forall]
      exact ⟨a, Or.inl rfl, by simp [hst]⟩
    | ok st =>
      by_cases hr : st = State.Running
      · simp only [hr, if_true, Bool.false_eq_true, List.mem_cons, false_iff, not_forall]
        exact ⟨a, Or.inl rfl, by simp [hst, hr]⟩
      · simp only [hr, if_false, ih, List.mem_cons]
        constructor
        · rintro h n (rfl | hn)
          · exact ⟨st, hst, hr⟩
          · exact h n hn
        · intro h n hn
          exact h n (Or.inr hn)

theorem checkStates_calls (env : Env) (ep : pluginEndpoint) (names : List String) :
    ∀ c ∈ (ManagerImpl.checkStates env ep names).2, ∃ n, c = Call.getState ep n := by
  induction names with
  | nil => simp [ManagerImpl.checkStates]
  | cons a names ih =>
    unfold ManagerImpl.checkStates
    cases hst : env.getState ep a with
    | error e =>
      intro c hc
      simp only [List.mem_singleton] at hc
      exact ⟨a, hc⟩
    | ok st =>
      by_cases hr : st = State.Running
      · intro c hc
        simp only [hr, if_true, List.mem_singleton] at hc
        exact ⟨a, hc⟩
      · intro c hc
        simp only [hr, if_false, List.mem_cons] at hc
        rcases hc with hc | hc
        · exact ⟨a, hc⟩
        · exact ih c hc

/-- What `checkCollectFinished` leaves alone: the endpoint table and both stores;
the calls it issues are `getState` calls. -/
theorem checkCollectFinished_frame (env : Env) (m : ManagerImpl) (podUID : UID)
    (policy : PodLogPolicy) :
    (ManagerImpl.checkCollectFinished env m podUID policy).2.logPlugins = m.logPlugins ∧
    (ManagerImpl.checkCollectFinished env m podUID policy).2.podStateManager
      = m.podStateManager ∧
    (ManagerImpl.checkCollectFinished env m podUID policy).2.pluginStateManager
      = m.pluginStateManager ∧
    ∃ issued, (ManagerImpl.checkCollectFinished env m podUID policy).2.calls = m.calls ++ issued ∧
      ∀ c ∈ issued, ∃ ep n, c = Call.getState ep n := by
  unfold ManagerImpl.checkCollectFinished
  by_cases hlen : (m.pluginStateManager.getLogConfigNames podUID).Len = 0
  · rw [if_pos hlen]
    exact ⟨rfl, rfl, rfl, [], by simp, by simp⟩
  · rw [if_neg hlen]
    cases hep : m.getLogPluginEndpoint policy.LogPlugin with
    | error e => exact ⟨rfl, rfl, rfl, [], by simp, by simp⟩
    | ok ep =>
      refine ⟨rfl, rfl, rfl, _, rfl, ?_⟩
      intro c hc
      obtain ⟨n, hn⟩ := checkStates_calls env ep _ c hc
      exact ⟨ep, n, hn⟩

theorem checkCollectFinished_eq_true_iff (env : Env) (m : ManagerImpl) (podUID : UID)
    (policy : PodLogPolicy) :
    (ManagerImpl.checkCollectFinished env m podUID policy).1 = true ↔
      (m.pluginStateManager.getLogConfigNames podUID = [] ∨
        ∃ ep, m.logPlugins.get policy.LogPlugin = some ep ∧
          ∀ n ∈ m.pluginStateManager.getLogConfigNames podUID,
            ∃ st, env.getState ep n = .ok st ∧ st ≠ State.Running) := by
  unfold ManagerImpl.checkCollectFinished
  by_cases hlen : (m.pluginStateManager.getLogConfigNames podUID).Len = 0
  · have hnil : m.pluginStateManager.getLogConfigNames podUID = [] := List.length_eq_zero.1 hlen
    rw [if_pos hlen]
    simp [hnil]
  · have hnil : m.pluginStateManager.getLogConfigNames podUID ≠ [] :=
      fun h => hlen (by rw [h]; rfl)
    rw [if_neg hlen]
    simp only [hnil, false_or]
    unfold ManagerImpl.getLogPluginEndpoint
    cases hep : m.logPlugins.get policy.LogPlugin with
    | none => simp
    | some ep =>
      simp only [checkStates_eq_true_iff, Option.some.injEq, exists_eq_left']

/-- C7: `checkCollectFinished` returns true exactly when the plugin state store
holds no config name for the pod, or the plugin named by the policy is
registered and `getState` succeeds with a state other than `Running` for every
observed config name.  With a config name observed, it is false when the plugin
is not registered, when a `getState` fails and when a state is `Running`; and it
is true when every state is `Unknown`. -/
theorem checkCollectFinished_spec (env : Env) (m : ManagerImpl) (podUID : UID)
    (policy : PodLogPolicy) :
    ((ManagerImpl.checkCollectFinished env m podUID policy).1 = true ↔
      (m.pluginStateManager.getLogConfigNames podUID = [] ∨
        ∃ ep, m.logPlugins.get policy.LogPlugin = some ep ∧
          ∀ n ∈ m.pluginStateManager.getLogConfigNames podUID,
            ∃ st, env.getState ep n = .ok st ∧ st ≠ State.Running)) ∧
    (m.pluginStateManager.getLogConfigNames podUID ≠ [] →
      m.logPlugins.get policy.LogPlugin = none →
      (ManagerImpl.checkCollectFinished env m podUID policy).1 = false) ∧
    (∀ ep n e, m.logPlugins.get policy.LogPlugin = some ep →
      n ∈ m.pluginStateManager.getLogConfigNames podUID → env.getState ep n = .error e →
      (ManagerImpl.checkCollectFinished env m podUID policy).1 = false) ∧
    (∀ ep n, m.logPlugins.get policy.LogPlugin = some ep →
      n ∈ m.pluginStateManager.getLogConfigNames podUID →
      env.getState ep n = .ok State.Running →
      (ManagerImpl.checkCollectFinished env m podUID policy).1 = false) ∧
    (∀ ep, m.logPlugins.get policy.LogPlugin = some ep →
      (∀ n ∈ m.pluginStateManager.getLogConfigNames podUID,
        env.getState ep n = .ok State.Unknown) →
      (ManagerImpl.checkCollectFinished env m podUID policy).1 = true) := by
  have hiff := checkCollectFinished_eq_true_iff env m podUID policy
  refine ⟨hiff, ?_, ?_, ?_, ?_⟩
  · intro hne hnone
    rw [← Bool.not_eq_true, hiff]
    rintro (h | ⟨ep, hep, _⟩)
    · exact hne h
    · rw [hnone] at hep; cases hep
  · intro ep n e hep hn herr
    rw [← Bool.not_eq_true, hiff]
    rintro (h | ⟨ep1, hep1, hall⟩)
    · rw [h] at hn; cases hn
    · rw [hep] at hep1
      cases hep1
      obtain ⟨st, hst, _⟩ := hall n hn
      rw [herr] at hst; cases hst
  · intro ep n hep hn hrun
    rw [← Bool.not_eq_true, hiff]
    rintro (h | ⟨ep1, hep1, hall⟩)
    · rw [h] at hn; cases hn
    · rw [hep] at hep1
      cases hep1
      obtain ⟨st, hst, hne⟩ := hall n hn
      rw [hrun] at hst
      cases hst
      exact hne rfl
  · intro ep hep hall
    rw [hiff]
    exact Or.inr ⟨ep, hep, fun n hn => ⟨State.Unknown, hall n hn, by decide⟩⟩

/-- C7 at a concrete manager: one observed config that the registered plugin
reports as `Running`. -/
theorem checkCollectFinished_spec_witness :
    (ManagerImpl.checkCollectFinished runningEnv (trackingManager (stdPolicy true)) "u1"
      (stdPolicy true)).1 = false :=
  (checkCollectFinished_spec runningEnv (trackingManager (stdPolicy true)) "u1"
    (stdPolicy true)).2.2.2.1 lpEndpoint "c1" (by decide) (by decide) rfl

/-! ## `RemoveLogPolicy`: the two gates -/

theorem wrapInt64_ge (x : Int) (h : x < 2 ^ 63) : x ≤ wrapInt64 x := by
  unfold wrapInt64
  norm_num at h ⊢
  omega

theorem wrapInt64_le (x : Int) (h : -(2 ^ 63) ≤ x) : wrapInt64 x ≤ x := by
  unfold wrapInt64
  norm_num at h ⊢
  omega

/-- When collection is not finished and either safe deletion is on or the grace
period is not exceeded, `RemoveLogPolicy` stops with an error right after
`checkCollectFinished`. -/
theorem RemoveLogPolicy_refused (env : Env) (m : ManagerImpl) (pod : Pod) (policy : PodLogPolicy)
    (hann : IsPodLogPolicyExists pod = true)
    (hpol : m.podStateManager.getLogPolicy pod.UID = some policy)
    (hfin : (ManagerImpl.checkCollectFinished env m pod.UID policy).1 = false)
    (hgate : policy.SafeDeletionEnabled = true ∨
      ManagerImpl.exceedTerminationGracePeriod env pod = false) :
    ∃ err, ManagerImpl.RemoveLogPolicy env m (some pod)
      = (some err, (ManagerImpl.checkCollectFinished env m pod.UID policy).2, some pod) := by
  unfold ManagerImpl.RemoveLogPolicy
  simp only [hann, hpol, hfin, Bool.not_true, Bool.false_eq_true, if_false, Bool.not_false,
    Bool.true_and]
  by_cases hs : policy.SafeDeletionEnabled = true
  · simp only [hs, if_true]
    exact ⟨_, rfl⟩
  · have hex : ManagerImpl.exceedTerminationGracePeriod env pod = false := by
      rcases hgate with h | h
      · exact absurd h hs
      · exact h
    simp only [hs, Bool.false_eq_true, if_false, hex, Bool.not_false, if_true]
    exact ⟨_, rfl⟩

/-- The shape of a refused removal: an error, the pod untouched, both stores and
the endpoint table as before, and only `getState` calls issued. -/
theorem RemoveLogPolicy_refused_frame (env : Env) (m : ManagerImpl) (pod : Pod)
    (policy : PodLogPolicy)
    (hann : IsPodLogPolicyExists pod = true)
    (hpol : m.podStateManager.getLogPolicy pod.UID = some policy)
    (hfin : (ManagerImpl.checkCollectFinished env m pod.UID policy).1 = false)
    (hgate : policy.SafeDeletionEnabled = true ∨
      ManagerImpl.exceedTerminationGracePeriod env pod = false) :
    (∃ err, (ManagerImpl.RemoveLogPolicy env m (some pod)).1 = some err) ∧
    (ManagerImpl.RemoveLogPolicy env m (some pod)).2.2 = some pod ∧
    (ManagerImpl.RemoveLogPolicy env m (some pod)).2.1.podStateManager = m.podStateManager ∧
    (ManagerImpl.RemoveLogPolicy env m (some pod)).2.1.pluginStateManager
      = m.pluginStateManager ∧
    ∃ issued, (ManagerImpl.RemoveLogPolicy env m (some pod)).2.1.calls = m.calls ++ issued ∧
      (∀ c ∈ issued, ∃ ep n, c = Call.getState ep n) ∧
      (∀ ep n, Call.delConfig ep n ∉ issued) ∧
      (∀ p, Call.updateStatus p ∉ issued) := by
  obtain ⟨err, herr⟩ := RemoveLogPolicy_refused env m pod policy hann hpol hfin hgate
  obtain ⟨_, hps, hpl, issued, hcalls, hall⟩ := checkCollectFinished_frame env m pod.UID policy
  rw [herr]
  refine ⟨⟨err, rfl⟩, rfl, hps, hpl, issued, hcalls, hall, ?_, ?_⟩
  · intro ep n hmem
    obtain ⟨ep1, n1, h⟩ := hall _ hmem
    cases h
  · intro p hmem
    obtain ⟨ep1, n1, h⟩ := hall _ hmem
    cases h

/-- C1: for a pod with the annotation whose stored policy has
`SafeDeletionEnabled = true` and one of whose observed configs is reported
`Running`, `RemoveLogPolicy` returns an error, leaves the pod and the pod state
store unchanged, and issues nothing but `getState` calls: no `delConfig` and no
status update, whatever the deletion timestamp and grace period of the pod. -/
theorem safe_deletion_gate (env : Env) (m : ManagerImpl) (pod : Pod) (policy : PodLogPolicy)
    (n : String)
    (hann : IsPodLogPolicyExists pod = true)
    (hpol : m.podStateManager.getLogPolicy pod.UID = some policy)
    (hsafe : policy.SafeDeletionEnabled = true)
    (hn : n ∈ m.pluginStateManager.getLogConfigNames pod.UID)
    (hrun : ∀ ep, m.logPlugins.get policy.LogPlugin = some ep →
      env.getState ep n = .ok State.Running) :
    (∃ err, (ManagerImpl.RemoveLogPolicy env m (some pod)).1 = some err) ∧
    (ManagerImpl.RemoveLogPolicy env m (some pod)).2.2 = some pod ∧
    (ManagerImpl.RemoveLogPolicy env m (some pod)).2.1.podStateManager = m.podStateManager ∧
    (ManagerImpl.RemoveLogPolicy env m (some pod)).2.1.pluginStateManager
      = m.pluginStateManager ∧
    ∃ issued, (ManagerImpl.RemoveLogPolicy env m (some pod)).2.1.calls = m.calls ++ issued ∧
      (∀ c ∈ issued, ∃ ep n, c = Call.getState ep n) ∧
      (∀ ep n, Call.delConfig ep n ∉ issued) ∧
      (∀ p, Call.updateStatus p ∉ issued) := by
  have hfin : (ManagerImpl.checkCollectFinished env m pod.UID policy).1 = false := by
    rw [← Bool.not_eq_true, checkCollectFinished_eq_true_iff]
    rintro (h | ⟨ep, hep, hall⟩)
    · rw [h] at hn; cases hn
    · obtain ⟨st, hst, hne⟩ := hall n hn
      rw [hrun ep hep] at hst
      cases hst
      exact hne rfl
  exact RemoveLogPolicy_refused_frame env m pod policy hann hpol hfin (Or.inl hsafe)

/-- C1 at a concrete manager: the pod `u1` with safe deletion, its one config
`Running`, a deletion timestamp of 0 and a grace period of 30 s long gone. -/
theorem safe_deletion_gate_witness :
    (∃ err, (ManagerImpl.RemoveLogPolicy { runningEnv with now := 3600000000000 }
      (trackingManager (stdPolicy true)) (some (annotatedPod (some 0) (some 30)))).1
        = some err) ∧
    (ManagerImpl.RemoveLogPolicy { runningEnv with now := 3600000000000 }
      (trackingManager (stdPolicy true)) (some (annotatedPod (some 0) (some 30)))).2.1.calls
        = [Call.getState lpEndpoint "c1"] :=
  ⟨(safe_deletion_gate { runningEnv with now := 3600000000000 }
      (trackingManager (stdPolicy true)) (annotatedPod (some 0) (some 30)) (stdPolicy true) "c1"
      (by decide) (by decide) rfl (by decide) (fun _ _ => rfl)).1,
    by decide⟩

/-- C2 (counterexample): a grace period of 9223372037 s does not fit a
`time.Duration`; the product wraps to a negative duration, the grace period
counts as exceeded at the deletion time itself, and `RemoveLogPolicy` goes on:
it returns no error and issues `delConfig`, although
`now <= deletionTimestamp + deletionGracePeriodSeconds`. -/
theorem grace_period_gate_overflow :
    IsPodLogPolicyExists (annotatedPod (some 0) (some 9223372037)) = true ∧
    (trackingManager (stdPolicy false)).podStateManager.getLogPolicy "u1"
      = some (stdPolicy false) ∧
    (stdPolicy false).SafeDeletionEnabled = false ∧
    (ManagerImpl.checkCollectFinished runningEnv (trackingManager (stdPolicy false)) "u1"
      (stdPolicy false)).1 = false ∧
    runningEnv.now ≤ 0 + 9223372037 * 1000000000 ∧
    (ManagerImpl.RemoveLogPolicy runningEnv (trackingManager (stdPolicy false))
      (some (annotatedPod (some 0) (some 9223372037)))).1 = none ∧
    Call.delConfig lpEndpoint "c1" ∈
      (ManagerImpl.RemoveLogPolicy runningEnv (trackingManager (stdPolicy false))
        (some (annotatedPod (some 0) (some 9223372037)))).2.1.calls := by
  decide

/-- C2 (amended): for a pod with the annotation whose stored policy has
`SafeDeletionEnabled = false` and for which `checkCollectFinished` is false,
`RemoveLogPolicy` returns an error and issues no `delConfig` (nothing but
`getState` calls) when the pod has no deletion timestamp, or no grace period,
or when `now <= deletionTimestamp + deletionGracePeriodSeconds` and the grace
period in nanoseconds is below `2^63`, so that it fits a `time.Duration`. -/
theorem grace_period_gate (env : Env) (m : ManagerImpl) (pod : Pod) (policy : PodLogPolicy)
    (hann : IsPodLogPolicyExists pod = true)
    (hpol : m.podStateManager.getLogPolicy pod.UID = some policy)
    (hsafe : policy.SafeDeletionEnabled = false)
    (hfin : (ManagerImpl.checkCollectFinished env m pod.UID policy).1 = false)
    (hgrace : pod.DeletionTimestamp = none ∨ pod.DeletionGracePeriodSeconds = none ∨
      ∃ t g, pod.DeletionTimestamp = some t ∧ pod.DeletionGracePeriodSeconds = some g ∧
        g * 1000000000 < 2 ^ 63 ∧ env.now ≤ t + g * 1000000000) :
    (∃ err, (ManagerImpl.RemoveLogPolicy env m (some pod)).1 = some err) ∧
    (ManagerImpl.RemoveLogPolicy env m (some pod)).2.2 = some pod ∧
    (ManagerImpl.RemoveLogPolicy env m (some pod)).2.1.podStateManager = m.podStateManager ∧
    (ManagerImpl.RemoveLogPolicy env m (some pod)).2.1.pluginStateManager
      = m.pluginStateManager ∧
    ∃ issued, (ManagerImpl.RemoveLogPolicy env m (some pod)).2.1.calls = m.calls ++ issued ∧
      (∀ c ∈ issued, ∃ ep n, c = Call.getState ep n) ∧
      (∀ ep n, Call.delConfig ep n ∉ issued) ∧
      (∀ p, Call.updateStatus p ∉ issued) := by
  have hex : ManagerImpl.exceedTerminationGracePeriod env pod = false := by
    unfold ManagerImpl.exceedTerminationGracePeriod
    rcases hgrace with h | h | ⟨t, g, ht, hg, hrange, hnow⟩
    · rw [h]
    · rw [h]
      cases pod.DeletionTimestamp <;> rfl
    · rw [ht, hg]
      have := wrapInt64_ge (g * 1000000000) hrange
      simp only [decide_eq_false_iff_not, not_lt]
      omega
  have _ := hsafe
  exact RemoveLogPolicy_refused_frame env m pod policy hann hpol hfin (Or.inr hex)

/-- C2 (amended) at the boundary: deletion at 0 with a grace period of 30 s, and
`now` exactly `30 s`; the comparison is strict, so the removal is still refused. -/
theorem grace_period_gate_witness :
    (∃ err, (ManagerImpl.RemoveLogPolicy { runningEnv with now := 30000000000 }
      (trackingManager (stdPolicy false)) (some (annotatedPod (some 0) (some 30)))).1
        = some err) ∧
    (ManagerImpl.RemoveLogPolicy { runningEnv with now := 30000000000 }
      (trackingManager (stdPolicy false)) (some (annotatedPod (some 0) (some 30)))).2.1.calls
        = [Call.getState lpEndpoint "c1"] :=
  ⟨(grace_period_gate { runningEnv with now := 30000000000 }
      (trackingManager (stdPolicy false)) (annotatedPod (some 0) (some 30)) (stdPolicy false)
      (by decide) (by decide) rfl (by decide)
      (Or.inr (Or.inr ⟨0, 30, rfl, rfl, by decide, by decide⟩))).1,
    by decide⟩

/-! ## `RemoveLogPolicy`: the removal itself -/

theorem delConfigs_of_ok (env : Env) (ep : pluginEndpoint) (names : List String)
    (hdel : ∀ n ∈ names, env.delConfig ep n = .ok ()) :
    ManagerImpl.delConfigs env ep names = (none, names.map (Call.delConfig ep)) := by
  induction names with
  | nil => rfl
  | cons a names ih =>
    have ha : env.delConfig ep a = .ok () := hdel a (List.mem_cons_self _ _)
    have ih1 := ih (fun n hn => hdel n (List.mem_cons_of_mem _ hn))
    unfold ManagerImpl.delConfigs
    rw [ha]
    simp only [ih1, List.map_cons]

theorem UpdatePodCondition_mem (conds : List PodCondition) (condition : PodCondition) :
    condition ∈ (UpdatePodCondition conds condition).1 := by
  induction conds with
  | nil => simp [UpdatePodCondition]
  | cons old rest ih =>
    unfold UpdatePodCondition
    by_cases h : old.CondType = condition.CondType
    · simp [h]
    · simp only [h, if_false]
      exact List.mem_cons_of_mem _ ih

/-- When the status update succeeds, `setCollectFinished` returns no error, changes
only the conditions of the pod, and leaves the endpoint table and both stores
alone. -/
theorem setCollectFinished_ok (env : Env) (m : ManagerImpl) (pod : Pod)
    (hstatus : ∀ p, env.updateStatus p = none) :
    ∃ m1 issued, ManagerImpl.setCollectFinished env m pod
        = (none, m1,
            { pod with Conditions := (UpdatePodCondition pod.Conditions
                collectFinishedCondition).1 }) ∧
      m1.logPlugins = m.logPlugins ∧ m1.podStateManager = m.podStateManager ∧
      m1.pluginStateManager = m.pluginStateManager ∧ m1.calls = m.calls ++ issued := by
  unfold ManagerImpl.setCollectFinished
  by_cases hch : (UpdatePodCondition pod.Conditions collectFinishedCondition).2 = true
  · simp only [hch, if_true, hstatus]
    exact ⟨_, _, rfl, rfl, rfl, rfl, rfl⟩
  · simp only [hch, Bool.false_eq_true, if_false]
    exact ⟨m, [], rfl, rfl, rfl, rfl, by simp⟩

/-- The removal path of `RemoveLogPolicy`: when collection is finished, or safe
deletion is off and the grace period is exceeded, and the status update, the
endpoint lookup and every `delConfig` succeed, the method returns nil, sets the
condition on the pod, issues `delConfig` for every observed config name and
removes the state of the pod from the pod state store. -/
theorem RemoveLogPolicy_proceeds (env : Env) (m : ManagerImpl) (pod : Pod)
    (policy : PodLogPolicy) (ep : pluginEndpoint)
    (hann : IsPodLogPolicyExists pod = true)
    (hpol : m.podStateManager.getLogPolicy pod.UID = some policy)
    (hgo : (ManagerImpl.checkCollectFinished env m pod.UID policy).1 = true ∨
      (policy.SafeDeletionEnabled = false ∧
        ManagerImpl.exceedTerminationGracePeriod env pod = true))
    (hstatus : ∀ p, env.updateStatus p = none)
    (hreg : m.logPlugins.get policy.LogPlugin = some ep)
    (hdel : ∀ n ∈ m.pluginStateManager.getLogConfigNames pod.UID, env.delConfig ep n = .ok ()) :
    ∃ m1 before,
      ManagerImpl.RemoveLogPolicy env m (some pod)
        = (none, m1,
            some { pod with Conditions := (UpdatePodCondition pod.Conditions
              collectFinishedCondition).1 }) ∧
      m1.logPlugins = m.logPlugins ∧
      m1.podStateManager = (ManagerImpl.removePodState m pod.UID).podStateManager ∧
      m1.pluginStateManager = m.pluginStateManager ∧
      m1.calls = m.calls ++ before ++
        (m.pluginStateManager.getLogConfigNames pod.UID).map (Call.delConfig ep) ++
        [Call.event pod.UID "Normal" "LogPolicyRemoveSuccess"] := by
  obtain ⟨hlp, hps, hpl, issued, hcalls, _⟩ := checkCollectFinished_frame env m pod.UID policy
  obtain ⟨m1, issued1, hset, hlp1, hps1, hpl1, hcalls1⟩ :=
    setCollectFinished_ok env (ManagerImpl.checkCollectFinished env m pod.UID policy).2 pod hstatus
  have hgate1 : (!(ManagerImpl.checkCollectFinished env m pod.UID policy).1 &&
      policy.SafeDeletionEnabled) = false := by
    rcases hgo with h | ⟨h, _⟩
    · rw [h]; rfl
    · rw [h]; simp
  have hgate2 : (!(ManagerImpl.checkCollectFinished env m pod.UID policy).1 &&
      !ManagerImpl.exceedTerminationGracePeriod env pod) = false := by
    rcases hgo with h | ⟨_, h⟩
    · rw [h]; rfl
    · rw [h]; simp
  have hep : m1.getLogPluginEndpoint policy.LogPlugin = .ok ep := by
    unfold ManagerImpl.getLogPluginEndpoint
    rw [hlp1, hlp, hreg]
  have hdc : ManagerImpl.deletePluginConfigs env m1 pod.UID ep
      = (none, { m1 with calls := m1.calls ++
          (m.pluginStateManager.getLogConfigNames pod.UID).map (Call.delConfig ep) }) := by
    unfold ManagerImpl.deletePluginConfigs
    rw [hpl1, hpl, delConfigs_of_ok env ep _ hdel]
  unfold ManagerImpl.RemoveLogPolicy
  simp only [hann, hpol, hgate1, hgate2, hset, hep, hdc, Bool.not_true, Bool.false_eq_true,
    if_false]
  refine ⟨_, issued ++ issued1, rfl, ?_, ?_, ?_, ?_⟩
  · exact hlp1.trans hlp
  · show (ManagerImpl.removePodState _ pod.UID).podStateManager = _
    unfold ManagerImpl.removePodState
    simp only [hps1, hps]
  · exact hpl1.trans hpl
  · show (m1.calls ++ _) ++ _ = _
    rw [hcalls1, hcalls]
    simp only [List.append_assoc]

theorem removePodState_getLogPolicy (m : ManagerImpl) (podUID : UID) :
    (ManagerImpl.removePodState m podUID).podStateManager.getLogPolicy podUID = none ∧
    (ManagerImpl.removePodState m podUID).podStateManager.getLogVolumes podUID = none ∧
    (ManagerImpl.removePodState m podUID).podStateManager.podConfigMaps.get podUID = none := by
  unfold ManagerImpl.removePodState podStateManager.removeLogPolicy
    podStateManager.removeLogVolumes podStateManager.removeConfigMapKeys
    podStateManager.getLogPolicy podStateManager.getLogVolumes
  simp only [GoMap.get_delete, if_true, and_self]

/-- C3 (counterexample): a grace period of -9223372037 s wraps to a positive
duration of about 292 years; with every call succeeding and
`now > deletionTimestamp + deletionGracePeriodSeconds`, `RemoveLogPolicy` still
returns an error and issues no `delConfig`. -/
theorem grace_period_escape_overflow :
    IsPodLogPolicyExists (annotatedPod (some 0) (some (-9223372037))) = true ∧
    (trackingManager (stdPolicy false)).podStateManager.getLogPolicy "u1"
      = some (stdPolicy false) ∧
    (stdPolicy false).SafeDeletionEnabled = false ∧
    (trackingManager (stdPolicy false)).logPlugins.get (stdPolicy false).LogPlugin
      = some lpEndpoint ∧
    runningEnv.getState lpEndpoint "c1" = .ok State.Running ∧
    0 + (-9223372037) * 1000000000 < runningEnv.now ∧
    (ManagerImpl.RemoveLogPolicy runningEnv (trackingManager (stdPolicy false))
      (some (annotatedPod (some 0) (some (-9223372037))))).1 ≠ none ∧
    Call.delConfig lpEndpoint "c1" ∉
      (ManagerImpl.RemoveLogPolicy runningEnv (trackingManager (stdPolicy false))
        (some (annotatedPod (some 0) (some (-9223372037))))).2.1.calls :=
  ⟨by decide, by decide, rfl, by decide, rfl, by decide, by decide, by decide⟩

/-- C3 (amended): for a pod with the annotation whose stored policy has
`SafeDeletionEnabled = false`, whose plugin is registered and one of whose
observed configs reports `Running`, once
`now > deletionTimestamp + deletionGracePeriodSeconds`, and provided the grace
period in nanoseconds is not below `-2^63` (so that it fits a `time.Duration`),
`RemoveLogPolicy` returns nil when the status update and every `delConfig`
succeed, issues `delConfig` for every observed config name, sets the condition
`PodLogCollectFinished = True` on the pod, and removes the policy, the log
volumes and the config-map keys of the pod from the pod state store. -/
theorem grace_period_escape (env : Env) (m : ManagerImpl) (pod : Pod) (policy : PodLogPolicy)
    (ep : pluginEndpoint) (n : String) (t g : Int)
    (hann : IsPodLogPolicyExists pod = true)
    (hpol : m.podStateManager.getLogPolicy pod.UID = some policy)
    (hsafe : policy.SafeDeletionEnabled = false)
    (hreg : m.logPlugins.get policy.LogPlugin = some ep)
    (hn : n ∈ m.pluginStateManager.getLogConfigNames pod.UID)
    (hrun : env.getState ep n = .ok State.Running)
    (ht : pod.DeletionTimestamp = some t)
    (hg : pod.DeletionGracePeriodSeconds = some g)
    (hrange : -(2 ^ 63) ≤ g * 1000000000)
    (hnow : t + g * 1000000000 < env.now)
    (hstatus : ∀ p, env.updateStatus p = none)
    (hdel : ∀ c ∈ m.pluginStateManager.getLogConfigNames pod.UID, env.delConfig ep c = .ok ()) :
    (ManagerImpl.RemoveLogPolicy env m (some pod)).1 = none ∧
    (∀ c ∈ m.pluginStateManager.getLogConfigNames pod.UID,
      Call.delConfig ep c ∈ (ManagerImpl.RemoveLogPolicy env m (some pod)).2.1.calls) ∧
    (∃ pod1, (ManagerImpl.RemoveLogPolicy env m (some pod)).2.2 = some pod1 ∧
      collectFinishedCondition ∈ pod1.Conditions) ∧
    (ManagerImpl.RemoveLogPolicy env m (some pod)).2.1.podStateManager.getLogPolicy pod.UID
      = none ∧
    (ManagerImpl.RemoveLogPolicy env m (some pod)).2.1.podStateManager.getLogVolumes pod.UID
      = none ∧
    (ManagerImpl.RemoveLogPolicy env m (some pod)).2.1.podStateManager.podConfigMaps.get pod.UID
      = none := by
  have hex : ManagerImpl.exceedTerminationGracePeriod env pod = true := by
    unfold ManagerImpl.exceedTerminationGracePeriod
    rw [ht, hg]
    have := wrapInt64_le (g * 1000000000) hrange
    simp only [decide_eq_true_eq]
    omega
  have _ := hn
  have _ := hrun
  obtain ⟨m1, before, hres, _, hps, _, hcalls⟩ :=
    RemoveLogPolicy_proceeds env m pod policy ep hann hpol (Or.inr ⟨hsafe, hex⟩) hstatus hreg hdel
  obtain ⟨h1, h2, h3⟩ := removePodState_getLogPolicy m pod.UID
  rw [hres]
  refine ⟨rfl, ?_, ⟨_, rfl, UpdatePodCondition_mem _ _⟩, ?_, ?_, ?_⟩
  · intro c hc
    show Call.delConfig ep c ∈ m1.calls
    rw [hcalls]
    simp only [List.mem_append, List.mem_map, List.mem_singleton]
    exact Or.inl (Or.inr ⟨c, hc, rfl⟩)
  · show m1.podStateManager.getLogPolicy pod.UID = none
    rw [hps]; exact h1
  · show m1.podStateManager.getLogVolumes pod.UID = none
    rw [hps]; exact h2
  · show m1.podStateManager.podConfigMaps.get pod.UID = none
    rw [hps]; exact h3

/-- C3 (amended) at scenario S6: deletion at 0, grace period 30 s, one `Running`
config, and `now = 31 s`. -/
theorem grace_period_escape_witness :
    (ManagerImpl.RemoveLogPolicy { runningEnv with now := 31000000000 }
      (trackingManager (stdPolicy false)) (some (annotatedPod (some 0) (some 30)))).1 = none ∧
    (ManagerImpl.RemoveLogPolicy { runningEnv with now := 31000000000 }
      (trackingManager (stdPolicy false)) (some (annotatedPod (some 0) (some 30)))).2.1.calls
        = [Call.getState lpEndpoint "c1",
            Call.updateStatus { annotatedPod (some 0) (some 30) with
              Conditions := [collectFinishedCondition] },
            Call.delConfig lpEndpoint "c1",
            Call.event "u1" "Normal" "LogPolicyRemoveSuccess"] :=
  ⟨(grace_period_escape { runningEnv with now := 31000000000 }
      (trackingManager (stdPolicy false)) (annotatedPod (some 0) (some 30)) (stdPolicy false)
      lpEndpoint "c1" 0 30 (by decide) (by decide) rfl (by decide) (by decide) rfl rfl rfl
      (by decide) (by decide) (fun _ => rfl) (fun _ _ => rfl)).1,
    by decide⟩

/-! ## `pushPluginConfigs` -/

theorem addConfigs_of_ok (env : Env) (ep : pluginEndpoint) (configs : List Config)
    (hadd : ∀ c ∈ configs, env.addConfig ep c = .ok ()) :
    ManagerImpl.addConfigs env ep configs = (none, configs.map (Call.addConfig ep)) := by
  induction configs with
  | nil => rfl
  | cons a configs ih =>
    have ha : env.addConfig ep a = .ok () := hadd a (List.mem_cons_self _ _)
    have ih1 := ih (fun n hn => hadd n (List.mem_cons_of_mem _ hn))
    unfold ManagerImpl.addConfigs
    rw [ha]
    simp only [ih1, List.map_cons]

theorem delConfigs_calls (env : Env) (ep : pluginEndpoint) (names : List String) :
    ∀ c ∈ (ManagerImpl.delConfigs env ep names).2, ∃ n, n ∈ names ∧ c = Call.delConfig ep n := by
  induction names with
  | nil => simp [ManagerImpl.delConfigs]
  | cons a names ih =>
    unfold ManagerImpl.delConfigs
    cases hd : env.delConfig ep a with
    | error e =>
      intro c hc
      simp only [List.mem_singleton] at hc
      exact ⟨a, List.mem_cons_self _ _, hc⟩
    | ok u =>
      intro c hc
      simp only [List.mem_cons] at hc
      rcases hc with hc | hc
      · exact ⟨a, List.mem_cons_self _ _, hc⟩
      · obtain ⟨n, hn, h⟩ := ih c hc
        exact ⟨n, List.mem_cons_of_mem _ hn, h⟩

theorem delConfigs_error (env : Env) (ep : pluginEndpoint) (names : List String)
    (hfail : ∃ n ∈ names, ∃ e, env.delConfig ep n = .error e) :
    ∃ n e, n ∈ names ∧ env.delConfig ep n = .error e ∧
      (ManagerImpl.delConfigs env ep names).1 = some e := by
  induction names with
  | nil =>
    obtain ⟨n, hn, _⟩ := hfail
    cases hn
  | cons a names ih =>
    unfold ManagerImpl.delConfigs
    cases hd : env.delConfig ep a with
    | error e => exact ⟨a, e, List.mem_cons_self _ _, hd, rfl⟩
    | ok u =>
      obtain ⟨n, hn, e, he⟩ := hfail
      have hrest : ∃ n ∈ names, ∃ e, env.delConfig ep n = .error e := by
        rcases List.mem_cons.1 hn with h | h
        · rw [h, hd] at he; cases he
        · exact ⟨n, h, e, he⟩
      obtain ⟨n1, e1, hn1, he1, hres⟩ := ih hrest
      exact ⟨n1, e1, List.mem_cons_of_mem _ hn1, he1, hres⟩

theorem count_delConfig_map (ep : pluginEndpoint) (names : List String) (n : String)
    (hnodup : names.Nodup) :
    (names.map (Call.delConfig ep)).count (Call.delConfig ep n) = if n ∈ names then 1 else 0 := by
  have hinj : Function.Injective (Call.delConfig ep) := by
    intro a b h
    cases h
    rfl
  rw [List.count_map_of_injective _ _ hinj]
  by_cases h : n ∈ names
  · rw [if_pos h]
    exact List.count_eq_one_of_mem hnodup h
  · rw [if_neg h]
    exact List.count_eq_zero_of_not_mem h

theorem pushPluginConfigs_of_del_error (env : Env) (m : ManagerImpl) (podUID : UID)
    (ep : pluginEndpoint) (logConfigs : logConfigsMap) (e : Error)
    (h : (ManagerImpl.delConfigs env ep
      ((m.pluginStateManager.getLogConfigNames podUID).Difference
        (logConfigs.keys.foldl StringSet.Insert StringSet.NewString))).1 = some e) :
    ManagerImpl.pushPluginConfigs env m podUID ep logConfigs
      = (some e,
          { m with
            calls := m.calls ++ (ManagerImpl.delConfigs env ep
              ((m.pluginStateManager.getLogConfigNames podUID).Difference
                (logConfigs.keys.foldl StringSet.Insert StringSet.NewString))).2 }) := by
  unfold ManagerImpl.pushPluginConfigs
  dsimp only
  generalize ManagerImpl.delConfigs env ep _ = r at h ⊢
  obtain ⟨r1, r2⟩ := r
  simp only at h
  subst h
  rfl

/-- C8: with `deleted` the observed config names of the pod that are not names of
desired configs, `pushPluginConfigs` issues, when no RPC fails, exactly the calls
`delConfig` for the names of `deleted` followed by `addConfig` for each desired
config, and returns nil; a name is in `deleted` exactly when it is observed and
not desired, and each such name gets one `delConfig` (the observed set holding
each name once).  When a `delConfig` fails, the method returns that error and
issues no `addConfig`. -/
theorem pushPluginConfigs_diff (env : Env) (m : ManagerImpl) (podUID : UID)
    (ep : pluginEndpoint) (logConfigs : logConfigsMap) :
    (∀ n, n ∈ (m.pluginStateManager.getLogConfigNames podUID).Difference
          (logConfigs.keys.foldl StringSet.Insert StringSet.NewString) ↔
        n ∈ m.pluginStateManager.getLogConfigNames podUID ∧ n ∉ logConfigs.keys) ∧
    ((∀ n ∈ m.pluginStateManager.getLogConfigNames podUID, n ∉ logConfigs.keys →
        env.delConfig ep n = .ok ()) →
      (∀ c ∈ logConfigs.map Prod.snd, env.addConfig ep c = .ok ()) →
      ManagerImpl.pushPluginConfigs env m podUID ep logConfigs
        = (none,
            { m with
              calls := m.calls ++
                ((m.pluginStateManager.getLogConfigNames podUID).Difference
                  (logConfigs.keys.foldl StringSet.Insert StringSet.NewString)).map
                    (Call.delConfig ep) ++
                (logConfigs.map Prod.snd).map (Call.addConfig ep) }) ∧
      ((m.pluginStateManager.getLogConfigNames podUID).Nodup →
        ∀ n,
          (((m.pluginStateManager.getLogConfigNames podUID).Difference
              (logConfigs.keys.foldl StringSet.Insert StringSet.NewString)).map
                (Call.delConfig ep) ++
            (logConfigs.map Prod.snd).map (Call.addConfig ep)).count (Call.delConfig ep n)
          = if n ∈ m.pluginStateManager.getLogConfigNames podUID ∧ n ∉ logConfigs.keys
            then 1 else 0)) ∧
    ((∃ n ∈ m.pluginStateManager.getLogConfigNames podUID, n ∉ logConfigs.keys ∧
        ∃ e, env.delConfig ep n = .error e) →
      ∃ n e issued, n ∈ m.pluginStateManager.getLogConfigNames podUID ∧ n ∉ logConfigs.keys ∧
        env.delConfig ep n = .error e ∧
        (ManagerImpl.pushPluginConfigs env m podUID ep logConfigs).1 = some e ∧
        (ManagerImpl.pushPluginConfigs env m podUID ep logConfigs).2.calls = m.calls ++ issued ∧
        ∀ c ∈ issued, ∃ n1, c = Call.delConfig ep n1) := by
  have hmem : ∀ n, n ∈ (m.pluginStateManager.getLogConfigNames podUID).Difference
        (logConfigs.keys.foldl StringSet.Insert StringSet.NewString) ↔
      n ∈ m.pluginStateManager.getLogConfigNames podUID ∧ n ∉ logConfigs.keys := by
    intro n
    rw [StringSet.mem_Difference, StringSet.mem_foldl_Insert]
    simp [StringSet.NewString]
  refine ⟨hmem, ?_, ?_⟩
  · intro hdel hadd
    have hdel1 : ∀ n ∈ (m.pluginStateManager.getLogConfigNames podUID).Difference
        (logConfigs.keys.foldl StringSet.Insert StringSet.NewString),
        env.delConfig ep n = .ok () :=
      fun n hn => hdel n ((hmem n).1 hn).1 ((hmem n).1 hn).2
    constructor
    · unfold ManagerImpl.pushPluginConfigs
      simp only [delConfigs_of_ok env ep _ hdel1, addConfigs_of_ok env ep _ hadd]
    · intro hnodup n
      have hnd : ((m.pluginStateManager.getLogConfigNames podUID).Difference
          (logConfigs.keys.foldl StringSet.Insert StringSet.NewString)).Nodup := by
        unfold StringSet.Difference
        exact hnodup.filter _
      rw [List.count_append, count_delConfig_map ep _ n hnd]
      have hz : ((logConfigs.map Prod.snd).map (Call.addConfig ep)).count (Call.delConfig ep n)
          = 0 := by
        apply List.count_eq_zero_of_not_mem
        intro h
        obtain ⟨c, _, hc⟩ := List.mem_map.1 h
        cases hc
      rw [hz, Nat.add_zero]
      by_cases h : n ∈ m.pluginStateManager.getLogConfigNames podUID ∧ n ∉ logConfigs.keys
      · rw [if_pos h, if_pos ((hmem n).2 h)]
      · rw [if_neg h, if_neg (fun h1 => h ((hmem n).1 h1))]
  · rintro ⟨n, hn, hnk, e, he⟩
    obtain ⟨n1, e1, hn1, he1, hres⟩ :=
      delConfigs_error env ep _ ⟨n, (hmem n).2 ⟨hn, hnk⟩, e, he⟩
    refine ⟨n1, e1, (ManagerImpl.delConfigs env ep
      ((m.pluginStateManager.getLogConfigNames podUID).Difference
        (logConfigs.keys.foldl StringSet.Insert StringSet.NewString))).2,
      ((hmem n1).1 hn1).1, ((hmem n1).1 hn1).2, he1, ?_, ?_, ?_⟩
    · rw [pushPluginConfigs_of_del_error env m podUID ep logConfigs e1 hres]
    · rw [pushPluginConfigs_of_del_error env m podUID ep logConfigs e1 hres]
    · intro c hc
      obtain ⟨n2, _, h2⟩ := delConfigs_calls env ep _ c hc
      exact ⟨n2, h2⟩

/-- C8 at a concrete push: the plugin holds `c1` for the pod, the desired state is
the one config `sampleConfig`; `c1` is deleted, then `sampleConfig` is added. -/
theorem pushPluginConfigs_diff_witness :
    ManagerImpl.pushPluginConfigs quietEnv (trackingManager (stdPolicy false)) "u1" lpEndpoint
        [("u1_c_std_x.conf", sampleConfig)]
      = (none,
          { trackingManager (stdPolicy false) with
            calls := [Call.delConfig lpEndpoint "c1", Call.addConfig lpEndpoint sampleConfig] }) :=
  ((pushPluginConfigs_diff quietEnv (trackingManager (stdPolicy false)) "u1" lpEndpoint
      [("u1_c_std_x.conf", sampleConfig)]).2.1 (fun _ _ _ => rfl) (fun _ _ => rfl)).1.trans
    (by decide)

/-! ## `updateAllLogConfigs` and the observed config names -/

theorem namesOf_addLogConfig (ep : pluginEndpoint)
    (acc : GoMap UID StringSet × GoMap UID pluginEndpoint) (c : Config) (podUID : UID) :
    namesOf (pluginStateManager.addLogConfig ep acc c).1 podUID
      = if podUID = c.Metadata.PodUID then (namesOf acc.1 podUID).Insert c.Metadata.Name
        else namesOf acc.1 podUID := by
  unfold pluginStateManager.addLogConfig namesOf
  cases hget : acc.1.get c.Metadata.PodUID with
  | none =>
    by_cases h : podUID = c.Metadata.PodUID
    · simp only [GoMap.get_set, h, if_true, hget]
    · simp only [GoMap.get_set, h, if_false]
  | some configNames =>
    by_cases h : podUID = c.Metadata.PodUID
    · simp only [GoMap.get_set, h, if_true, hget]
    · simp only [GoMap.get_set, h, if_false]

theorem mem_namesOf_foldl_addLogConfig (ep : pluginEndpoint) (cs : List Config)
    (acc : GoMap UID StringSet × GoMap UID pluginEndpoint) (podUID : UID) (n : String) :
    n ∈ namesOf (cs.foldl (pluginStateManager.addLogConfig ep) acc).1 podUID ↔
      n ∈ namesOf acc.1 podUID ∨
        ∃ c ∈ cs, c.Metadata.PodUID = podUID ∧ c.Metadata.Name = n := by
  induction cs generalizing acc with
  | nil => simp
  | cons a cs ih =>
    rw [List.foldl_cons, ih, namesOf_addLogConfig]
    by_cases h : podUID = a.Metadata.PodUID
    · rw [if_pos h, StringSet.mem_Insert]
      constructor
      · rintro ((h1 | h1) | ⟨c, hc, h2, h3⟩)
        · exact Or.inl h1
        · exact Or.inr ⟨a, List.mem_cons_self _ _, h.symm, h1.symm⟩
        · exact Or.inr ⟨c, List.mem_cons_of_mem _ hc, h2, h3⟩
      · rintro (h1 | ⟨c, hc, h2, h3⟩)
        · exact Or.inl (Or.inl h1)
        · rcases List.mem_cons.1 hc with hc1 | hc1
          · subst hc1
            exact Or.inl (Or.inr h3.symm)
          · exact Or.inr ⟨c, hc1, h2, h3⟩
    · rw [if_neg h]
      constructor
      · rintro (h1 | ⟨c, hc, h2, h3⟩)
        · exact Or.inl h1
        · exact Or.inr ⟨c, List.mem_cons_of_mem _ hc, h2, h3⟩
      · rintro (h1 | ⟨c, hc, h2, h3⟩)
        · exact Or.inl h1
        · rcases List.mem_cons.1 hc with hc1 | hc1
          · subst hc1
            exact absurd h2.symm h
          · exact Or.inr ⟨c, hc1, h2, h3⟩

/-- The config names observed for a pod after `updateAllLogConfigs` on a non-nil
list: the names of the listed configs that carry the UID of the pod. -/
theorem mem_getLogConfigNames_updateAllLogConfigs (m : pluginStateManager) (cs : List Config)
    (ep : pluginEndpoint) (podUID : UID) (n : String) :
    n ∈ (m.updateAllLogConfigs (some cs) ep).getLogConfigNames podUID ↔
      ∃ c ∈ cs, c.Metadata.PodUID = podUID ∧ c.Metadata.Name = n := by
  have h := mem_namesOf_foldl_addLogConfig ep cs ([], []) podUID n
  have hnil : n ∉ namesOf ([] : GoMap UID StringSet) podUID := by
    simp [namesOf, GoMap.get, StringSet.NewString]
  simp only [hnil, false_or] at h
  exact h

/-! ## `pushConfigs` twice -/

theorem addConfigs_ok_of_none (env : Env) (ep : pluginEndpoint) (configs : List Config)
    (h : (ManagerImpl.addConfigs env ep configs).1 = none) :
    ∀ c ∈ configs, env.addConfig ep c = .ok () := by
  induction configs with
  | nil => intro c hc; cases hc
  | cons a configs ih =>
    unfold ManagerImpl.addConfigs at h
    cases ha : env.addConfig ep a with
    | error e => rw [ha] at h; cases h
    | ok u =>
      rw [ha] at h
      intro c hc
      rcases List.mem_cons.1 hc with h1 | h1
      · rw [h1]; exact ha
      · exact ih h c h1

theorem pushPluginConfigs_adds_ok (env : Env) (m : ManagerImpl) (podUID : UID)
    (ep : pluginEndpoint) (logConfigs : logConfigsMap)
    (h : (ManagerImpl.pushPluginConfigs env m podUID ep logConfigs).1 = none) :
    ∀ c ∈ logConfigs.map Prod.snd, env.addConfig ep c = .ok () := by
  unfold ManagerImpl.pushPluginConfigs at h
  dsimp only at h
  generalize ManagerImpl.delConfigs env ep _ = r at h
  obtain ⟨r1, r2⟩ := r
  cases r1 with
  | some e => simp at h
  | none => exact addConfigs_ok_of_none env ep _ h

/-- What `pushPluginConfigs` leaves alone: the endpoint table and both stores. -/
theorem pushPluginConfigs_frame (env : Env) (m : ManagerImpl) (podUID : UID)
    (ep : pluginEndpoint) (logConfigs : logConfigsMap) :
    (ManagerImpl.pushPluginConfigs env m podUID ep logConfigs).2.logPlugins = m.logPlugins ∧
    (ManagerImpl.pushPluginConfigs env m podUID ep logConfigs).2.podStateManager
      = m.podStateManager ∧
    (ManagerImpl.pushPluginConfigs env m podUID ep logConfigs).2.pluginStateManager
      = m.pluginStateManager := by
  unfold ManagerImpl.pushPluginConfigs
  dsimp only
  generalize ManagerImpl.delConfigs env ep _ = r
  obtain ⟨r1, r2⟩ := r
  cases r1 <;> exact ⟨rfl, rfl, rfl⟩

/-- What `pushConfigs` leaves alone: the endpoint table and both stores. -/
theorem pushConfigs_frame (env : Env) (m : ManagerImpl) (pod : Pod) :
    (ManagerImpl.pushConfigs env m pod).2.logPlugins = m.logPlugins ∧
    (ManagerImpl.pushConfigs env m pod).2.podStateManager = m.podStateManager ∧
    (ManagerImpl.pushConfigs env m pod).2.pluginStateManager = m.pluginStateManager := by
  unfold ManagerImpl.pushConfigs
  split
  · exact ⟨rfl, rfl, rfl⟩
  · split
    · exact ⟨rfl, rfl, rfl⟩
    · split
      · exact ⟨rfl, rfl, rfl⟩
      · split
        · exact ⟨rfl, rfl, rfl⟩
        · exact pushPluginConfigs_frame env m pod.UID _ _

/-- C9 (counterexample): scenario S1.  The first `pushConfigs` succeeds and adds
`sampleConfig`; the plugin then lists exactly that config and the plugin state
store is refreshed from the reply; the second `pushConfigs`, with nothing
changed, issues `addConfig` for `sampleConfig` again. -/
theorem pushConfigs_second_call_adds_again :
    (ManagerImpl.pushConfigs pushEnv freshManager (annotatedPod none none)).1 = none ∧
    (ManagerImpl.pushConfigs pushEnv freshManager (annotatedPod none none)).2.calls
      = [Call.addConfig lpEndpoint sampleConfig] ∧
    (ManagerImpl.refreshPluginState pushEnv
      (ManagerImpl.pushConfigs pushEnv freshManager (annotatedPod none none)).2 lpEndpoint).1
        = none ∧
    (ManagerImpl.pushConfigs pushEnv
      (ManagerImpl.refreshPluginState pushEnv
        (ManagerImpl.pushConfigs pushEnv freshManager (annotatedPod none none)).2
          lpEndpoint).2 (annotatedPod none none)).2.calls
      = [Call.addConfig lpEndpoint sampleConfig, Call.listConfig lpEndpoint,
          Call.addConfig lpEndpoint sampleConfig] := by
  decide

theorem pushConfigs_eq (env : Env) (m : ManagerImpl) (pod : Pod) (policy : PodLogPolicy)
    (volumes : logVolumesMap) (desired : logConfigsMap) (ep : pluginEndpoint)
    (hpol : m.podStateManager.getLogPolicy pod.UID = some policy)
    (hvol : m.podStateManager.getLogVolumes pod.UID = some volumes)
    (hbuild : ManagerImpl.buildPodLogConfigs env pod policy volumes = .ok desired)
    (hreg : m.logPlugins.get policy.LogPlugin = some ep) :
    ManagerImpl.pushConfigs env m pod = ManagerImpl.pushPluginConfigs env m pod.UID ep desired := by
  unfold ManagerImpl.pushConfigs ManagerImpl.getLogPluginEndpoint
  simp only [hpol, hvol, hbuild, hreg]

theorem pushPluginConfigs_of_no_deleted (env : Env) (m : ManagerImpl) (podUID : UID)
    (ep : pluginEndpoint) (logConfigs : logConfigsMap)
    (hsub : ∀ n ∈ m.pluginStateManager.getLogConfigNames podUID, n ∈ logConfigs.keys)
    (hadd : ∀ c ∈ logConfigs.map Prod.snd, env.addConfig ep c = .ok ()) :
    ManagerImpl.pushPluginConfigs env m podUID ep logConfigs
      = (none, { m with calls := m.calls ++ (logConfigs.map Prod.snd).map (Call.addConfig ep) }) := by
  have hdeleted : (m.pluginStateManager.getLogConfigNames podUID).Difference
      (logConfigs.keys.foldl StringSet.Insert StringSet.NewString) = [] := by
    unfold StringSet.Difference
    rw [List.filter_eq_nil_iff]
    intro n hn
    have : n ∈ logConfigs.keys.foldl StringSet.Insert StringSet.NewString :=
      (StringSet.mem_foldl_Insert _ _ _).2 (Or.inr (hsub n hn))
    simp [this]
  unfold ManagerImpl.pushPluginConfigs
  simp only [hdeleted, ManagerImpl.delConfigs, addConfigs_of_ok env ep _ hadd, List.append_nil]

/-- After a nil `listConfig` reply the plugin state store is kept as it was, so
the second push deletes again what the first one deleted: pod `u1` is observed
with the config `c1`, the desired state is empty, and `delConfig c1` is issued
by both pushes. -/
theorem pushConfigs_second_call_after_nil_reply :
    quietEnv.listConfig lpEndpoint = .ok none ∧
    (ManagerImpl.pushConfigs quietEnv (trackingManager (stdPolicy false))
      (annotatedPod none none)).1 = none ∧
    (ManagerImpl.pushConfigs quietEnv
      (ManagerImpl.refreshPluginState quietEnv
        (ManagerImpl.pushConfigs quietEnv (trackingManager (stdPolicy false))
          (annotatedPod none none)).2 lpEndpoint).2 (annotatedPod none none)).2.calls
      = [Call.delConfig lpEndpoint "c1", Call.listConfig lpEndpoint,
          Call.delConfig lpEndpoint "c1"] := by
  refine ⟨rfl, ?_, ?_⟩ <;> decide

/-- C9 (amended): if `pushConfigs(pod)` succeeds (so the policy and the log
volumes of the pod are stored, the desired configs `desired` are built and the
plugin of the policy is registered with endpoint `ep`), the plugin state store
is then refreshed from a successful, non-nil `listConfig` reply of the plugin
that lists, for this pod, only configs of the desired state, and
`pushConfigs(pod)` is called again with the policy, the volumes, the config
maps and the answers of the plugin unchanged, then the second call succeeds,
issues no `delConfig`, and issues `addConfig` once more for every desired
config. -/
theorem pushConfigs_second_call (env : Env) (m : ManagerImpl) (pod : Pod) (policy : PodLogPolicy)
    (volumes : logVolumesMap) (desired : logConfigsMap) (ep : pluginEndpoint)
    (cfgs : List Config)
    (hpol : m.podStateManager.getLogPolicy pod.UID = some policy)
    (hvol : m.podStateManager.getLogVolumes pod.UID = some volumes)
    (hbuild : ManagerImpl.buildPodLogConfigs env pod policy volumes = .ok desired)
    (hreg : m.logPlugins.get policy.LogPlugin = some ep)
    (hpush : (ManagerImpl.pushConfigs env m pod).1 = none)
    (hlist : env.listConfig ep = .ok (some cfgs))
    (hfaith : ∀ c ∈ cfgs, c.Metadata.PodUID = pod.UID → c.Metadata.Name ∈ desired.keys) :
    ManagerImpl.pushConfigs env
        (ManagerImpl.refreshPluginState env (ManagerImpl.pushConfigs env m pod).2 ep).2 pod
      = (none,
          { (ManagerImpl.refreshPluginState env (ManagerImpl.pushConfigs env m pod).2 ep).2 with
            calls :=
              (ManagerImpl.refreshPluginState env (ManagerImpl.pushConfigs env m pod).2 ep).2.calls
                ++ (desired.map Prod.snd).map (Call.addConfig ep) }) := by
  obtain ⟨hlp, hps, _⟩ := pushConfigs_frame env m pod
  have hadd : ∀ c ∈ desired.map Prod.snd, env.addConfig ep c = .ok () := by
    rw [pushConfigs_eq env m pod policy volumes desired ep hpol hvol hbuild hreg] at hpush
    exact pushPluginConfigs_adds_ok env m pod.UID ep desired hpush
  have href : ManagerImpl.refreshPluginState env (ManagerImpl.pushConfigs env m pod).2 ep
      = (none,
          { (ManagerImpl.pushConfigs env m pod).2 with
            calls := (ManagerImpl.pushConfigs env m pod).2.calls ++ [Call.listConfig ep]
            pluginStateManager :=
              (ManagerImpl.pushConfigs env m pod).2.pluginStateManager.updateAllLogConfigs
                (some cfgs) ep }) := by
    unfold ManagerImpl.refreshPluginState
    rw [hlist]
  rw [href]
  rw [pushConfigs_eq env _ pod policy volumes desired ep (by rw [← hpol, ← hps])
    (by rw [← hvol, ← hps]) hbuild (by rw [← hreg, ← hlp])]
  apply pushPluginConfigs_of_no_deleted _ _ _ _ _ _ hadd
  intro n hn
  obtain ⟨c, hc, huid, hname⟩ :=
    (mem_getLogConfigNames_updateAllLogConfigs
      (ManagerImpl.pushConfigs env m pod).2.pluginStateManager cfgs ep pod.UID n).1 hn
  rw [← hname]
  exact hfaith c hc huid

/-- C9 (amended) at scenario S1: the second push re-adds `sampleConfig`. -/
theorem pushConfigs_second_call_witness :
    ManagerImpl.pushConfigs pushEnv
        (ManagerImpl.refreshPluginState pushEnv
          (ManagerImpl.pushConfigs pushEnv freshManager (annotatedPod none none)).2
            lpEndpoint).2 (annotatedPod none none)
      = (none,
          { (ManagerImpl.refreshPluginState pushEnv
              (ManagerImpl.pushConfigs pushEnv freshManager (annotatedPod none none)).2
                lpEndpoint).2 with
            calls :=
              (ManagerImpl.refreshPluginState pushEnv
                (ManagerImpl.pushConfigs pushEnv freshManager (annotatedPod none none)).2
                  lpEndpoint).2.calls
                ++ ([("u1_c_std_x.conf", sampleConfig)].map Prod.snd).map
                    (Call.addConfig lpEndpoint) }) :=
  pushConfigs_second_call pushEnv freshManager (annotatedPod none none) (stdPolicy false) []
    [("u1_c_std_x.conf", sampleConfig)] lpEndpoint [sampleConfig] (by decide) (by decide)
    (by rfl) (by decide) (by decide) rfl (by decide)

/-! ## `sync`: garbage collection -/

theorem GoMap.keys_set {K V : Type} [DecidableEq K] (m : GoMap K V) (k k' : K) (v : V)
    (h : k' ∈ (m.set k v).keys) : k' = k ∨ k' ∈ m.keys := by
  obtain ⟨p, hp, hk⟩ := List.mem_map.1 h
  rcases (GoMap.mem_set m k v p).1 hp with h1 | h1
  · left; rw [← hk, h1]
  · right; exact List.mem_map.2 ⟨p, h1.1, hk⟩

theorem EndpointBound_addLogConfig (ep : pluginEndpoint)
    (acc : GoMap UID StringSet × GoMap UID pluginEndpoint) (c : Config)
    (h : EndpointBound acc.1 acc.2) :
    EndpointBound (pluginStateManager.addLogConfig ep acc c).1
      (pluginStateManager.addLogConfig ep acc c).2 := by
  intro podUID hmem
  have hkeys : podUID = c.Metadata.PodUID ∨ podUID ∈ acc.1.keys := by
    unfold pluginStateManager.addLogConfig at hmem
    cases hget : acc.1.get c.Metadata.PodUID with
    | none => rw [hget] at hmem; exact GoMap.keys_set _ _ _ _ hmem
    | some configNames => rw [hget] at hmem; exact GoMap.keys_set _ _ _ _ hmem
  unfold pluginStateManager.addLogConfig
  cases hep : acc.2.get c.Metadata.PodUID with
  | some ep0 =>
    rcases hkeys with h1 | h1
    · exact ⟨ep0, by rw [h1]; exact hep⟩
    · exact h podUID h1
  | none =>
    simp only [GoMap.get_set]
    by_cases h2 : podUID = c.Metadata.PodUID
    · exact ⟨ep, by rw [if_pos h2]⟩
    · rw [if_neg h2]
      rcases hkeys with h1 | h1
      · exact absurd h1 h2
      · exact h podUID h1

theorem EndpointBound_foldl_addLogConfig (ep : pluginEndpoint) (cs : List Config)
    (acc : GoMap UID StringSet × GoMap UID pluginEndpoint) (h : EndpointBound acc.1 acc.2) :
    EndpointBound (cs.foldl (pluginStateManager.addLogConfig ep) acc).1
      (cs.foldl (pluginStateManager.addLogConfig ep) acc).2 := by
  induction cs generalizing acc with
  | nil => exact h
  | cons c cs ih => exact ih _ (EndpointBound_addLogConfig ep acc c h)

theorem EndpointBound_updateAllLogConfigs (m : pluginStateManager)
    (configs : Option (List Config)) (ep : pluginEndpoint)
    (h : EndpointBound m.podLogConfigNames m.podLogPluginEndpoint) :
    EndpointBound (m.updateAllLogConfigs configs ep).podLogConfigNames
      (m.updateAllLogConfigs configs ep).podLogPluginEndpoint := by
  cases configs with
  | none => exact h
  | some cs =>
    exact EndpointBound_foldl_addLogConfig ep cs ([], []) (by intro u hu; cases hu)

/-- The first loop of `sync` leaves the pod state store alone and keeps every
observed pod bound to an endpoint. -/
theorem refreshAllPluginStates_frame (env : Env) (l : List (String × pluginEndpoint))
    (m : ManagerImpl)
    (h : EndpointBound m.pluginStateManager.podLogConfigNames
      m.pluginStateManager.podLogPluginEndpoint) :
    (ManagerImpl.refreshAllPluginStates env l m).2.podStateManager = m.podStateManager ∧
    EndpointBound (ManagerImpl.refreshAllPluginStates env l m).2.pluginStateManager.podLogConfigNames
      (ManagerImpl.refreshAllPluginStates env l m).2.pluginStateManager.podLogPluginEndpoint := by
  induction l generalizing m with
  | nil => exact ⟨rfl, h⟩
  | cons p l ih =>
    obtain ⟨name, ep⟩ := p
    unfold ManagerImpl.refreshAllPluginStates ManagerImpl.refreshPluginState
    cases hl : env.listConfig ep with
    | error e => exact ⟨rfl, h⟩
    | ok configs =>
      simp only
      have := ih { m with
        calls := m.calls ++ [Call.listConfig ep]
        pluginStateManager := m.pluginStateManager.updateAllLogConfigs configs ep }
        (EndpointBound_updateAllLogConfigs _ configs ep h)
      exact this

theorem refreshPodState_frame (env : Env) (m : ManagerImpl) (pod : Pod) :
    (ManagerImpl.refreshPodState env m pod).2.pluginStateManager = m.pluginStateManager ∧
    (ManagerImpl.refreshPodState env m pod).2.logPlugins = m.logPlugins ∧
    (ManagerImpl.refreshPodState env m pod).2.calls = m.calls := by
  unfold ManagerImpl.refreshPodState
  split
  · exact ⟨rfl, rfl, rfl⟩
  · split
    · exact ⟨rfl, rfl, rfl⟩
    · split
      · exact ⟨rfl, rfl, rfl⟩
      · exact ⟨rfl, rfl, rfl⟩

/-- The second loop of `sync` leaves the plugin state store alone. -/
theorem syncPods_pluginStateManager (env : Env) (pods : List Pod) (m : ManagerImpl) :
    (ManagerImpl.syncPods env pods m).pluginStateManager = m.pluginStateManager := by
  induction pods generalizing m with
  | nil => rfl
  | cons pod pods ih =>
    unfold ManagerImpl.syncPods
    by_cases ht : env.isPodTerminated pod = true
    · rw [if_pos ht]; exact ih m
    · rw [if_neg ht]
      have hf := (refreshPodState_frame env m pod).1
      rcases hr : ManagerImpl.refreshPodState env m pod with ⟨err, m1⟩
      rw [hr] at hf
      cases err with
      | some e => exact (ih m1).trans hf
      | none =>
        exact (ih _).trans (((pushConfigs_frame env m1 pod).2.2).trans hf)

theorem Absent_removePodState (m : ManagerImpl) (podUID podUID' : UID)
    (h : podUID' = podUID ∨ m.podStateManager.Absent podUID') :
    (ManagerImpl.removePodState m podUID).podStateManager.Absent podUID' := by
  unfold podStateManager.Absent at h ⊢
  unfold ManagerImpl.removePodState podStateManager.removeLogPolicy
    podStateManager.removeLogVolumes podStateManager.removeConfigMapKeys
    podStateManager.getLogPolicy podStateManager.getLogVolumes
  unfold podStateManager.getLogPolicy podStateManager.getLogVolumes at h
  simp only [GoMap.get_delete]
  by_cases he : podUID' = podUID
  · simp only [he, if_true, and_self]
  · simp only [he, if_false]
    rcases h with h | h
    · exact absurd h he
    · exact h

theorem deletePluginConfigs_frame (env : Env) (m : ManagerImpl) (podUID : UID)
    (ep : pluginEndpoint) :
    (ManagerImpl.deletePluginConfigs env m podUID ep).2.podStateManager = m.podStateManager ∧
    (ManagerImpl.deletePluginConfigs env m podUID ep).2.pluginStateManager
      = m.pluginStateManager ∧
    (ManagerImpl.deletePluginConfigs env m podUID ep).2.calls
      = m.calls ++ (ManagerImpl.delConfigs env ep
          (m.pluginStateManager.getLogConfigNames podUID)).2 :=
  ⟨rfl, rfl, rfl⟩

/-- The third loop of `sync`: the plugin state store is left alone, calls are only
added, and a pod absent from the pod state store stays absent. -/
theorem removeUnknownPods_frame (env : Env) (l : List String) (m : ManagerImpl) :
    (ManagerImpl.removeUnknownPods env l m).pluginStateManager = m.pluginStateManager ∧
    (∀ c ∈ m.calls, c ∈ (ManagerImpl.removeUnknownPods env l m).calls) ∧
    (∀ podUID, m.podStateManager.Absent podUID →
      (ManagerImpl.removeUnknownPods env l m).podStateManager.Absent podUID) := by
  induction l generalizing m with
  | nil => exact ⟨rfl, fun _ h => h, fun _ h => h⟩
  | cons a l ih =>
    unfold ManagerImpl.removeUnknownPods
    cases env.getPodByUID a with
    | some p => exact ih m
    | none =>
      cases m.pluginStateManager.getLogPluginEndpoint a with
      | none => exact ih m
      | some ep =>
        obtain ⟨h1, h2, h3⟩ :=
          ih (ManagerImpl.deletePluginConfigs env (ManagerImpl.removePodState m a) a ep).2
        refine ⟨h1, ?_, ?_⟩
        · intro c hc
          apply h2
          show c ∈ m.calls ++ _
          exact List.mem_append_left _ hc
        · intro podUID hab
          apply h3
          exact Absent_removePodState m a podUID (Or.inr hab)

/-- The third loop of `sync` on a pod it visits, unknown to the pod source and
bound to an endpoint: the pod leaves the pod state store, and `delConfig` is
issued for every config name observed for it when `delConfig` calls succeed. -/
theorem removeUnknownPods_removes (env : Env) (l : List String) (m : ManagerImpl) (podUID : UID)
    (ep : pluginEndpoint)
    (hmem : podUID ∈ l)
    (hunknown : env.getPodByUID podUID = none)
    (hep : m.pluginStateManager.getLogPluginEndpoint podUID = some ep) :
    (ManagerImpl.removeUnknownPods env l m).podStateManager.Absent podUID ∧
    ((∀ n ∈ m.pluginStateManager.getLogConfigNames podUID, env.delConfig ep n = .ok ()) →
      ∀ n ∈ m.pluginStateManager.getLogConfigNames podUID,
        Call.delConfig ep n ∈ (ManagerImpl.removeUnknownPods env l m).calls) := by
  induction l generalizing m with
  | nil => cases hmem
  | cons a l ih =>
    by_cases ha : podUID = a
    · subst ha
      unfold ManagerImpl.removeUnknownPods
      simp only [hunknown, hep]
      obtain ⟨_, h2, h3⟩ := removeUnknownPods_frame env l
        (ManagerImpl.deletePluginConfigs env (ManagerImpl.removePodState m podUID) podUID ep).2
      constructor
      · apply h3
        exact Absent_removePodState m podUID podUID (Or.inl rfl)
      · intro hdel n hn
        apply h2
        show Call.delConfig ep n ∈ m.calls ++ (ManagerImpl.delConfigs env ep
          (m.pluginStateManager.getLogConfigNames podUID)).2
        rw [delConfigs_of_ok env ep _ hdel]
        exact List.mem_append_right _ (List.mem_map.2 ⟨n, hn, rfl⟩)
    · have hmem1 : podUID ∈ l := by
        rcases List.mem_cons.1 hmem with h | h
        · exact absurd h ha
        · exact h
      unfold ManagerImpl.removeUnknownPods
      cases env.getPodByUID a with
      | some p => exact ih m hmem1 hep
      | none =>
        cases m.pluginStateManager.getLogPluginEndpoint a with
        | none => exact ih m hmem1 hep
        | some ep1 =>
          exact ih (ManagerImpl.deletePluginConfigs env (ManagerImpl.removePodState m a) a ep1).2
            hmem1 hep

/-- The result of `sync` when all sources are ready and the first loop meets no
error. -/
theorem sync_eq (env : Env) (m : ManagerImpl)
    (hready : env.allReady = true)
    (hok : (ManagerImpl.refreshAllPluginStates env m.logPlugins m).1 = none) :
    ManagerImpl.sync env m
      = { ManagerImpl.removeUnknownPods env
            (ManagerImpl.syncPods env (ManagerImpl.filterPods env.getPods)
              (ManagerImpl.refreshAllPluginStates env m.logPlugins
                m).2).pluginStateManager.getAllPodUIDs
            (ManagerImpl.syncPods env (ManagerImpl.filterPods env.getPods)
              (ManagerImpl.refreshAllPluginStates env m.logPlugins m).2) with
          calls :=
            (ManagerImpl.removeUnknownPods env
              (ManagerImpl.syncPods env (ManagerImpl.filterPods env.getPods)
                (ManagerImpl.refreshAllPluginStates env m.logPlugins
                  m).2).pluginStateManager.getAllPodUIDs
              (ManagerImpl.syncPods env (ManagerImpl.filterPods env.getPods)
                (ManagerImpl.refreshAllPluginStates env m.logPlugins m).2)).calls ++
            [Call.watcherSync
              (ManagerImpl.removeUnknownPods env
                (ManagerImpl.syncPods env (ManagerImpl.filterPods env.getPods)
                  (ManagerImpl.refreshAllPluginStates env m.logPlugins
                    m).2).pluginStateManager.getAllPodUIDs
                (ManagerImpl.syncPods env (ManagerImpl.filterPods env.getPods)
                  (ManagerImpl.refreshAllPluginStates env m.logPlugins
                    m).2)).podStateManager.getAllConfigMapKeys] } := by
  unfold ManagerImpl.sync
  rw [hready]
  simp only [Bool.not_true, Bool.false_eq_true, if_false]
  rcases hr : ManagerImpl.refreshAllPluginStates env m.logPlugins m with ⟨e, m1⟩
  rw [hr] at hok
  simp only at hok
  subst hok
  rfl

/-- C10 (counterexample): the plugin `lp` lists a config of pod `u1`, which the
pod source does not know; all sources are ready and every call succeeds.  One
`sync()` removes `u1` from the pod state store and deletes its config in the
plugin, but `u1` is still returned by `getAllPodUIDs`. -/
theorem sync_keeps_pod_in_plugin_state :
    "u1" ∈ (trackingManager (stdPolicy false)).pluginStateManager.getAllPodUIDs ∧
    pushEnv.getPodByUID "u1" = none ∧
    pushEnv.allReady = true ∧
    (ManagerImpl.sync pushEnv (trackingManager (stdPolicy false))).calls
      = [Call.listConfig lpEndpoint, Call.delConfig lpEndpoint "u1_c_std_x.conf",
          Call.watcherSync []] ∧
    (ManagerImpl.sync pushEnv (trackingManager (stdPolicy false))).podStateManager
      = newPodStateManager ∧
    "u1" ∈ (ManagerImpl.sync pushEnv
      (trackingManager (stdPolicy false))).pluginStateManager.getAllPodUIDs := by
  decide

/-- C10 (amended): with all sources ready and every `listConfig` of step 1
succeeding, for every uid that the plugin state store holds after step 1 and
that the pod source does not know, after one full `sync()` the uid is absent
from the pod state store (no policy, no log volumes, no config-map keys), and
`delConfig` has been issued for each of its observed config names when the
`delConfig` calls succeed.  The plugin state store is not touched by the
garbage collection: it is the one step 1 produced, and `getAllPodUIDs` still
contains the uid. -/
theorem sync_removes_unknown_pods (env : Env) (m : ManagerImpl) (podUID : UID)
    (hready : env.allReady = true)
    (hwf : EndpointBound m.pluginStateManager.podLogConfigNames
      m.pluginStateManager.podLogPluginEndpoint)
    (hok : (ManagerImpl.refreshAllPluginStates env m.logPlugins m).1 = none)
    (huid : podUID ∈ (ManagerImpl.refreshAllPluginStates env m.logPlugins
      m).2.pluginStateManager.getAllPodUIDs)
    (hunknown : env.getPodByUID podUID = none) :
    (ManagerImpl.sync env m).podStateManager.Absent podUID ∧
    (ManagerImpl.sync env m).pluginStateManager
      = (ManagerImpl.refreshAllPluginStates env m.logPlugins m).2.pluginStateManager ∧
    podUID ∈ (ManagerImpl.sync env m).pluginStateManager.getAllPodUIDs ∧
    ((∀ ep n, env.delConfig ep n = .ok ()) →
      ∃ ep, (ManagerImpl.sync env m).pluginStateManager.getLogPluginEndpoint podUID = some ep ∧
        ∀ n ∈ (ManagerImpl.sync env m).pluginStateManager.getLogConfigNames podUID,
          Call.delConfig ep n ∈ (ManagerImpl.sync env m).calls) := by
  obtain ⟨_, hbound⟩ := refreshAllPluginStates_frame env m.logPlugins m hwf
  have hpl := syncPods_pluginStateManager env (ManagerImpl.filterPods env.getPods)
    (ManagerImpl.refreshAllPluginStates env m.logPlugins m).2
  have hkeys : podUID ∈ (ManagerImpl.refreshAllPluginStates env m.logPlugins
      m).2.pluginStateManager.podLogConfigNames.keys := by
    rcases (StringSet.mem_foldl_Insert _ _ _).1 huid with h | h
    · cases h
    · exact h
  obtain ⟨ep, hep⟩ := hbound podUID hkeys
  have hep2 : (ManagerImpl.syncPods env (ManagerImpl.filterPods env.getPods)
      (ManagerImpl.refreshAllPluginStates env m.logPlugins
        m).2).pluginStateManager.getLogPluginEndpoint podUID = some ep := by
    rw [hpl]; exact hep
  have hmem2 : podUID ∈ (ManagerImpl.syncPods env (ManagerImpl.filterPods env.getPods)
      (ManagerImpl.refreshAllPluginStates env m.logPlugins
        m).2).pluginStateManager.getAllPodUIDs := by
    rw [hpl]; exact huid
  obtain ⟨habs, hcalls⟩ := removeUnknownPods_removes env _ _ podUID ep hmem2 hunknown hep2
  obtain ⟨hfr, _, _⟩ := removeUnknownPods_frame env
    (ManagerImpl.syncPods env (ManagerImpl.filterPods env.getPods)
      (ManagerImpl.refreshAllPluginStates env m.logPlugins
        m).2).pluginStateManager.getAllPodUIDs
    (ManagerImpl.syncPods env (ManagerImpl.filterPods env.getPods)
      (ManagerImpl.refreshAllPluginStates env m.logPlugins m).2)
  rw [sync_eq env m hready hok]
  refine ⟨habs, hfr.trans hpl, ?_, ?_⟩
  · show podUID ∈ pluginStateManager.getAllPodUIDs _
    rw [hfr, hpl]; exact huid
  · intro hdel
    refine ⟨ep, ?_, ?_⟩
    · show pluginStateManager.getLogPluginEndpoint _ podUID = some ep
      rw [hfr, hpl]; exact hep
    · intro n hn
      have hn1 : n ∈ (ManagerImpl.syncPods env (ManagerImpl.filterPods env.getPods)
          (ManagerImpl.refreshAllPluginStates env m.logPlugins
            m).2).pluginStateManager.getLogConfigNames podUID := by
        have : n ∈ pluginStateManager.getLogConfigNames
          (ManagerImpl.removeUnknownPods env _ _).pluginStateManager podUID := hn
        rw [hfr] at this
        exact this
      exact List.mem_append_left _ (hcalls (fun n _ => hdel ep n) n hn1)

/-- C10 (amended) at a concrete manager: pod `u1`, listed by the plugin `lp` and
unknown to the pod source. -/
theorem sync_removes_unknown_pods_witness :
    (ManagerImpl.sync pushEnv (trackingManager (stdPolicy false))).podStateManager.Absent "u1" ∧
    "u1" ∈ (ManagerImpl.sync pushEnv
      (trackingManager (stdPolicy false))).pluginStateManager.getAllPodUIDs :=
  ⟨(sync_removes_unknown_pods pushEnv (trackingManager (stdPolicy false)) "u1" rfl
      (by
        intro u hu
        have h1 : u = "u1" := by simpa [trackingManager, GoMap.keys] using hu
        subst h1
        exact ⟨lpEndpoint, by decide⟩)
      (by decide) (by decide) (by decide)).1,
    by decide⟩

/-! ## When a pod leaves the pod state store -/

/-- `RemoveLogPolicy` changes the pod state store only on its removal path: a
policy is stored for the pod, and collection is finished or safe deletion is off
and the grace period is exceeded. -/
theorem RemoveLogPolicy_changes_only_when_allowed (env : Env) (m : ManagerImpl) (pod : Pod)
    (h : (ManagerImpl.RemoveLogPolicy env m (some pod)).2.1.podStateManager
      ≠ m.podStateManager) :
    ∃ policy, m.podStateManager.getLogPolicy pod.UID = some policy ∧
      ((ManagerImpl.checkCollectFinished env m pod.UID policy).1 = true ∨
        (policy.SafeDeletionEnabled = false ∧
          ManagerImpl.exceedTerminationGracePeriod env pod = true)) := by
  unfold ManagerImpl.RemoveLogPolicy at h
  by_cases hann : IsPodLogPolicyExists pod = true
  · cases hpol : m.podStateManager.getLogPolicy pod.UID with
    | none =>
      simp only [hann, hpol, Bool.not_true, Bool.false_eq_true, if_false] at h
      exact absurd rfl h
    | some policy =>
      refine ⟨policy, rfl, ?_⟩
      obtain ⟨_, hps, _, _⟩ := checkCollectFinished_frame env m pod.UID policy
      by_cases hfin : (ManagerImpl.checkCollectFinished env m pod.UID policy).1 = true
      · exact Or.inl hfin
      · right
        have hfin1 : (ManagerImpl.checkCollectFinished env m pod.UID policy).1 = false := by
          simpa using hfin
        simp only [hann, hpol, hfin1, Bool.not_true, Bool.false_eq_true, if_false, Bool.not_false,
          Bool.true_and] at h
        by_cases hs : policy.SafeDeletionEnabled = true
        · simp only [hs, if_true] at h
          exact absurd hps h
        · have hs1 : policy.SafeDeletionEnabled = false := by simpa using hs
          by_cases hex : ManagerImpl.exceedTerminationGracePeriod env pod = true
          · exact ⟨hs1, hex⟩
          · have hex1 : ManagerImpl.exceedTerminationGracePeriod env pod = false := by
              simpa using hex
            simp only [hs1, Bool.false_eq_true, if_false, hex1, Bool.not_false, if_true] at h
            exact absurd hps h
  · have hann1 : IsPodLogPolicyExists pod = false := by simpa using hann
    simp only [hann1, Bool.not_false, if_true] at h
    exact absurd rfl h

theorem refreshAllPluginStates_podStateManager (env : Env) (l : List (String × pluginEndpoint))
    (m : ManagerImpl) :
    (ManagerImpl.refreshAllPluginStates env l m).2.podStateManager = m.podStateManager := by
  induction l generalizing m with
  | nil => rfl
  | cons p l ih =>
    obtain ⟨name, ep⟩ := p
    unfold ManagerImpl.refreshAllPluginStates ManagerImpl.refreshPluginState
    cases hl : env.listConfig ep with
    | error e => rfl
    | ok configs =>
      simp only
      exact ih _

theorem refreshPodState_keeps_policy (env : Env) (m : ManagerImpl) (pod : Pod) (podUID : UID)
    (h : ∃ p, m.podStateManager.getLogPolicy podUID = some p) :
    ∃ p, (ManagerImpl.refreshPodState env m pod).2.podStateManager.getLogPolicy podUID
      = some p := by
  unfold ManagerImpl.refreshPodState
  split
  · exact h
  · split
    · exact h
    · split
      · exact h
      · rename_i policy _ _ _ _ _ _
        show ∃ p, GoMap.get (GoMap.set m.podStateManager.podLogPolicies pod.UID _) podUID = some p
        rw [GoMap.get_set]
        by_cases hu : podUID = pod.UID
        · rw [if_pos hu]; exact ⟨_, rfl⟩
        · rw [if_neg hu]; exact h

/-- The second loop of `sync` never drops a policy from the pod state store. -/
theorem syncPods_keeps_policy (env : Env) (pods : List Pod) (m : ManagerImpl) (podUID : UID)
    (h : ∃ p, m.podStateManager.getLogPolicy podUID = some p) :
    ∃ p, (ManagerImpl.syncPods env pods m).podStateManager.getLogPolicy podUID = some p := by
  induction pods generalizing m with
  | nil => exact h
  | cons pod pods ih =>
    unfold ManagerImpl.syncPods
    by_cases ht : env.isPodTerminated pod = true
    · rw [if_pos ht]; exact ih m h
    · rw [if_neg ht]
      have hk := refreshPodState_keeps_policy env m pod podUID h
      rcases hr : ManagerImpl.refreshPodState env m pod with ⟨err, m1⟩
      rw [hr] at hk
      cases err with
      | some e => exact ih m1 hk
      | none =>
        apply ih
        rw [(pushConfigs_frame env m1 pod).2.1]
        exact hk

/-- The third loop of `sync` drops a policy only for a pod it visits and that the
pod source does not know. -/
theorem removeUnknownPods_drops_only_unknown (env : Env) (l : List String) (m : ManagerImpl)
    (podUID : UID)
    (h : ∃ p, m.podStateManager.getLogPolicy podUID = some p)
    (hgone : (ManagerImpl.removeUnknownPods env l m).podStateManager.getLogPolicy podUID = none) :
    podUID ∈ l ∧ env.getPodByUID podUID = none := by
  induction l generalizing m with
  | nil =>
    obtain ⟨p, hp⟩ := h
    have : m.podStateManager.getLogPolicy podUID = none := hgone
    rw [hp] at this
    cases this
  | cons a l ih =>
    unfold ManagerImpl.removeUnknownPods at hgone
    cases hpod : env.getPodByUID a with
    | some q =>
      rw [hpod] at hgone
      obtain ⟨h1, h2⟩ := ih m h hgone
      exact ⟨List.mem_cons_of_mem _ h1, h2⟩
    | none =>
      rw [hpod] at hgone
      cases hep : m.pluginStateManager.getLogPluginEndpoint a with
      | none =>
        rw [hep] at hgone
        obtain ⟨h1, h2⟩ := ih m h hgone
        exact ⟨List.mem_cons_of_mem _ h1, h2⟩
      | some ep =>
        rw [hep] at hgone
        by_cases hu : podUID = a
        · exact ⟨hu ▸ List.mem_cons_self _ _, hu ▸ hpod⟩
        · have hkeep : ∃ p, (ManagerImpl.deletePluginConfigs env
              (ManagerImpl.removePodState m a) a ep).2.podStateManager.getLogPolicy podUID
                = some p := by
            show ∃ p, GoMap.get (GoMap.delete m.podStateManager.podLogPolicies a) podUID = some p
            rw [GoMap.get_delete, if_neg hu]
            exact h
          obtain ⟨h1, h2⟩ := ih _ hkeep hgone
          exact ⟨List.mem_cons_of_mem _ h1, h2⟩

/-- `sync` drops a policy from the pod state store only for a pod that the plugin
state store holds after step 1 and that the pod source does not know. -/
theorem sync_drops_only_unknown (env : Env) (m : ManagerImpl) (podUID : UID)
    (h : ∃ p, m.podStateManager.getLogPolicy podUID = some p)
    (hgone : (ManagerImpl.sync env m).podStateManager.getLogPolicy podUID = none) :
    env.getPodByUID podUID = none ∧
      podUID ∈ (ManagerImpl.refreshAllPluginStates env m.logPlugins
        m).2.pluginStateManager.getAllPodUIDs := by
  have hcontra : ∀ m1 : ManagerImpl, m1.podStateManager = m.podStateManager →
      m1.podStateManager.getLogPolicy podUID = none → False := by
    intro m1 h1 h2
    obtain ⟨p, hp⟩ := h
    rw [h1, hp] at h2
    cases h2
  unfold ManagerImpl.sync at hgone
  by_cases hready : env.allReady = true
  · rw [hready] at hgone
    simp only [Bool.not_true, Bool.false_eq_true, if_false] at hgone
    have hps := refreshAllPluginStates_podStateManager env m.logPlugins m
    have hpl := syncPods_pluginStateManager env (ManagerImpl.filterPods env.getPods)
      (ManagerImpl.refreshAllPluginStates env m.logPlugins m).2
    have hkeep := syncPods_keeps_policy env (ManagerImpl.filterPods env.getPods)
      (ManagerImpl.refreshAllPluginStates env m.logPlugins m).2 podUID (by rw [hps]; exact h)
    rcases hr : ManagerImpl.refreshAllPluginStates env m.logPlugins m with ⟨e, m1⟩
    rw [hr] at hgone hps hpl hkeep
    cases e with
    | some err => exact absurd hgone (fun hg => hcontra m1 hps hg)
    | none =>
      simp only at hgone hpl hkeep
      obtain ⟨h1, h2⟩ := removeUnknownPods_drops_only_unknown env _ _ podUID hkeep hgone
      rw [hpl] at h1
      exact ⟨h2, h1⟩
  · have hready1 : env.allReady = false := by simpa using hready
    rw [hready1] at hgone
    simp only [Bool.not_false, if_true] at hgone
    exact absurd hgone (fun hg => hcontra m rfl hg)

/-- C11 (counterexample): two removals that the claim excludes.  First, pod `u1`
has safe deletion on, no deletion timestamp, and its one observed config `c1`
is reported `Unknown`, not `Finished`: `RemoveLogPolicy` returns nil and the pod
is gone from the pod state store.  Second, a pod with safe deletion on whose
listed config is reported `Running` and which the pod source does not know is
removed from the pod state store by `sync()`. -/
theorem removal_without_finished_collection :
    ((trackingManager (stdPolicy true)).pluginStateManager.getLogConfigNames "u1" = ["c1"] ∧
      unknownEnv.getState lpEndpoint "c1" = .ok State.Unknown ∧
      (stdPolicy true).SafeDeletionEnabled = true ∧
      ManagerImpl.exceedTerminationGracePeriod unknownEnv (annotatedPod none none) = false ∧
      (ManagerImpl.RemoveLogPolicy unknownEnv (trackingManager (stdPolicy true))
        (some (annotatedPod none none))).1 = none ∧
      (ManagerImpl.RemoveLogPolicy unknownEnv (trackingManager (stdPolicy true))
        (some (annotatedPod none none))).2.1.podStateManager.getLogPolicy "u1" = none) ∧
    ((trackingManager (stdPolicy true)).podStateManager.getLogPolicy "u1"
        = some (stdPolicy true) ∧
      (ManagerImpl.sync runningListEnv
        (trackingManager (stdPolicy true))).pluginStateManager.getLogConfigNames "u1"
          = ["u1_c_std_x.conf"] ∧
      runningListEnv.getState lpEndpoint "u1_c_std_x.conf" = .ok State.Running ∧
      (ManagerImpl.sync runningListEnv
        (trackingManager (stdPolicy true))).podStateManager.getLogPolicy "u1" = none) :=
  ⟨⟨by decide, rfl, rfl, by decide, by decide, by decide⟩,
    ⟨by decide, by decide, rfl, by decide⟩⟩

/-- C11 (amended): whenever `RemoveLogPolicy` changes the pod state store, a
policy is stored for the pod and either the plugin state store holds no config
name for the pod, or the plugin of the policy is registered and every observed
config reported a state other than `Running` (`Finished` or `Unknown`), or the
policy has `SafeDeletionEnabled = false` and `now` is later than the deletion
timestamp plus the grace period taken as an `int64` nanosecond duration.
Whenever `sync()` drops the policy of a pod from the pod state store, the pod is
unknown to the pod source and is held in the plugin state store after the
refresh of step 1; the collection state is not consulted. -/
theorem removal_requires_drained (env : Env) (m : ManagerImpl) :
    (∀ pod, (ManagerImpl.RemoveLogPolicy env m (some pod)).2.1.podStateManager
        ≠ m.podStateManager →
      ∃ policy, m.podStateManager.getLogPolicy pod.UID = some policy ∧
        (m.pluginStateManager.getLogConfigNames pod.UID = [] ∨
          (∃ ep, m.logPlugins.get policy.LogPlugin = some ep ∧
            ∀ n ∈ m.pluginStateManager.getLogConfigNames pod.UID,
              ∃ st, env.getState ep n = .ok st ∧ st ≠ State.Running) ∨
          (policy.SafeDeletionEnabled = false ∧
            ∃ t g, pod.DeletionTimestamp = some t ∧ pod.DeletionGracePeriodSeconds = some g ∧
              t + wrapInt64 (g * 1000000000) < env.now))) ∧
    (∀ podUID, (∃ p, m.podStateManager.getLogPolicy podUID = some p) →
      (ManagerImpl.sync env m).podStateManager.getLogPolicy podUID = none →
      env.getPodByUID podUID = none ∧
        podUID ∈ (ManagerImpl.refreshAllPluginStates env m.logPlugins
          m).2.pluginStateManager.getAllPodUIDs) := by
  constructor
  · intro pod hchange
    obtain ⟨policy, hpol, hgo⟩ := RemoveLogPolicy_changes_only_when_allowed env m pod hchange
    refine ⟨policy, hpol, ?_⟩
    rcases hgo with hfin | ⟨hsafe, hex⟩
    · rcases (checkCollectFinished_eq_true_iff env m pod.UID policy).1 hfin with h | h
      · exact Or.inl h
      · exact Or.inr (Or.inl h)
    · refine Or.inr (Or.inr ⟨hsafe, ?_⟩)
      unfold ManagerImpl.exceedTerminationGracePeriod at hex
      cases ht : pod.DeletionTimestamp with
      | none => rw [ht] at hex; cases hex
      | some t =>
        cases hg : pod.DeletionGracePeriodSeconds with
        | none => rw [ht, hg] at hex; cases hex
        | some g =>
          rw [ht, hg] at hex
          exact ⟨t, g, rfl, rfl, by simpa using hex⟩
  · intro podUID h hgone
    exact sync_drops_only_unknown env m podUID h hgone

/-- C11 (amended) at scenario S6: the removal at `now = 31 s` is one in which safe
deletion is off and the grace period is exceeded. -/
theorem removal_requires_drained_witness :
    (ManagerImpl.RemoveLogPolicy { runningEnv with now := 31000000000 }
        (trackingManager (stdPolicy false))
        (some (annotatedPod (some 0) (some 30)))).2.1.podStateManager
      ≠ (trackingManager (stdPolicy false)).podStateManager ∧
    ∃ policy, (trackingManager (stdPolicy false)).podStateManager.getLogPolicy
        (annotatedPod (some 0) (some 30)).UID = some policy ∧
      ((trackingManager (stdPolicy false)).pluginStateManager.getLogConfigNames
          (annotatedPod (some 0) (some 30)).UID = [] ∨
        (∃ ep, (trackingManager (stdPolicy false)).logPlugins.get policy.LogPlugin = some ep ∧
          ∀ n ∈ (trackingManager (stdPolicy false)).pluginStateManager.getLogConfigNames
              (annotatedPod (some 0) (some 30)).UID,
            ∃ st, ({ runningEnv with now := 31000000000 } : Env).getState ep n = .ok st ∧
              st ≠ State.Running) ∨
        (policy.SafeDeletionEnabled = false ∧
          ∃ t g, (annotatedPod (some 0) (some 30)).DeletionTimestamp = some t ∧
            (annotatedPod (some 0) (some 30)).DeletionGracePeriodSeconds = some g ∧
            t + wrapInt64 (g * 1000000000)
              < ({ runningEnv with now := 31000000000 } : Env).now)) :=
  ⟨by decide,
    (removal_requires_drained { runningEnv with now := 31000000000 }
      (trackingManager (stdPolicy false))).1 (annotatedPod (some 0) (some 30)) (by decide)⟩

/-! ## `updateAllLogConfigs`: which pods are observed -/

theorem GoMap.mem_keys_iff_get {K V : Type} [DecidableEq K] (m : GoMap K V) (k : K) :
    k ∈ m.keys ↔ ∃ v, m.get k = some v :=
  ⟨GoMap.get_isSome_of_mem_keys m k, fun ⟨v, hv⟩ => GoMap.mem_keys_of_get m k v hv⟩

theorem mem_keys_addLogConfig (ep : pluginEndpoint)
    (acc : GoMap UID StringSet × GoMap UID pluginEndpoint) (c : Config) (podUID : UID) :
    podUID ∈ (pluginStateManager.addLogConfig ep acc c).1.keys ↔
      podUID ∈ acc.1.keys ∨ c.Metadata.PodUID = podUID := by
  rw [GoMap.mem_keys_iff_get, GoMap.mem_keys_iff_get]
  unfold pluginStateManager.addLogConfig
  cases hget : acc.1.get c.Metadata.PodUID with
  | none =>
    simp only [GoMap.get_set]
    by_cases h : podUID = c.Metadata.PodUID
    · rw [if_pos h]
      exact ⟨fun _ => Or.inr h.symm, fun _ => ⟨_, rfl⟩⟩
    · rw [if_neg h]
      exact ⟨fun h1 => Or.inl h1, fun h1 => h1.elim id (fun h2 => absurd h2.symm h)⟩
  | some configNames =>
    simp only [GoMap.get_set]
    by_cases h : podUID = c.Metadata.PodUID
    · rw [if_pos h]
      exact ⟨fun _ => Or.inr h.symm, fun _ => ⟨_, rfl⟩⟩
    · rw [if_neg h]
      exact ⟨fun h1 => Or.inl h1, fun h1 => h1.elim id (fun h2 => absurd h2.symm h)⟩

theorem mem_keys_foldl_addLogConfig (ep : pluginEndpoint) (cs : List Config)
    (acc : GoMap UID StringSet × GoMap UID pluginEndpoint) (podUID : UID) :
    podUID ∈ (cs.foldl (pluginStateManager.addLogConfig ep) acc).1.keys ↔
      podUID ∈ acc.1.keys ∨ ∃ c ∈ cs, c.Metadata.PodUID = podUID := by
  induction cs generalizing acc with
  | nil => simp
  | cons a cs ih =>
    rw [List.foldl_cons, ih, mem_keys_addLogConfig]
    constructor
    · rintro ((h | h) | ⟨c, hc, h⟩)
      · exact Or.inl h
      · exact Or.inr ⟨a, List.mem_cons_self _ _, h⟩
      · exact Or.inr ⟨c, List.mem_cons_of_mem _ hc, h⟩
    · rintro (h | ⟨c, hc, h⟩)
      · exact Or.inl (Or.inl h)
      · rcases List.mem_cons.1 hc with h1 | h1
        · subst h1
          exact Or.inl (Or.inr h)
        · exact Or.inr ⟨c, h1, h⟩

/-- The pods observed after `updateAllLogConfigs` on a non-nil list: the pods that
a listed config references. -/
theorem mem_getAllPodUIDs_updateAllLogConfigs (m : pluginStateManager) (cs : List Config)
    (ep : pluginEndpoint) (podUID : UID) :
    podUID ∈ (m.updateAllLogConfigs (some cs) ep).getAllPodUIDs ↔
      ∃ c ∈ cs, c.Metadata.PodUID = podUID := by
  unfold pluginStateManager.getAllPodUIDs
  rw [StringSet.mem_foldl_Insert]
  have h := mem_keys_foldl_addLogConfig ep cs ([], []) podUID
  have hnil : podUID ∉ GoMap.keys ([] : GoMap UID StringSet) := by simp [GoMap.keys]
  simp only [hnil, false_or] at h
  constructor
  · rintro (h1 | h1)
    · cases h1
    · exact h.1 h1
  · intro h1
    exact Or.inr (h.2 h1)

theorem AllBoundTo_foldl_addLogConfig (ep : pluginEndpoint) (cs : List Config)
    (acc : GoMap UID StringSet × GoMap UID pluginEndpoint) (h : AllBoundTo ep acc.2) :
    AllBoundTo ep (cs.foldl (pluginStateManager.addLogConfig ep) acc).2 := by
  induction cs generalizing acc with
  | nil => exact h
  | cons c cs ih =>
    apply ih
    intro podUID e he
    unfold pluginStateManager.addLogConfig at he
    cases hget : acc.2.get c.Metadata.PodUID with
    | some e0 =>
      rw [hget] at he
      exact h podUID e he
    | none =>
      rw [hget] at he
      simp only [GoMap.get_set] at he
      by_cases hu : podUID = c.Metadata.PodUID
      · rw [if_pos hu] at he
        cases he
        rfl
      · rw [if_neg hu] at he
        exact h podUID e he

/-- After `updateAllLogConfigs` on a non-nil list, every pod that a listed config
references is bound to the endpoint of the call. -/
theorem getLogPluginEndpoint_updateAllLogConfigs (m : pluginStateManager) (cs : List Config)
    (ep : pluginEndpoint) (podUID : UID) (h : ∃ c ∈ cs, c.Metadata.PodUID = podUID) :
    (m.updateAllLogConfigs (some cs) ep).getLogPluginEndpoint podUID = some ep := by
  have hk : podUID ∈ (cs.foldl (pluginStateManager.addLogConfig ep) ([], [])).1.keys :=
    (mem_keys_foldl_addLogConfig ep cs ([], []) podUID).2 (Or.inr h)
  obtain ⟨e, he⟩ := EndpointBound_foldl_addLogConfig ep cs ([], [])
    (by intro u hu; cases hu) podUID hk
  have hall := AllBoundTo_foldl_addLogConfig ep cs ([], [])
    (by intro u e0 h0; simp [GoMap.get] at h0) podUID e he
  show GoMap.get (cs.foldl (pluginStateManager.addLogConfig ep) ([], [])).2 podUID = some ep
  rw [he, hall]

/-- C12 (the defect): the plugins `lp` and `lp2` are registered; `lp` lists a
config of pod `u1`, `lp2` a config of pod `u2`.  Step 1 of `sync()` calls
`listConfig` and `updateAllLogConfigs` once for each, and afterwards
`getAllPodUIDs` holds `u2` only: the pods of the plugin refreshed first are
lost. -/
theorem second_plugin_refresh_drops_first_plugin_pods :
    (ManagerImpl.refreshAllPluginStates twoPluginEnv twoPluginManager.logPlugins
      twoPluginManager).1 = none ∧
    (ManagerImpl.refreshAllPluginStates twoPluginEnv twoPluginManager.logPlugins
      twoPluginManager).2.calls = [Call.listConfig lpEndpoint, Call.listConfig lp2Endpoint] ∧
    sampleConfig.Metadata.PodUID = "u1" ∧
    (ManagerImpl.refreshAllPluginStates twoPluginEnv twoPluginManager.logPlugins
      twoPluginManager).2.pluginStateManager.getAllPodUIDs = ["u2"] ∧
    "u1" ∉ (ManagerImpl.refreshAllPluginStates twoPluginEnv twoPluginManager.logPlugins
      twoPluginManager).2.pluginStateManager.getAllPodUIDs := by
  decide

/-- C13 (counterexample): the plugin answers `listConfig` with no configs at all
(a nil list); after `refreshPluginState` the pod `u1`, observed before, is still
in `getAllPodUIDs` and still has the config name `c1`. -/
theorem empty_reply_keeps_observed_pod :
    (ManagerImpl.refreshPluginState quietEnv (trackingManager (stdPolicy false))
      lpEndpoint).1 = none ∧
    "u1" ∈ (ManagerImpl.refreshPluginState quietEnv (trackingManager (stdPolicy false))
      lpEndpoint).2.pluginStateManager.getAllPodUIDs ∧
    (ManagerImpl.refreshPluginState quietEnv (trackingManager (stdPolicy false))
      lpEndpoint).2.pluginStateManager.getLogConfigNames "u1" = ["c1"] := by
  decide

/-- C13 (amended): if the `listConfig` reply of the plugin is a non-nil list with
no config whose `PodUID` is `uid`, then after `refreshPluginState` the uid is
not in `getAllPodUIDs` and `getLogConfigNames(uid)` is empty; if the reply is
the nil list (no configs at all), `refreshPluginState` leaves the plugin state
store as it was. -/
theorem refresh_drops_unlisted_pod (env : Env) (m : ManagerImpl) (ep : pluginEndpoint)
    (podUID : UID) :
    (∀ cs, env.listConfig ep = .ok (some cs) → (∀ c ∈ cs, c.Metadata.PodUID ≠ podUID) →
      podUID ∉ (ManagerImpl.refreshPluginState env m ep).2.pluginStateManager.getAllPodUIDs ∧
      (ManagerImpl.refreshPluginState env m ep).2.pluginStateManager.getLogConfigNames podUID
        = []) ∧
    (env.listConfig ep = .ok none →
      (ManagerImpl.refreshPluginState env m ep).2.pluginStateManager = m.pluginStateManager) := by
  constructor
  · intro cs hlist hno
    have href : (ManagerImpl.refreshPluginState env m ep).2.pluginStateManager
        = m.pluginStateManager.updateAllLogConfigs (some cs) ep := by
      unfold ManagerImpl.refreshPluginState
      rw [hlist]
    rw [href]
    constructor
    · intro hmem
      obtain ⟨c, hc, hu⟩ := (mem_getAllPodUIDs_updateAllLogConfigs _ cs ep podUID).1 hmem
      exact hno c hc hu
    · rw [List.eq_nil_iff_forall_not_mem]
      intro n hn
      obtain ⟨c, hc, hu, _⟩ :=
        (mem_getLogConfigNames_updateAllLogConfigs m.pluginStateManager cs ep podUID n).1 hn
      exact hno c hc hu
  · intro hlist
    unfold ManagerImpl.refreshPluginState
    rw [hlist]
    rfl

/-- C13 (amended) at a concrete refresh: the plugin lists only `sampleConfig` of
pod `u1`, so a pod `u9` is not observed afterwards. -/
theorem refresh_drops_unlisted_pod_witness :
    "u9" ∉ (ManagerImpl.refreshPluginState pushEnv (trackingManager (stdPolicy false))
      lpEndpoint).2.pluginStateManager.getAllPodUIDs ∧
    (ManagerImpl.refreshPluginState pushEnv (trackingManager (stdPolicy false))
      lpEndpoint).2.pluginStateManager.getLogConfigNames "u9" = [] :=
  (refresh_drops_unlisted_pod pushEnv (trackingManager (stdPolicy false)) lpEndpoint "u9").1
    [sampleConfig] rfl (by decide)

/-- C14: after `updateAllLogConfigs(cs, ep)` on a non-nil list `cs`, for every pod
`u` the names in `getLogConfigNames(u)` are the `Metadata.Name` of the configs
of `cs` whose `Metadata.PodUID` is `u`; `getAllPodUIDs` holds the pods
occurring in `cs`, each once; and `getLogPluginEndpoint(u)` returns
`ep` for every pod `u` occurring in `cs`. -/
theorem updateAllLogConfigs_postcondition (m : pluginStateManager) (cs : List Config)
    (ep : pluginEndpoint) :
    (∀ u n, n ∈ (m.updateAllLogConfigs (some cs) ep).getLogConfigNames u ↔
      ∃ c ∈ cs, c.Metadata.PodUID = u ∧ c.Metadata.Name = n) ∧
    (∀ u, u ∈ (m.updateAllLogConfigs (some cs) ep).getAllPodUIDs ↔
      ∃ c ∈ cs, c.Metadata.PodUID = u) ∧
    (m.updateAllLogConfigs (some cs) ep).getAllPodUIDs.Nodup ∧
    (∀ u, (∃ c ∈ cs, c.Metadata.PodUID = u) →
      (m.updateAllLogConfigs (some cs) ep).getLogPluginEndpoint u = some ep) :=
  ⟨fun u n => mem_getLogConfigNames_updateAllLogConfigs m cs ep u n,
    fun u => mem_getAllPodUIDs_updateAllLogConfigs m cs ep u,
    StringSet.nodup_foldl_Insert _ _ List.nodup_nil,
    fun u h => getLogPluginEndpoint_updateAllLogConfigs m cs ep u h⟩

/-- C14 at a concrete list: two configs of pod `u1` and one of pod `u2`. -/
theorem updateAllLogConfigs_postcondition_witness :
    (newPluginStateManager.updateAllLogConfigs
      (some [sampleConfig, otherConfig,
        { sampleConfig with Metadata := { sampleConfig.Metadata with Name := "c1" } }])
      lpEndpoint).getLogPluginEndpoint "u2" = some lpEndpoint :=
  (updateAllLogConfigs_postcondition newPluginStateManager
    [sampleConfig, otherConfig,
      { sampleConfig with Metadata := { sampleConfig.Metadata with Name := "c1" } }]
    lpEndpoint).2.2.2 "u2" ⟨otherConfig, by decide, rfl⟩

/-! ## `CreateLogPolicy` with a volume that is not mounted -/

theorem buildContainerLogVolumes_error (env : Env) (pod : Pod) (podVolumes : GoMap String String)
    (containerName : String) (clps : List ContainerLogPolicy) (acc : logVolumesMap)
    (e : ContainerLogPolicy) (he : e ∈ clps) (hstd : e.Category ≠ podLogPolicyCategoryStd)
    (hmiss : podVolumes.get e.VolumeName = none) :
    ∃ err, ManagerImpl.buildContainerLogVolumes env pod podVolumes containerName clps acc
      = .error err := by
  induction clps generalizing acc with
  | nil => cases he
  | cons a clps ih =>
    unfold ManagerImpl.buildContainerLogVolumes
    by_cases ha : a.Category = podLogPolicyCategoryStd
    · rw [if_pos ha]
      have he1 : e ∈ clps := by
        rcases List.mem_cons.1 he with h | h
        · rw [h] at hstd; exact absurd ha hstd
        · exact h
      exact ih _ he1
    · rw [if_neg ha]
      cases hget : podVolumes.get a.VolumeName with
      | none => exact ⟨_, rfl⟩
      | some hostPath =>
        have he1 : e ∈ clps := by
          rcases List.mem_cons.1 he with h | h
          · rw [h, hget] at hmiss; cases hmiss
          · exact h
        exact ih _ he1

theorem buildAllLogVolumes_error (env : Env) (pod : Pod) (podVolumes : GoMap String String)
    (l : List (String × List ContainerLogPolicy)) (acc : logVolumesMap)
    (containerName : String) (clps : List ContainerLogPolicy) (e : ContainerLogPolicy)
    (hc : (containerName, clps) ∈ l) (he : e ∈ clps)
    (hstd : e.Category ≠ podLogPolicyCategoryStd)
    (hmiss : podVolumes.get e.VolumeName = none) :
    ∃ err, ManagerImpl.buildAllLogVolumes env pod podVolumes l acc = .error err := by
  induction l generalizing acc with
  | nil => cases hc
  | cons a l ih =>
    obtain ⟨c0, clps0⟩ := a
    unfold ManagerImpl.buildAllLogVolumes
    cases hb : ManagerImpl.buildContainerLogVolumes env pod podVolumes c0 clps0 acc with
    | error err => exact ⟨err, rfl⟩
    | ok acc1 =>
      rcases List.mem_cons.1 hc with h | h
      · cases h
        obtain ⟨err, herr⟩ := buildContainerLogVolumes_error env pod podVolumes containerName
          clps acc e he hstd hmiss
        rw [herr] at hb
        cases hb
      · exact ih acc1 h

/-- On a policy without nil entry, a non-`std` entry whose volume is not mounted
makes `ManagerImpl.CreateLogPolicy` return an error with the manager
unchanged. -/
theorem CreateLogPolicy_missing_volume_of_entries (env : Env) (m : ManagerImpl) (pod : Pod)
    (policy : PodLogPolicy) (containerName : String) (clps : List ContainerLogPolicy)
    (e : ContainerLogPolicy)
    (hann : IsPodLogPolicyExists pod = true)
    (hdec : GetPodLogPolicy env pod = .ok policy)
    (hc : (containerName, clps) ∈ policy.ContainerLogPolicies)
    (he : e ∈ clps)
    (hstd : e.Category ≠ podLogPolicyCategoryStd)
    (hmiss : (env.getMountedVolumesForPod pod.UID).get e.VolumeName = none) :
    ∃ err, ManagerImpl.CreateLogPolicy env m pod = (some err, m) := by
  obtain ⟨err, herr⟩ := buildAllLogVolumes_error env pod (env.getMountedVolumesForPod pod.UID)
    policy.ContainerLogPolicies [] containerName clps e hc he hstd hmiss
  refine ⟨err, ?_⟩
  unfold ManagerImpl.CreateLogPolicy ManagerImpl.refreshPodState ManagerImpl.buildPodLogVolumes
  simp only [hann, hdec, herr, Bool.not_true, Bool.false_eq_true, if_false]

/-! ## Policies with and without nil entries -/

theorem map_some_filterMap_id {α : Type} (l : List (Option α)) (h : none ∉ l) :
    (l.filterMap id).map some = l := by
  induction l with
  | nil => rfl
  | cons a l ih =>
    cases a with
    | none => exact absurd (List.mem_cons_self _ _) h
    | some x =>
      simp only [List.filterMap_cons, id, List.map_cons]
      rw [ih (fun hm => h (List.mem_cons_of_mem _ hm))]

theorem toNilable_entries (p : Nilable.PodLogPolicy) (h : p.NoNilEntry) :
    p.entries.toNilable = p := by
  obtain ⟨lp, sd, l⟩ := p
  unfold Nilable.PodLogPolicy.entries PodLogPolicy.toNilable
  simp only [Nilable.PodLogPolicy.mk.injEq, true_and, List.map_map]
  have hl : ∀ x ∈ l, none ∉ x.2 := h
  clear h
  induction l with
  | nil => rfl
  | cons a l ih =>
    simp only [List.map_cons, Function.comp]
    rw [map_some_filterMap_id a.2 (hl a (List.mem_cons_self _ _))]
    have := ih (fun x hx => hl x (List.mem_cons_of_mem _ hx))
    simp only [Function.comp] at this
    rw [this]

theorem entries_toNilable (p : PodLogPolicy) : p.toNilable.entries = p := by
  obtain ⟨lp, sd, l⟩ := p
  unfold Nilable.PodLogPolicy.entries PodLogPolicy.toNilable
  simp only [PodLogPolicy.mk.injEq, true_and, List.map_map]
  induction l with
  | nil => rfl
  | cons a l ih =>
    simp only [List.map_cons, Function.comp] at ih ⊢
    rw [ih]
    simp [List.filterMap_map]

theorem toNilable_NoNilEntry (p : PodLogPolicy) : p.toNilable.NoNilEntry := by
  intro x hx
  unfold PodLogPolicy.toNilable at hx
  obtain ⟨y, _, hy⟩ := List.mem_map.1 hx
  rw [← hy]
  simp

theorem nilable_buildContainerLogVolumes (env : Env) (pod : Pod)
    (podVolumes : GoMap String String) (containerName : String)
    (clps : List ContainerLogPolicy) (acc : logVolumesMap) :
    Nilable.buildContainerLogVolumes env pod podVolumes containerName (clps.map some) acc
      = .returns (ManagerImpl.buildContainerLogVolumes env pod podVolumes containerName
          clps acc) := by
  induction clps generalizing acc with
  | nil => rfl
  | cons a clps ih =>
    rw [List.map_cons]
    unfold Nilable.buildContainerLogVolumes ManagerImpl.buildContainerLogVolumes
    by_cases ha : a.Category = podLogPolicyCategoryStd
    · rw [if_pos ha, if_pos ha]
      exact ih acc
    · rw [if_neg ha, if_neg ha]
      cases podVolumes.get a.VolumeName with
      | none => rfl
      | some hostPath => exact ih _

theorem nilable_buildAllLogVolumes (env : Env) (pod : Pod) (podVolumes : GoMap String String)
    (l : List (String × List ContainerLogPolicy)) (acc : logVolumesMap) :
    Nilable.buildAllLogVolumes env pod podVolumes (l.map (fun x => (x.1, x.2.map some))) acc
      = .returns (ManagerImpl.buildAllLogVolumes env pod podVolumes l acc) := by
  induction l generalizing acc with
  | nil => rfl
  | cons a l ih =>
    obtain ⟨c, clps⟩ := a
    rw [List.map_cons]
    unfold Nilable.buildAllLogVolumes ManagerImpl.buildAllLogVolumes
    simp only [nilable_buildContainerLogVolumes]
    cases ManagerImpl.buildContainerLogVolumes env pod podVolumes c clps acc with
    | error err => rfl
    | ok acc1 => exact ih acc1

theorem nilable_buildContainerConfigMapKeys (env : Env) (pod : Pod)
    (clps : List ContainerLogPolicy) (acc : StringSet) :
    Nilable.buildContainerConfigMapKeys env pod (clps.map some) acc
      = .returns (ManagerImpl.buildContainerConfigMapKeys env pod clps acc) := by
  induction clps generalizing acc with
  | nil => rfl
  | cons a clps ih =>
    rw [List.map_cons]
    unfold Nilable.buildContainerConfigMapKeys ManagerImpl.buildContainerConfigMapKeys
    cases env.getConfigMap pod.Namespace a.PluginConfigMap with
    | error err => rfl
    | ok cm => exact ih _

theorem nilable_buildAllConfigMapKeys (env : Env) (pod : Pod)
    (l : List (String × List ContainerLogPolicy)) (acc : StringSet) :
    Nilable.buildAllConfigMapKeys env pod (l.map (fun x => (x.1, x.2.map some))) acc
      = .returns (ManagerImpl.buildAllConfigMapKeys env pod l acc) := by
  induction l generalizing acc with
  | nil => rfl
  | cons a l ih =>
    obtain ⟨c, clps⟩ := a
    rw [List.map_cons]
    unfold Nilable.buildAllConfigMapKeys ManagerImpl.buildAllConfigMapKeys
    simp only [nilable_buildContainerConfigMapKeys]
    cases ManagerImpl.buildContainerConfigMapKeys env pod clps acc with
    | error err => rfl
    | ok acc1 => exact ih acc1

theorem nilable_buildContainerLogConfigs (env : Env) (pod : Pod) (vols : logVolumesMap)
    (containerName : String) (clps : List ContainerLogPolicy) (acc : logConfigsMap) :
    Nilable.buildContainerLogConfigs env pod vols containerName (clps.map some) acc
      = .returns (ManagerImpl.buildContainerLogConfigs env pod vols containerName clps acc) := by
  induction clps generalizing acc with
  | nil => rfl
  | cons a clps ih =>
    rw [List.map_cons]
    unfold Nilable.buildContainerLogConfigs ManagerImpl.buildContainerLogConfigs
    cases env.getConfigMap pod.Namespace a.PluginConfigMap with
    | error err => rfl
    | ok cm =>
      simp only
      by_cases ha : a.Category = podLogPolicyCategoryStd
      · rw [if_pos ha, if_pos ha]
        exact ih _
      · rw [if_neg ha, if_neg ha]
        cases vols.get a.VolumeName with
        | none => exact ih _
        | some lv => exact ih _

theorem nilable_buildAllLogConfigs (env : Env) (pod : Pod) (vols : logVolumesMap)
    (l : List (String × List ContainerLogPolicy)) (acc : logConfigsMap) :
    Nilable.buildAllLogConfigs env pod vols (l.map (fun x => (x.1, x.2.map some))) acc
      = .returns (ManagerImpl.buildAllLogConfigs env pod vols l acc) := by
  induction l generalizing acc with
  | nil => rfl
  | cons a l ih =>
    obtain ⟨c, clps⟩ := a
    rw [List.map_cons]
    unfold Nilable.buildAllLogConfigs ManagerImpl.buildAllLogConfigs
    simp only [nilable_buildContainerLogConfigs]
    cases ManagerImpl.buildContainerLogConfigs env pod vols c clps acc with
    | error err => rfl
    | ok acc1 => exact ih acc1

/-- On a policy without nil entry the three builders with pointers return what
the builders on the entries return. -/
theorem nilable_builders (env : Env) (pod : Pod) (p : PodLogPolicy) (vols : logVolumesMap) :
    Nilable.buildPodLogVolumes env pod p.toNilable
      = .returns (ManagerImpl.buildPodLogVolumes env pod p) ∧
    Nilable.buildPodLogConfigMapKeys env pod p.toNilable
      = .returns (ManagerImpl.buildPodLogConfigMapKeys env pod p) ∧
    Nilable.buildPodLogConfigs env pod p.toNilable vols
      = .returns (ManagerImpl.buildPodLogConfigs env pod p vols) :=
  ⟨nilable_buildAllLogVolumes env pod _ p.ContainerLogPolicies [],
    nilable_buildAllConfigMapKeys env pod p.ContainerLogPolicies _,
    nilable_buildAllLogConfigs env pod vols p.ContainerLogPolicies []⟩

/-- When the two decodings of the annotation go together and the decoded policy
has no nil entry, `CreateLogPolicy` with pointers returns what
`ManagerImpl.CreateLogPolicy` returns. -/
theorem nilable_CreateLogPolicy (env : Env) (m : ManagerImpl) (pod : Pod)
    (hco : env.Coherent)
    (hnil : ∀ p, Nilable.GetPodLogPolicy env pod = .ok p → p.NoNilEntry) :
    Nilable.CreateLogPolicy env m pod = .returns (ManagerImpl.CreateLogPolicy env m pod) := by
  have href : Nilable.refreshPodState env m pod
      = .returns (ManagerImpl.refreshPodState env m pod) := by
    unfold Nilable.refreshPodState ManagerImpl.refreshPodState
    unfold Nilable.GetPodLogPolicy at hnil ⊢
    unfold GetPodLogPolicy
    cases hann : pod.Annotations.get PodLogPolicyLabelKey with
    | none => rfl
    | some v =>
      rw [hann] at hnil
      simp only at hnil ⊢
      rw [hco v]
      cases hd : env.jsonUnmarshal v with
      | error err => rfl
      | ok p =>
        have hp := toNilable_entries p (hnil p hd)
        obtain ⟨h1, h2, _⟩ := nilable_builders env pod p.entries []
        rw [hp] at h1 h2
        simp only [h1, h2]
        cases ManagerImpl.buildPodLogVolumes env pod p.entries with
        | error err => rfl
        | ok vols =>
          simp only
          cases ManagerImpl.buildPodLogConfigMapKeys env pod p.entries with
          | error err => rfl
          | ok keys => rfl
  unfold Nilable.CreateLogPolicy ManagerImpl.CreateLogPolicy
  rw [href]
  by_cases hann : IsPodLogPolicyExists pod = true
  · simp only [hann, Bool.not_true, Bool.false_eq_true, if_false]
    generalize ManagerImpl.refreshPodState env m pod = r
    obtain ⟨r1, m1⟩ := r
    cases r1 with
    | some err => rfl
    | none =>
      simp only
      generalize ManagerImpl.createPodLogDirSymLink env _ = r2
      obtain ⟨e2, issued⟩ := r2
      cases e2 with
      | some err => rfl
      | none =>
        simp only
        generalize ManagerImpl.pushConfigs env _ pod = r3
        obtain ⟨e3, m2⟩ := r3
        cases e3 with
        | some err => rfl
        | none => rfl
  · have hann1 : IsPodLogPolicyExists pod = false := by simpa using hann
    simp only [hann1, Bool.not_false, if_true]

/-! ## `CreateLogPolicy`: a volume that is not mounted -/

/-- C18 (counterexample): the annotation of pod `u1` decodes to a policy whose
container `c` has a nil entry followed by the entry `app` on volume `v`, which
is not mounted.  `CreateLogPolicy` does not return an error: the loop of
`buildPodLogVolumes` reads the category of the nil entry and panics. -/
theorem CreateLogPolicy_panics_on_nil_entry :
    IsPodLogPolicyExists (annotatedPod none none) = true ∧
    Nilable.GetPodLogPolicy nilEntryEnv (annotatedPod none none) = .ok nilEntryPolicy ∧
    ("c", [none, some appEntry]) ∈ nilEntryPolicy.ContainerLogPolicies ∧
    appEntry.Category ≠ podLogPolicyCategoryStd ∧
    (nilEntryEnv.getMountedVolumesForPod "u1").get appEntry.VolumeName = none ∧
    Nilable.CreateLogPolicy nilEntryEnv freshManager (annotatedPod none none) = .panics := by
  refine ⟨by decide, rfl, by decide, by decide, by decide, by decide⟩

/-- C18 (amended): for a pod with the annotation whose decoded policy has no nil
entry and has a non-`std` entry whose volume is not in the mounted-volume table
of the pod, `CreateLogPolicy` returns an error and leaves the manager exactly
as it was: no directory or symbolic link is created, no `addConfig` or
`delConfig` is issued (no call at all is recorded), and the pod state store is
unchanged. -/
theorem CreateLogPolicy_missing_volume (env : Env) (m : ManagerImpl) (pod : Pod)
    (policy : Nilable.PodLogPolicy) (containerName : String)
    (clps : List (Option ContainerLogPolicy)) (e : ContainerLogPolicy)
    (hann : IsPodLogPolicyExists pod = true)
    (hdec : Nilable.GetPodLogPolicy env pod = .ok policy)
    (hnil : policy.NoNilEntry)
    (hc : (containerName, clps) ∈ policy.ContainerLogPolicies)
    (he : some e ∈ clps)
    (hstd : e.Category ≠ podLogPolicyCategoryStd)
    (hmiss : (env.getMountedVolumesForPod pod.UID).get e.VolumeName = none) :
    ∃ err, Nilable.CreateLogPolicy env m pod = .returns (some err, m) := by
  have hc1 : (containerName, clps.filterMap id) ∈ policy.entries.ContainerLogPolicies :=
    List.mem_map.2 ⟨(containerName, clps), hc, rfl⟩
  have he1 : e ∈ clps.filterMap id := List.mem_filterMap.2 ⟨some e, he, rfl⟩
  obtain ⟨err, herr⟩ := buildAllLogVolumes_error env pod (env.getMountedVolumesForPod pod.UID)
    policy.entries.ContainerLogPolicies [] containerName _ e hc1 he1 hstd hmiss
  have hb := (nilable_builders env pod policy.entries []).1
  rw [toNilable_entries policy hnil] at hb
  refine ⟨err, ?_⟩
  unfold Nilable.CreateLogPolicy Nilable.refreshPodState
  unfold ManagerImpl.buildPodLogVolumes at hb
  simp only [hann, hdec, hb, herr, Bool.not_true, Bool.false_eq_true, if_false]

/-- C18 (amended) at scenario S4: the entry `app` on volume `v`, which is not
mounted. -/
theorem CreateLogPolicy_missing_volume_witness :
    ∃ err, Nilable.CreateLogPolicy unmountedEnv freshManager (annotatedPod none none)
      = .returns (some err, freshManager) :=
  CreateLogPolicy_missing_volume unmountedEnv freshManager (annotatedPod none none)
    appPolicy.toNilable "c" [some appEntry] appEntry
    (by decide) rfl (toNilable_NoNilEntry appPolicy) (by decide) (by decide) (by decide)
    (by decide)

/-! ## `RemoveLogPolicy`: finished pods and no-op cases -/

/-- C19 (counterexample): the policy of pod `u1` names the plugin `lp`, which is
not registered; the plugin state store holds no config name for `u1`, so
`checkCollectFinished` is true, and the status update succeeds.
`RemoveLogPolicy` returns an error and the policy of `u1` stays in the pod
state store. -/
theorem finished_pod_kept_when_plugin_unregistered :
    IsPodLogPolicyExists (annotatedPod none none) = true ∧
    unregisteredManager.podStateManager.getLogPolicy "u1" = some (stdPolicy false) ∧
    unregisteredManager.pluginStateManager.getLogConfigNames "u1" = [] ∧
    (ManagerImpl.checkCollectFinished quietEnv unregisteredManager "u1" (stdPolicy false)).1
      = true ∧
    unregisteredManager.logPlugins.get (stdPolicy false).LogPlugin = none ∧
    (ManagerImpl.RemoveLogPolicy quietEnv unregisteredManager
      (some (annotatedPod none none))).1 = some "invalid endpoint lp" ∧
    (ManagerImpl.RemoveLogPolicy quietEnv unregisteredManager
      (some (annotatedPod none none))).2.1.podStateManager = unregisteredManager.podStateManager := by
  decide

/-- C19 (amended): for a pod with the annotation whose policy is in the pod state
store and for which the plugin state store holds no config name, when the
status update succeeds: if the plugin named by the policy is registered,
`RemoveLogPolicy` returns nil and afterwards the policy, the log volumes and
the config-map keys of the pod are absent from the pod state store; if the
plugin is not registered, `RemoveLogPolicy` returns the error of
`getLogPluginEndpoint` and the pod state store is what it was before the
call. -/
theorem finished_pod_removed (env : Env) (m : ManagerImpl) (pod : Pod) (policy : PodLogPolicy)
    (hann : IsPodLogPolicyExists pod = true)
    (hpol : m.podStateManager.getLogPolicy pod.UID = some policy)
    (hnone : m.pluginStateManager.getLogConfigNames pod.UID = [])
    (hstatus : ∀ p, env.updateStatus p = none) :
    (∀ ep, m.logPlugins.get policy.LogPlugin = some ep →
      (ManagerImpl.RemoveLogPolicy env m (some pod)).1 = none ∧
      (ManagerImpl.RemoveLogPolicy env m (some pod)).2.1.podStateManager.Absent pod.UID) ∧
    (m.logPlugins.get policy.LogPlugin = none →
      (ManagerImpl.RemoveLogPolicy env m (some pod)).1
        = some ("invalid endpoint " ++ policy.LogPlugin) ∧
      (ManagerImpl.RemoveLogPolicy env m (some pod)).2.1.podStateManager = m.podStateManager ∧
      (ManagerImpl.RemoveLogPolicy env m (some pod)).2.1.podStateManager.getLogPolicy pod.UID
        = some policy) := by
  have hfin : (ManagerImpl.checkCollectFinished env m pod.UID policy).1 = true :=
    (checkCollectFinished_eq_true_iff env m pod.UID policy).2 (Or.inl hnone)
  constructor
  · intro ep hreg
    obtain ⟨m1, before, hres, _, hps, _, _⟩ :=
      RemoveLogPolicy_proceeds env m pod policy ep hann hpol (Or.inl hfin) hstatus hreg
        (by intro n hn; rw [hnone] at hn; cases hn)
    rw [hres]
    refine ⟨rfl, ?_⟩
    show m1.podStateManager.Absent pod.UID
    rw [hps]
    exact removePodState_getLogPolicy m pod.UID
  · intro hunreg
    obtain ⟨hlp, hps, hpl, issued, hcalls, _⟩ :=
      checkCollectFinished_frame env m pod.UID policy
    obtain ⟨m1, issued1, hset, hlp1, hps1, hpl1, hcalls1⟩ :=
      setCollectFinished_ok env (ManagerImpl.checkCollectFinished env m pod.UID policy).2 pod
        hstatus
    have hep : m1.getLogPluginEndpoint policy.LogPlugin
        = .error ("invalid endpoint " ++ policy.LogPlugin) := by
      unfold ManagerImpl.getLogPluginEndpoint
      rw [hlp1, hlp, hunreg]
    have hres : ManagerImpl.RemoveLogPolicy env m (some pod)
        = (some ("invalid endpoint " ++ policy.LogPlugin), m1,
            some { pod with Conditions := (UpdatePodCondition pod.Conditions
              collectFinishedCondition).1 }) := by
      unfold ManagerImpl.RemoveLogPolicy
      simp only [hann, hpol, hfin, hset, hep, Bool.not_true, Bool.false_and,
        Bool.false_eq_true, if_false]
    rw [hres]
    refine ⟨rfl, ?_, ?_⟩
    · show m1.podStateManager = m.podStateManager
      rw [hps1, hps]
    · show m1.podStateManager.getLogPolicy pod.UID = some policy
      rw [hps1, hps, hpol]

/-- C19 (amended) at a concrete manager: nothing observed for `u1`, plugin `lp`
registered. -/
theorem finished_pod_removed_witness :
    (ManagerImpl.RemoveLogPolicy quietEnv freshManager (some (annotatedPod none none))).1 = none ∧
    (ManagerImpl.RemoveLogPolicy quietEnv freshManager
      (some (annotatedPod none none))).2.1.podStateManager.Absent "u1" :=
  (finished_pod_removed quietEnv freshManager (annotatedPod none none) (stdPolicy false)
    (by decide) (by decide) (by decide) (fun _ => rfl)).1 lpEndpoint (by decide)

/-- C20: when the pod is nil, when the pod has no log-policy annotation, or when no
policy is stored for the UID of the pod, `RemoveLogPolicy` returns nil and
leaves the manager and the pod exactly as they were: both stores unchanged and
no call recorded (no `getState`, no `delConfig`, no status update). -/
theorem RemoveLogPolicy_noop (env : Env) (m : ManagerImpl) :
    ManagerImpl.RemoveLogPolicy env m none = (none, m, none) ∧
    (∀ pod, IsPodLogPolicyExists pod = false →
      ManagerImpl.RemoveLogPolicy env m (some pod) = (none, m, some pod)) ∧
    (∀ pod, m.podStateManager.getLogPolicy pod.UID = none →
      ManagerImpl.RemoveLogPolicy env m (some pod) = (none, m, some pod)) := by
  refine ⟨rfl, ?_, ?_⟩
  · intro pod hann
    unfold ManagerImpl.RemoveLogPolicy
    simp only [hann, Bool.not_false, if_true]
  · intro pod hpol
    unfold ManagerImpl.RemoveLogPolicy
    by_cases hann : IsPodLogPolicyExists pod = true
    · simp only [hann, hpol, Bool.not_true, Bool.false_eq_true, if_false]
    · have hann1 : IsPodLogPolicyExists pod = false := by simpa using hann
      simp only [hann1, Bool.not_false, if_true]

/-- C20 at a concrete manager: a pod `u7` with the annotation and no stored policy. -/
theorem RemoveLogPolicy_noop_witness :
    ManagerImpl.RemoveLogPolicy runningEnv (trackingManager (stdPolicy true))
        (some { annotatedPod none none with UID := "u7" })
      = (none, trackingManager (stdPolicy true), some { annotatedPod none none with UID := "u7" }) :=
  (RemoveLogPolicy_noop runningEnv (trackingManager (stdPolicy true))).2.2
    { annotatedPod none none with UID := "u7" } (by decide)

/-! ## `buildPodLogVolumes`: the log volume of an entry -/

theorem buildContainerLogVolumes_get (env : Env) (pod : Pod) (podVolumes : GoMap String String)
    (containerName : String) (v : String) (d : String) (clps : List ContainerLogPolicy)
    (acc acc1 : logVolumesMap)
    (hagree : ∀ e ∈ clps, e.Category ≠ podLogPolicyCategoryStd → e.VolumeName = v →
      env.buildLogPolicyDirectory pod.UID containerName e.Category = d)
    (hacc : ∀ lv, acc.get v = some lv → lv.logDirPath = d)
    (hok : ManagerImpl.buildContainerLogVolumes env pod podVolumes containerName clps acc
      = .ok acc1) :
    (∀ lv, acc1.get v = some lv → lv.logDirPath = d) ∧
    (((∃ lv, acc.get v = some lv) ∨
        ∃ e ∈ clps, e.Category ≠ podLogPolicyCategoryStd ∧ e.VolumeName = v) →
      ∃ lv, acc1.get v = some lv) := by
  induction clps generalizing acc with
  | nil =>
    unfold ManagerImpl.buildContainerLogVolumes at hok
    cases hok
    refine ⟨hacc, ?_⟩
    rintro (h | ⟨e, he, _⟩)
    · exact h
    · cases he
  | cons a clps ih =>
    have hagree1 : ∀ e ∈ clps, e.Category ≠ podLogPolicyCategoryStd → e.VolumeName = v →
        env.buildLogPolicyDirectory pod.UID containerName e.Category = d :=
      fun e he => hagree e (List.mem_cons_of_mem _ he)
    unfold ManagerImpl.buildContainerLogVolumes at hok
    by_cases ha : a.Category = podLogPolicyCategoryStd
    · rw [if_pos ha] at hok
      obtain ⟨h1, h2⟩ := ih acc hagree1 hacc hok
      refine ⟨h1, ?_⟩
      rintro (h | ⟨e, he, hstd, hv⟩)
      · exact h2 (Or.inl h)
      · rcases List.mem_cons.1 he with h | h
        · rw [h] at hstd; exact absurd ha hstd
        · exact h2 (Or.inr ⟨e, h, hstd, hv⟩)
    · rw [if_neg ha] at hok
      cases hget : podVolumes.get a.VolumeName with
      | none => rw [hget] at hok; cases hok
      | some hostPath =>
        rw [hget] at hok
        simp only at hok
        have hacc1 : ∀ lv, (GoMap.set acc a.VolumeName
            { volumeName := a.VolumeName, path := a.Path, hostPath := hostPath,
              logDirPath := env.buildLogPolicyDirectory pod.UID containerName a.Category
                : logVolume }).get v = some lv → lv.logDirPath = d := by
          intro lv hlv
          rw [GoMap.get_set] at hlv
          by_cases hv : v = a.VolumeName
          · rw [if_pos hv] at hlv
            cases hlv
            exact hagree a (List.mem_cons_self _ _) ha hv.symm
          · rw [if_neg hv] at hlv
            exact hacc lv hlv
        obtain ⟨h1, h2⟩ := ih _ hagree1 hacc1 hok
        refine ⟨h1, ?_⟩
        rintro (⟨lv, hlv⟩ | ⟨e, he, hstd, hv⟩)
        · apply h2
          left
          rw [GoMap.get_set]
          by_cases hv : v = a.VolumeName
          · rw [if_pos hv]; exact ⟨_, rfl⟩
          · rw [if_neg hv]; exact ⟨lv, hlv⟩
        · rcases List.mem_cons.1 he with h | h
          · apply h2
            left
            rw [GoMap.get_set, if_pos (by rw [← hv, h])]
            exact ⟨_, rfl⟩
          · exact h2 (Or.inr ⟨e, h, hstd, hv⟩)

theorem buildAllLogVolumes_get (env : Env) (pod : Pod) (podVolumes : GoMap String String)
    (v : String) (d : String) (l : List (String × List ContainerLogPolicy))
    (acc acc1 : logVolumesMap)
    (hagree : ∀ c clps e, (c, clps) ∈ l → e ∈ clps → e.Category ≠ podLogPolicyCategoryStd →
      e.VolumeName = v → env.buildLogPolicyDirectory pod.UID c e.Category = d)
    (hacc : ∀ lv, acc.get v = some lv → lv.logDirPath = d)
    (hok : ManagerImpl.buildAllLogVolumes env pod podVolumes l acc = .ok acc1) :
    (∀ lv, acc1.get v = some lv → lv.logDirPath = d) ∧
    (((∃ lv, acc.get v = some lv) ∨
        ∃ c clps e, (c, clps) ∈ l ∧ e ∈ clps ∧ e.Category ≠ podLogPolicyCategoryStd ∧
          e.VolumeName = v) →
      ∃ lv, acc1.get v = some lv) := by
  induction l generalizing acc with
  | nil =>
    unfold ManagerImpl.buildAllLogVolumes at hok
    cases hok
    refine ⟨hacc, ?_⟩
    rintro (h | ⟨c, clps, e, hc, _⟩)
    · exact h
    · cases hc
  | cons a l ih =>
    obtain ⟨c0, clps0⟩ := a
    unfold ManagerImpl.buildAllLogVolumes at hok
    cases hb : ManagerImpl.buildContainerLogVolumes env pod podVolumes c0 clps0 acc with
    | error err => rw [hb] at hok; cases hok
    | ok acc0 =>
      rw [hb] at hok
      simp only at hok
      obtain ⟨g1, g2⟩ := buildContainerLogVolumes_get env pod podVolumes c0 v d clps0 acc acc0
        (fun e he => hagree c0 clps0 e (List.mem_cons_self _ _) he) hacc hb
      obtain ⟨h1, h2⟩ := ih acc0
        (fun c clps e hc => hagree c clps e (List.mem_cons_of_mem _ hc)) g1 hok
      refine ⟨h1, ?_⟩
      rintro (h | ⟨c, clps, e, hc, he, hstd, hv⟩)
      · exact h2 (Or.inl (g2 (Or.inl h)))
      · rcases List.mem_cons.1 hc with h | h
        · cases h
          exact h2 (Or.inl (g2 (Or.inr ⟨e, he, hstd, hv⟩)))
        · exact h2 (Or.inr ⟨c, clps, e, h, he, hstd, hv⟩)

/-- A successful `refreshPodState` stores the key set, the log volumes and the
policy it built. -/
theorem refreshPodState_ok (env : Env) (m : ManagerImpl) (pod : Pod)
    (h : (ManagerImpl.refreshPodState env m pod).1 = none) :
    ∃ policy vols keys, GetPodLogPolicy env pod = .ok policy ∧
      ManagerImpl.buildPodLogVolumes env pod policy = .ok vols ∧
      ManagerImpl.buildPodLogConfigMapKeys env pod policy = .ok keys ∧
      (ManagerImpl.refreshPodState env m pod).2
        = { m with
            podStateManager :=
              ((m.podStateManager.updateConfigMapKeys pod.UID keys).updateLogVolumes
                pod.UID vols).updateLogPolicy pod.UID policy } := by
  unfold ManagerImpl.refreshPodState at h
  cases h1 : GetPodLogPolicy env pod with
  | error e => rw [h1] at h; cases h
  | ok policy =>
    rw [h1] at h
    simp only at h
    cases h2 : ManagerImpl.buildPodLogVolumes env pod policy with
    | error e => rw [h2] at h; cases h
    | ok vols =>
      rw [h2] at h
      simp only at h
      cases h3 : ManagerImpl.buildPodLogConfigMapKeys env pod policy with
      | error e => rw [h3] at h; cases h
      | ok keys =>
        refine ⟨policy, vols, keys, rfl, h2, h3, ?_⟩
        unfold ManagerImpl.refreshPodState
        simp only [h1, h2, h3]

/-! ## `buildPodLogConfigs`: the configs of an entry -/

/-- A config found in the result of the innermost loop of `buildPodLogConfigs` was
there before, or was built by the loop from an entry of the config map: it
carries the name it is stored under, the pod, the container, the category and
the path of the loop. -/
theorem buildFileConfigs_get (env : Env) (pod : Pod) (containerName category path : String)
    (data : GoMap String String) (acc : logConfigsMap) (name : String) (cfg : Config)
    (h : (ManagerImpl.buildFileConfigs env pod containerName category path data acc).get name
      = some cfg) :
    acc.get name = some cfg ∨
      (cfg.Metadata.Name = name ∧ cfg.Metadata.ContainerName = containerName ∧
        cfg.Metadata.PodUID = pod.UID ∧ cfg.Metadata.PodNamespace = pod.Namespace ∧
        cfg.Metadata.PodName = pod.Name ∧ cfg.Spec.Category = category ∧
        cfg.Spec.Path = path ∧
        ∃ entry ∈ data, name = env.buildLogConfigName pod.UID containerName category entry.1 ∧
          cfg.Spec.Content = entry.2) := by
  induction data generalizing acc with
  | nil => exact Or.inl h
  | cons d data ih =>
    unfold ManagerImpl.buildFileConfigs at h
    rw [List.foldl_cons] at h
    rcases ih _ h with h1 | ⟨a1, a2, a3, a4, a5, a6, a7, entry, hentry, a8, a9⟩
    · rw [GoMap.get_set] at h1
      by_cases hn : name = env.buildLogConfigName pod.UID containerName category d.1
      · rw [if_pos hn] at h1
        cases h1
        exact Or.inr ⟨hn.symm, rfl, rfl, rfl, rfl, rfl, rfl, d, List.mem_cons_self _ _, hn, rfl⟩
      · rw [if_neg hn] at h1
        exact Or.inl h1
    · exact Or.inr ⟨a1, a2, a3, a4, a5, a6, a7, entry, List.mem_cons_of_mem _ hentry, a8, a9⟩

/-- C15 (counterexample): the entries `app` and `audit` of container `c` both
name the volume `v`, which is mounted.  `refreshPodState` succeeds and stores
one log volume, that of `audit`; no stored log volume has the log directory of
`app`, and the config built for the `app` entry gets the path of `audit`. -/
theorem shared_volume_loses_log_volume :
    (ManagerImpl.refreshPodState sharedVolumeEnv freshManager (annotatedPod none none)).1
      = none ∧
    (ManagerImpl.refreshPodState sharedVolumeEnv freshManager
      (annotatedPod none none)).2.podStateManager.getLogVolumes "u1"
      = some [("v", auditLogVolume)] ∧
    sharedVolumeEnv.buildLogPolicyDirectory "u1" "c" "app" = "/var/log/pods/u1/c/app" ∧
    ((ManagerImpl.buildPodLogConfigs sharedVolumeEnv (annotatedPod none none) sharedVolumePolicy
        [("v", auditLogVolume)]).toOption.bind
      (fun r => r.get "u1_c_app_x.conf")).map (fun cfg => (cfg.Spec.Category, cfg.Spec.Path))
      = some ("app", "/var/log/pods/u1/c/audit") := by
  decide

/-- C15 (amended): after `refreshPodState(pod)` succeeds, for every container `c`
and every entry of its policies whose category `g` is not `std`, provided every
non-`std` entry of the policy that names the same volume has the same log
directory (as is the case when no other entry names that volume), the log
volumes stored for the pod hold, under the volume name of the entry, a log
volume whose `logDirPath` is `buildLogPolicyDirectory(pod.UID, c, g)`; and the
step of `buildPodLogConfigs` for that entry builds its configs with that path
as `Spec.Path`. -/
theorem log_volume_per_entry (env : Env) (m : ManagerImpl) (pod : Pod) (policy : PodLogPolicy)
    (containerName : String) (clps : List ContainerLogPolicy) (e : ContainerLogPolicy)
    (hdec : GetPodLogPolicy env pod = .ok policy)
    (hok : (ManagerImpl.refreshPodState env m pod).1 = none)
    (hc : (containerName, clps) ∈ policy.ContainerLogPolicies)
    (he : e ∈ clps)
    (hstd : e.Category ≠ podLogPolicyCategoryStd)
    (hagree : ∀ c1 clps1 e1, (c1, clps1) ∈ policy.ContainerLogPolicies → e1 ∈ clps1 →
      e1.Category ≠ podLogPolicyCategoryStd → e1.VolumeName = e.VolumeName →
      env.buildLogPolicyDirectory pod.UID c1 e1.Category
        = env.buildLogPolicyDirectory pod.UID containerName e.Category) :
    ∃ vols lv,
      (ManagerImpl.refreshPodState env m pod).2.podStateManager.getLogVolumes pod.UID
        = some vols ∧
      vols.get e.VolumeName = some lv ∧
      lv.logDirPath = env.buildLogPolicyDirectory pod.UID containerName e.Category ∧
      (∀ cm rest acc, env.getConfigMap pod.Namespace e.PluginConfigMap = .ok cm →
        ManagerImpl.buildContainerLogConfigs env pod vols containerName (e :: rest) acc
          = ManagerImpl.buildContainerLogConfigs env pod vols containerName rest
              (ManagerImpl.buildFileConfigs env pod containerName e.Category
                (env.buildLogPolicyDirectory pod.UID containerName e.Category) cm.Data acc)) ∧
      (∀ (data : GoMap String String) (acc : logConfigsMap) name cfg,
        (ManagerImpl.buildFileConfigs env pod containerName e.Category
          (env.buildLogPolicyDirectory pod.UID containerName e.Category) data acc).get name
            = some cfg →
        acc.get name = some cfg ∨
          cfg.Spec.Path = env.buildLogPolicyDirectory pod.UID containerName e.Category) := by
  obtain ⟨policy1, vols, keys, h1, h2, _, h4⟩ := refreshPodState_ok env m pod hok
  rw [hdec] at h1
  cases h1
  unfold ManagerImpl.buildPodLogVolumes at h2
  obtain ⟨g1, g2⟩ := buildAllLogVolumes_get env pod (env.getMountedVolumesForPod pod.UID)
    e.VolumeName (env.buildLogPolicyDirectory pod.UID containerName e.Category)
    policy.ContainerLogPolicies [] vols hagree
    (by intro lv hlv; simp [GoMap.get] at hlv) h2
  obtain ⟨lv, hlv⟩ := g2 (Or.inr ⟨containerName, clps, e, hc, he, hstd, rfl⟩)
  refine ⟨vols, lv, ?_, hlv, g1 lv hlv, ?_, ?_⟩
  · rw [h4]
    show GoMap.get (GoMap.set _ pod.UID vols) pod.UID = some vols
    rw [GoMap.get_set, if_pos rfl]
  · intro cm rest acc hcm
    conv_lhs => unfold ManagerImpl.buildContainerLogConfigs
    simp only [hcm, if_neg hstd, hlv, g1 lv hlv]
  · intro data acc name cfg hget
    rcases buildFileConfigs_get env pod containerName e.Category _ data acc name cfg hget
      with h | ⟨_, _, _, _, _, _, hpath, _⟩
    · exact Or.inl h
    · exact Or.inr hpath

/-- C15 (amended) at scenario S3: the entry `app` on the mounted volume `v`. -/
theorem log_volume_per_entry_witness :
    ∃ vols lv,
      (ManagerImpl.refreshPodState mountedEnv freshManager
        (annotatedPod none none)).2.podStateManager.getLogVolumes "u1" = some vols ∧
      vols.get "v" = some lv ∧ lv.logDirPath = "/var/log/pods/u1/c/app" := by
  obtain ⟨vols, lv, h1, h2, h3, _⟩ :=
    log_volume_per_entry mountedEnv freshManager (annotatedPod none none) appPolicy "c"
      [appEntry] appEntry rfl (by decide) (by decide) (by decide) (by decide)
      (by
        intro c1 clps1 e1 hc1 he1 _ _
        have hc2 : (c1, clps1) = ("c", [appEntry]) := by
          simpa [appPolicy, appEntry] using hc1
        cases hc2
        have he2 : e1 = appEntry := by simpa using he1
        rw [he2])
  exact ⟨vols, lv, h1, h2, h3⟩

/-! ## `buildPodLogConfigs`: the path rule -/

theorem buildContainerLogConfigs_get (env : Env) (pod : Pod) (vols : logVolumesMap)
    (containerName : String) (clps : List ContainerLogPolicy) (acc r : logConfigsMap)
    (name : String) (cfg : Config)
    (hok : ManagerImpl.buildContainerLogConfigs env pod vols containerName clps acc = .ok r)
    (hget : r.get name = some cfg) :
    acc.get name = some cfg ∨
      ∃ e ∈ clps, BuiltFrom env pod vols containerName e cfg ∧ cfg.Metadata.Name = name := by
  induction clps generalizing acc with
  | nil =>
    unfold ManagerImpl.buildContainerLogConfigs at hok
    cases hok
    exact Or.inl hget
  | cons a clps ih =>
    unfold ManagerImpl.buildContainerLogConfigs at hok
    cases hcm : env.getConfigMap pod.Namespace a.PluginConfigMap with
    | error err => rw [hcm] at hok; cases hok
    | ok cm =>
      rw [hcm] at hok
      simp only at hok
      by_cases ha : a.Category = podLogPolicyCategoryStd
      · rw [if_pos ha] at hok
        rcases ih _ hok with h | ⟨e, he, hb, hn⟩
        · rcases buildFileConfigs_get env pod containerName a.Category _ cm.Data acc name cfg h
            with h1 | ⟨a1, a2, a3, a4, a5, a6, a7, _⟩
          · exact Or.inl h1
          · exact Or.inr ⟨a, List.mem_cons_self _ _,
              ⟨a2, a3, a4, a5, a6, fun _ => a7, fun hne => absurd ha hne⟩, a1⟩
        · exact Or.inr ⟨e, List.mem_cons_of_mem _ he, hb, hn⟩
      · rw [if_neg ha] at hok
        cases hv : vols.get a.VolumeName with
        | none =>
          rw [hv] at hok
          rcases ih _ hok with h | ⟨e, he, hb, hn⟩
          · exact Or.inl h
          · exact Or.inr ⟨e, List.mem_cons_of_mem _ he, hb, hn⟩
        | some lv =>
          rw [hv] at hok
          simp only at hok
          rcases ih _ hok with h | ⟨e, he, hb, hn⟩
          · rcases buildFileConfigs_get env pod containerName a.Category _ cm.Data acc name cfg h
              with h1 | ⟨a1, a2, a3, a4, a5, a6, a7, _⟩
            · exact Or.inl h1
            · exact Or.inr ⟨a, List.mem_cons_self _ _,
                ⟨a2, a3, a4, a5, a6, fun hs => absurd hs ha, fun _ => ⟨lv, hv, a7⟩⟩, a1⟩
          · exact Or.inr ⟨e, List.mem_cons_of_mem _ he, hb, hn⟩

theorem buildAllLogConfigs_get (env : Env) (pod : Pod) (vols : logVolumesMap)
    (l : List (String × List ContainerLogPolicy)) (acc r : logConfigsMap)
    (name : String) (cfg : Config)
    (hok : ManagerImpl.buildAllLogConfigs env pod vols l acc = .ok r)
    (hget : r.get name = some cfg) :
    acc.get name = some cfg ∨
      ∃ c clps e, (c, clps) ∈ l ∧ e ∈ clps ∧ BuiltFrom env pod vols c e cfg ∧
        cfg.Metadata.Name = name := by
  induction l generalizing acc with
  | nil =>
    unfold ManagerImpl.buildAllLogConfigs at hok
    cases hok
    exact Or.inl hget
  | cons a l ih =>
    obtain ⟨c0, clps0⟩ := a
    unfold ManagerImpl.buildAllLogConfigs at hok
    cases hb : ManagerImpl.buildContainerLogConfigs env pod vols c0 clps0 acc with
    | error err => rw [hb] at hok; cases hok
    | ok acc0 =>
      rw [hb] at hok
      simp only at hok
      rcases ih _ hok with h | ⟨c, clps, e, hc, he, hbf, hn⟩
      · rcases buildContainerLogConfigs_get env pod vols c0 clps0 acc acc0 name cfg hb h
          with h1 | ⟨e, he, hbf, hn⟩
        · exact Or.inl h1
        · exact Or.inr ⟨c0, clps0, e, List.mem_cons_self _ _, he, hbf, hn⟩
      · exact Or.inr ⟨c, clps, e, List.mem_cons_of_mem _ hc, he, hbf, hn⟩

theorem buildContainerLogConfigs_ok (env : Env) (pod : Pod) (vols : logVolumesMap)
    (containerName : String) (clps : List ContainerLogPolicy) (acc : logConfigsMap)
    (h : ∀ e ∈ clps, ∃ cm, env.getConfigMap pod.Namespace e.PluginConfigMap = .ok cm) :
    ∃ r, ManagerImpl.buildContainerLogConfigs env pod vols containerName clps acc = .ok r := by
  induction clps generalizing acc with
  | nil => exact ⟨acc, rfl⟩
  | cons a clps ih =>
    obtain ⟨cm, hcm⟩ := h a (List.mem_cons_self _ _)
    have h1 : ∀ e ∈ clps, ∃ cm, env.getConfigMap pod.Namespace e.PluginConfigMap = .ok cm :=
      fun e he => h e (List.mem_cons_of_mem _ he)
    unfold ManagerImpl.buildContainerLogConfigs
    rw [hcm]
    simp only
    by_cases ha : a.Category = podLogPolicyCategoryStd
    · rw [if_pos ha]; exact ih _ h1
    · rw [if_neg ha]
      cases hv : vols.get a.VolumeName with
      | none => exact ih _ h1
      | some lv => exact ih _ h1

theorem buildAllLogConfigs_ok (env : Env) (pod : Pod) (vols : logVolumesMap)
    (l : List (String × List ContainerLogPolicy)) (acc : logConfigsMap)
    (h : ∀ c clps e, (c, clps) ∈ l → e ∈ clps →
      ∃ cm, env.getConfigMap pod.Namespace e.PluginConfigMap = .ok cm) :
    ∃ r, ManagerImpl.buildAllLogConfigs env pod vols l acc = .ok r := by
  induction l generalizing acc with
  | nil => exact ⟨acc, rfl⟩
  | cons a l ih =>
    obtain ⟨c0, clps0⟩ := a
    obtain ⟨acc0, h0⟩ := buildContainerLogConfigs_ok env pod vols c0 clps0 acc
      (fun e he => h c0 clps0 e (List.mem_cons_self _ _) he)
    unfold ManagerImpl.buildAllLogConfigs
    rw [h0]
    exact ih acc0 (fun c clps e hc he => h c clps e (List.mem_cons_of_mem _ hc) he)

theorem buildContainerLogConfigs_skip (env : Env) (pod : Pod) (vols : logVolumesMap)
    (containerName : String) (pre post : List ContainerLogPolicy) (e : ContainerLogPolicy)
    (cm : ConfigMap) (acc : logConfigsMap)
    (hstd : e.Category ≠ podLogPolicyCategoryStd)
    (hmiss : vols.get e.VolumeName = none)
    (hcm : env.getConfigMap pod.Namespace e.PluginConfigMap = .ok cm) :
    ManagerImpl.buildContainerLogConfigs env pod vols containerName (pre ++ e :: post) acc
      = ManagerImpl.buildContainerLogConfigs env pod vols containerName (pre ++ post) acc := by
  induction pre generalizing acc with
  | nil =>
    rw [List.nil_append, List.nil_append]
    conv_lhs => unfold ManagerImpl.buildContainerLogConfigs
    simp only [hcm, if_neg hstd, hmiss]
  | cons a pre ih =>
    rw [List.cons_append, List.cons_append]
    conv_lhs => unfold ManagerImpl.buildContainerLogConfigs
    conv_rhs => unfold ManagerImpl.buildContainerLogConfigs
    cases env.getConfigMap pod.Namespace a.PluginConfigMap with
    | error err => rfl
    | ok cm0 =>
      simp only
      by_cases ha : a.Category = podLogPolicyCategoryStd
      · rw [if_pos ha, if_pos ha]; exact ih _
      · rw [if_neg ha, if_neg ha]
        cases vols.get a.VolumeName with
        | none => exact ih _
        | some lv => exact ih _

theorem buildAllLogConfigs_skip (env : Env) (pod : Pod) (vols : logVolumesMap)
    (cpre cpost : List (String × List ContainerLogPolicy)) (containerName : String)
    (pre post : List ContainerLogPolicy) (e : ContainerLogPolicy)
    (cm : ConfigMap) (acc : logConfigsMap)
    (hstd : e.Category ≠ podLogPolicyCategoryStd)
    (hmiss : vols.get e.VolumeName = none)
    (hcm : env.getConfigMap pod.Namespace e.PluginConfigMap = .ok cm) :
    ManagerImpl.buildAllLogConfigs env pod vols
        (cpre ++ (containerName, pre ++ e :: post) :: cpost) acc
      = ManagerImpl.buildAllLogConfigs env pod vols
        (cpre ++ (containerName, pre ++ post) :: cpost) acc := by
  induction cpre generalizing acc with
  | nil =>
    rw [List.nil_append, List.nil_append]
    conv_lhs => unfold ManagerImpl.buildAllLogConfigs
    conv_rhs => unfold ManagerImpl.buildAllLogConfigs
    rw [buildContainerLogConfigs_skip env pod vols containerName pre post e cm acc hstd hmiss hcm]
  | cons a cpre ih =>
    obtain ⟨c0, clps0⟩ := a
    rw [List.cons_append, List.cons_append]
    conv_lhs => unfold ManagerImpl.buildAllLogConfigs
    conv_rhs => unfold ManagerImpl.buildAllLogConfigs
    cases ManagerImpl.buildContainerLogConfigs env pod vols c0 clps0 acc with
    | error err => rfl
    | ok acc0 => exact ih acc0

/-! ## `buildPodLogConfigs`: independence of the iteration order -/

theorem buildFileConfigs_cons (env : Env) (pod : Pod) (containerName category path : String)
    (d : String × String) (data : GoMap String String) (acc : logConfigsMap) :
    ManagerImpl.buildFileConfigs env pod containerName category path (d :: data) acc
      = ManagerImpl.buildFileConfigs env pod containerName category path data
          (acc.set (env.buildLogConfigName pod.UID containerName category d.1)
            (fileConfig env pod containerName category path d)) :=
  rfl

theorem buildFileConfigs_get_of_not_name (env : Env) (pod : Pod)
    (containerName category path : String) (data : GoMap String String) (acc : logConfigsMap)
    (n : String)
    (h : ∀ entry ∈ data, n ≠ env.buildLogConfigName pod.UID containerName category entry.1) :
    (ManagerImpl.buildFileConfigs env pod containerName category path data acc).get n
      = acc.get n := by
  induction data generalizing acc with
  | nil => rfl
  | cons d data ih =>
    rw [buildFileConfigs_cons, ih _ (fun entry he => h entry (List.mem_cons_of_mem _ he)),
      GoMap.get_set, if_neg (h d (List.mem_cons_self _ _))]

theorem buildFileConfigs_get_of_entry (env : Env) (pod : Pod)
    (containerName category path : String) (data : GoMap String String) (acc : logConfigsMap)
    (entry : String × String) (hmem : entry ∈ data)
    (huniq : ∀ entry' ∈ data,
      env.buildLogConfigName pod.UID containerName category entry'.1
        = env.buildLogConfigName pod.UID containerName category entry.1 → entry' = entry) :
    (ManagerImpl.buildFileConfigs env pod containerName category path data acc).get
        (env.buildLogConfigName pod.UID containerName category entry.1)
      = some (fileConfig env pod containerName category path entry) := by
  induction data generalizing acc with
  | nil => cases hmem
  | cons d data ih =>
    rw [buildFileConfigs_cons]
    by_cases hin : entry ∈ data
    · exact ih _ hin (fun entry' he => huniq entry' (List.mem_cons_of_mem _ he))
    · have hd : entry = d := by
        rcases List.mem_cons.1 hmem with h | h
        · exact h
        · exact absurd h hin
      subst hd
      rw [buildFileConfigs_get_of_not_name, GoMap.get_set, if_pos rfl]
      intro entry' he heq
      have := huniq entry' (List.mem_cons_of_mem _ he) heq.symm
      exact hin (this ▸ he)

theorem eq_of_mem_of_fst_eq {α β : Type} (l : List (α × β)) (hnodup : (l.map Prod.fst).Nodup)
    (p q : α × β) (hp : p ∈ l) (hq : q ∈ l) (h : p.1 = q.1) : p = q := by
  induction l with
  | nil => cases hp
  | cons a l ih =>
    rw [List.map_cons, List.nodup_cons] at hnodup
    rcases List.mem_cons.1 hp with hp1 | hp1
    · rcases List.mem_cons.1 hq with hq1 | hq1
      · rw [hp1, hq1]
      · exfalso
        apply hnodup.1
        rw [← hp1, h]
        exact List.mem_map.2 ⟨q, hq1, rfl⟩
    · rcases List.mem_cons.1 hq with hq1 | hq1
      · exfalso
        apply hnodup.1
        rw [← hq1, ← h]
        exact List.mem_map.2 ⟨p, hp1, rfl⟩
      · exact ih hnodup.2 hp1 hq1

/-- The innermost loop gives the same config to a name when the entries of the
config map are visited in another order. -/
theorem buildFileConfigs_perm (env env' : Env) (pod : Pod)
    (containerName category path : String) (data data' : GoMap String String)
    (acc acc' : logConfigsMap) (n : String)
    (hname : env'.buildLogConfigName = env.buildLogConfigName)
    (hperm : data.Perm data')
    (hnodup : (data.map Prod.fst).Nodup)
    (hinj : ∀ entry ∈ data, ∀ entry' ∈ data,
      env.buildLogConfigName pod.UID containerName category entry.1
        = env.buildLogConfigName pod.UID containerName category entry'.1 → entry.1 = entry'.1)
    (hacc : acc.get n = acc'.get n) :
    (ManagerImpl.buildFileConfigs env pod containerName category path data acc).get n
      = (ManagerImpl.buildFileConfigs env' pod containerName category path data' acc').get n := by
  by_cases hex : ∃ entry ∈ data,
      n = env.buildLogConfigName pod.UID containerName category entry.1
  · obtain ⟨entry, hmem, hn⟩ := hex
    have huniq : ∀ entry' ∈ data,
        env.buildLogConfigName pod.UID containerName category entry'.1
          = env.buildLogConfigName pod.UID containerName category entry.1 → entry' = entry :=
      fun entry' he heq =>
        eq_of_mem_of_fst_eq data hnodup entry' entry he hmem (hinj entry' he entry hmem heq)
    have huniq' : ∀ entry' ∈ data',
        env'.buildLogConfigName pod.UID containerName category entry'.1
          = env'.buildLogConfigName pod.UID containerName category entry.1 → entry' = entry := by
      intro entry' he heq
      rw [hname] at heq
      exact huniq entry' (hperm.mem_iff.2 he) heq
    have h1 := buildFileConfigs_get_of_entry env pod containerName category path data acc entry
      hmem huniq
    have h2 := buildFileConfigs_get_of_entry env' pod containerName category path data' acc'
      entry (hperm.mem_iff.1 hmem) huniq'
    rw [hname] at h2
    rw [hn, h1, h2]
    unfold fileConfig
    rw [hname]
  · have hno : ∀ entry ∈ data,
        n ≠ env.buildLogConfigName pod.UID containerName category entry.1 :=
      fun entry he heq => hex ⟨entry, he, heq⟩
    have hno' : ∀ entry ∈ data',
        n ≠ env'.buildLogConfigName pod.UID containerName category entry.1 := by
      intro entry he
      rw [hname]
      exact hno entry (hperm.mem_iff.2 he)
    rw [buildFileConfigs_get_of_not_name env pod containerName category path data acc n hno,
      buildFileConfigs_get_of_not_name env' pod containerName category path data' acc' n hno']
    exact hacc

theorem AgreeFrom_of_pre (acc acc' b b' : logConfigsMap) (r r' : Except Error logConfigsMap)
    (hpre : ∀ n, acc.get n = acc'.get n → b.get n = b'.get n) (h : AgreeFrom b b' r r') :
    AgreeFrom acc acc' r r' := by
  cases r <;> cases r' <;> simp only [AgreeFrom] at h ⊢
  intro n hn
  exact h n (hpre n hn)

theorem AgreeFrom_trans (acc acc' : logConfigsMap) (r1 r2 r3 : Except Error logConfigsMap)
    (h12 : AgreeFrom acc acc r1 r2) (h23 : AgreeFrom acc acc' r2 r3) :
    AgreeFrom acc acc' r1 r3 := by
  cases r1 <;> cases r2 <;> cases r3 <;> simp only [AgreeFrom] at h12 h23 ⊢
  intro n hn
  exact (h12 n trivial).trans (h23 n hn)

theorem SameConfigMaps_self (env env' : Env) (ns : String) (h : SameConfigMaps env env' ns) :
    SameConfigMaps env env ns := by
  intro name
  rcases h name with ⟨e, _, he, _⟩ | ⟨cm, _, hcm, _, _, hnd⟩
  · exact Or.inl ⟨e, e, he, he⟩
  · exact Or.inr ⟨cm, cm, hcm, hcm, List.Perm.refl _, hnd⟩

/-- The loop over the entries of one container gives the same outcome in two
worlds that hold the same config maps up to the order of their entries. -/
theorem buildContainerLogConfigs_congr (env env' : Env) (pod : Pod) (vols : logVolumesMap)
    (containerName : String) (clps : List ContainerLogPolicy) (acc acc' : logConfigsMap)
    (hname : env'.buildLogConfigName = env.buildLogConfigName)
    (hdir : env'.buildPodLogsDirectory = env.buildPodLogsDirectory)
    (hcm : SameConfigMaps env env' pod.Namespace)
    (hinjf : ∀ name cm, env.getConfigMap pod.Namespace name = .ok cm →
      ∀ c g, ∀ entry ∈ cm.Data, ∀ entry' ∈ cm.Data,
        env.buildLogConfigName pod.UID c g entry.1 = env.buildLogConfigName pod.UID c g entry'.1 →
        entry.1 = entry'.1) :
    AgreeFrom acc acc'
      (ManagerImpl.buildContainerLogConfigs env pod vols containerName clps acc)
      (ManagerImpl.buildContainerLogConfigs env' pod vols containerName clps acc') := by
  induction clps generalizing acc acc' with
  | nil =>
    unfold ManagerImpl.buildContainerLogConfigs
    simp only [AgreeFrom]
    exact fun n h => h
  | cons a clps ih =>
    conv => arg 3; unfold ManagerImpl.buildContainerLogConfigs
    conv => arg 4; unfold ManagerImpl.buildContainerLogConfigs
    rcases hcm a.PluginConfigMap with ⟨e, e', he, he'⟩ | ⟨cm, cm', h1, h2, hperm, hnd⟩
    · rw [he, he']
      simp only [AgreeFrom]
    · rw [h1, h2]
      simp only
      by_cases ha : a.Category = podLogPolicyCategoryStd
      · rw [if_pos ha, if_pos ha, hdir]
        apply AgreeFrom_of_pre _ _ _ _ _ _ _ (ih _ _)
        intro n hn
        exact buildFileConfigs_perm env env' pod containerName a.Category _ cm.Data cm'.Data acc
          acc' n hname hperm hnd (hinjf _ cm h1 containerName a.Category) hn
      · rw [if_neg ha, if_neg ha]
        cases vols.get a.VolumeName with
        | none => exact ih acc acc'
        | some lv =>
          simp only
          apply AgreeFrom_of_pre _ _ _ _ _ _ _ (ih _ _)
          intro n hn
          exact buildFileConfigs_perm env env' pod containerName a.Category _ cm.Data cm'.Data
            acc acc' n hname hperm hnd (hinjf _ cm h1 containerName a.Category) hn

/-- The loop over the entries of one container leaves alone every name that those
entries cannot give to a config. -/
theorem buildContainerLogConfigs_frame (env : Env) (pod : Pod) (vols : logVolumesMap)
    (containerName : String) (clps : List ContainerLogPolicy) (acc r : logConfigsMap)
    (n : String)
    (hok : ManagerImpl.buildContainerLogConfigs env pod vols containerName clps acc = .ok r)
    (hn : ¬ WrittenBy env pod containerName clps n) :
    r.get n = acc.get n := by
  induction clps generalizing acc with
  | nil =>
    unfold ManagerImpl.buildContainerLogConfigs at hok
    cases hok
    rfl
  | cons a clps ih =>
    have hn1 : ¬ WrittenBy env pod containerName clps n := by
      rintro ⟨e, he, rest⟩
      exact hn ⟨e, List.mem_cons_of_mem _ he, rest⟩
    unfold ManagerImpl.buildContainerLogConfigs at hok
    cases hcm : env.getConfigMap pod.Namespace a.PluginConfigMap with
    | error err => rw [hcm] at hok; cases hok
    | ok cm =>
      have hno : ∀ entry ∈ cm.Data,
          n ≠ env.buildLogConfigName pod.UID containerName a.Category entry.1 :=
        fun entry he heq => hn ⟨a, List.mem_cons_self _ _, cm, hcm, entry, he, heq⟩
      rw [hcm] at hok
      simp only at hok
      by_cases ha : a.Category = podLogPolicyCategoryStd
      · rw [if_pos ha] at hok
        rw [ih _ hok hn1]
        exact buildFileConfigs_get_of_not_name env pod containerName a.Category _ cm.Data acc n hno
      · rw [if_neg ha] at hok
        cases hv : vols.get a.VolumeName with
        | none =>
          rw [hv] at hok
          exact ih _ hok hn1
        | some lv =>
          rw [hv] at hok
          simp only at hok
          rw [ih _ hok hn1]
          exact buildFileConfigs_get_of_not_name env pod containerName a.Category _ cm.Data acc n
            hno

theorem AgreeFrom_buildAllLogConfigs_cons (env env' : Env) (pod : Pod) (vols : logVolumesMap)
    (c : String) (clps : List ContainerLogPolicy)
    (l l' : List (String × List ContainerLogPolicy)) (acc acc' : logConfigsMap)
    (hhead : AgreeFrom acc acc'
      (ManagerImpl.buildContainerLogConfigs env pod vols c clps acc)
      (ManagerImpl.buildContainerLogConfigs env' pod vols c clps acc'))
    (htail : ∀ b b', AgreeFrom b b' (ManagerImpl.buildAllLogConfigs env pod vols l b)
      (ManagerImpl.buildAllLogConfigs env' pod vols l' b')) :
    AgreeFrom acc acc' (ManagerImpl.buildAllLogConfigs env pod vols ((c, clps) :: l) acc)
      (ManagerImpl.buildAllLogConfigs env' pod vols ((c, clps) :: l') acc') := by
  conv => arg 3; unfold ManagerImpl.buildAllLogConfigs
  conv => arg 4; unfold ManagerImpl.buildAllLogConfigs
  cases h1 : ManagerImpl.buildContainerLogConfigs env pod vols c clps acc with
  | error e =>
    cases h2 : ManagerImpl.buildContainerLogConfigs env' pod vols c clps acc' with
    | error e' => simp only [AgreeFrom]
    | ok b' => rw [h1, h2] at hhead; simp only [AgreeFrom] at hhead
  | ok b =>
    cases h2 : ManagerImpl.buildContainerLogConfigs env' pod vols c clps acc' with
    | error e' => rw [h1, h2] at hhead; simp only [AgreeFrom] at hhead
    | ok b' =>
      rw [h1, h2] at hhead
      simp only [AgreeFrom] at hhead
      simp only
      exact AgreeFrom_of_pre _ _ _ _ _ _ hhead (htail b b')

/-- The loop over the containers gives the same outcome in two worlds that hold
the same config maps up to the order of their entries. -/
theorem buildAllLogConfigs_congr (env env' : Env) (pod : Pod) (vols : logVolumesMap)
    (l : List (String × List ContainerLogPolicy)) (acc acc' : logConfigsMap)
    (hname : env'.buildLogConfigName = env.buildLogConfigName)
    (hdir : env'.buildPodLogsDirectory = env.buildPodLogsDirectory)
    (hcm : SameConfigMaps env env' pod.Namespace)
    (hinjf : ∀ name cm, env.getConfigMap pod.Namespace name = .ok cm →
      ∀ c g, ∀ entry ∈ cm.Data, ∀ entry' ∈ cm.Data,
        env.buildLogConfigName pod.UID c g entry.1 = env.buildLogConfigName pod.UID c g entry'.1 →
        entry.1 = entry'.1) :
    AgreeFrom acc acc' (ManagerImpl.buildAllLogConfigs env pod vols l acc)
      (ManagerImpl.buildAllLogConfigs env' pod vols l acc') := by
  induction l generalizing acc acc' with
  | nil =>
    unfold ManagerImpl.buildAllLogConfigs
    simp only [AgreeFrom]
    exact fun n h => h
  | cons a l ih =>
    obtain ⟨c, clps⟩ := a
    exact AgreeFrom_buildAllLogConfigs_cons env env' pod vols c clps l l acc acc'
      (buildContainerLogConfigs_congr env env' pod vols c clps acc acc' hname hdir hcm hinjf)
      (fun b b' => ih b b')

theorem buildAllLogConfigs_cons (env : Env) (pod : Pod) (vols : logVolumesMap) (c : String)
    (clps : List ContainerLogPolicy) (l : List (String × List ContainerLogPolicy))
    (acc : logConfigsMap) :
    ManagerImpl.buildAllLogConfigs env pod vols ((c, clps) :: l) acc
      = match ManagerImpl.buildContainerLogConfigs env pod vols c clps acc with
        | .error err => .error err
        | .ok acc1 => ManagerImpl.buildAllLogConfigs env pod vols l acc1 := by
  conv_lhs => unfold ManagerImpl.buildAllLogConfigs

/-- Two containers with different names can be visited in either order. -/
theorem buildAllLogConfigs_swap (env : Env) (pod : Pod) (vols : logVolumesMap)
    (c1 c2 : String) (l1 l2 : List ContainerLogPolicy)
    (l : List (String × List ContainerLogPolicy)) (acc acc' : logConfigsMap)
    (hself : SameConfigMaps env env pod.Namespace)
    (hinjf : ∀ name cm, env.getConfigMap pod.Namespace name = .ok cm →
      ∀ c g, ∀ entry ∈ cm.Data, ∀ entry' ∈ cm.Data,
        env.buildLogConfigName pod.UID c g entry.1 = env.buildLogConfigName pod.UID c g entry'.1 →
        entry.1 = entry'.1)
    (hdisj : ∀ n, WrittenBy env pod c1 l1 n → WrittenBy env pod c2 l2 n → False) :
    AgreeFrom acc acc'
      (ManagerImpl.buildAllLogConfigs env pod vols ((c2, l2) :: (c1, l1) :: l) acc)
      (ManagerImpl.buildAllLogConfigs env pod vols ((c1, l1) :: (c2, l2) :: l) acc') := by
  have Hx := fun p q => buildContainerLogConfigs_congr env env pod vols c1 l1 p q rfl rfl hself
    hinjf
  have Hy := fun p q => buildContainerLogConfigs_congr env env pod vols c2 l2 p q rfl rfl hself
    hinjf
  rw [buildAllLogConfigs_cons, buildAllLogConfigs_cons]
  cases hy : ManagerImpl.buildContainerLogConfigs env pod vols c2 l2 acc with
  | error e =>
    cases hx' : ManagerImpl.buildContainerLogConfigs env pod vols c1 l1 acc' with
    | error e' => simp only [AgreeFrom]
    | ok b1 =>
      simp only
      rw [buildAllLogConfigs_cons]
      have h := Hy acc b1
      rw [hy] at h
      cases hy' : ManagerImpl.buildContainerLogConfigs env pod vols c2 l2 b1 with
      | error e' => simp only [AgreeFrom]
      | ok b2 => rw [hy'] at h; simp only [AgreeFrom] at h
  | ok a1 =>
    simp only
    rw [buildAllLogConfigs_cons]
    cases hx : ManagerImpl.buildContainerLogConfigs env pod vols c1 l1 a1 with
    | error e =>
      have h := Hx a1 acc'
      rw [hx] at h
      cases hx' : ManagerImpl.buildContainerLogConfigs env pod vols c1 l1 acc' with
      | error e' => simp only [AgreeFrom]
      | ok b1 => rw [hx'] at h; simp only [AgreeFrom] at h
    | ok a2 =>
      have hxx := Hx a1 acc'
      rw [hx] at hxx
      cases hx' : ManagerImpl.buildContainerLogConfigs env pod vols c1 l1 acc' with
      | error e' => rw [hx'] at hxx; simp only [AgreeFrom] at hxx
      | ok b1 =>
        rw [hx'] at hxx
        simp only [AgreeFrom] at hxx
        simp only
        rw [buildAllLogConfigs_cons]
        have hyy := Hy acc b1
        rw [hy] at hyy
        cases hy' : ManagerImpl.buildContainerLogConfigs env pod vols c2 l2 b1 with
        | error e' => rw [hy'] at hyy; simp only [AgreeFrom] at hyy
        | ok b2 =>
          rw [hy'] at hyy
          simp only [AgreeFrom] at hyy
          simp only
          apply AgreeFrom_of_pre _ _ a2 b2 _ _ _
            (buildAllLogConfigs_congr env env pod vols l a2 b2 rfl rfl hself hinjf)
          intro n hn
          by_cases hw : WrittenBy env pod c1 l1 n
          · have hw2 : ¬ WrittenBy env pod c2 l2 n := fun h2 => hdisj n hw h2
            have e1 : a1.get n = acc.get n :=
              buildContainerLogConfigs_frame env pod vols c2 l2 acc a1 n hy hw2
            have e2 : b2.get n = b1.get n :=
              buildContainerLogConfigs_frame env pod vols c2 l2 b1 b2 n hy' hw2
            rw [e2]
            exact hxx n (e1.trans hn)
          · have e1 : a2.get n = a1.get n :=
              buildContainerLogConfigs_frame env pod vols c1 l1 a1 a2 n hx hw
            have e2 : b1.get n = acc'.get n :=
              buildContainerLogConfigs_frame env pod vols c1 l1 acc' b1 n hx' hw
            rw [e1]
            exact hyy n (hn.trans e2.symm)

/-- The loop over the containers gives the same outcome when the containers are
visited in another order, provided each container occurs once and no config
name can come from two containers. -/
theorem buildAllLogConfigs_perm (env : Env) (pod : Pod) (vols : logVolumesMap)
    (l l' : List (String × List ContainerLogPolicy)) (hperm : l.Perm l')
    (hself : SameConfigMaps env env pod.Namespace)
    (hinjf : ∀ name cm, env.getConfigMap pod.Namespace name = .ok cm →
      ∀ c g, ∀ entry ∈ cm.Data, ∀ entry' ∈ cm.Data,
        env.buildLogConfigName pod.UID c g entry.1 = env.buildLogConfigName pod.UID c g entry'.1 →
        entry.1 = entry'.1)
    (hnodup : (l.map Prod.fst).Nodup)
    (hdisj : ∀ c clps c' clps' n, (c, clps) ∈ l → (c', clps') ∈ l →
      WrittenBy env pod c clps n → WrittenBy env pod c' clps' n → c = c')
    (acc acc' : logConfigsMap) :
    AgreeFrom acc acc' (ManagerImpl.buildAllLogConfigs env pod vols l acc)
      (ManagerImpl.buildAllLogConfigs env pod vols l' acc') := by
  induction hperm generalizing acc acc' with
  | nil =>
    unfold ManagerImpl.buildAllLogConfigs
    simp only [AgreeFrom]
    exact fun n h => h
  | cons x _ ih =>
    obtain ⟨c, clps⟩ := x
    rw [List.map_cons, List.nodup_cons] at hnodup
    exact AgreeFrom_buildAllLogConfigs_cons env env pod vols c clps _ _ acc acc'
      (buildContainerLogConfigs_congr env env pod vols c clps acc acc' rfl rfl hself hinjf)
      (fun b b' => ih hnodup.2
        (fun c0 clps0 c0' clps0' n h1 h2 =>
          hdisj c0 clps0 c0' clps0' n (List.mem_cons_of_mem _ h1) (List.mem_cons_of_mem _ h2))
        b b')
  | swap x y l =>
    obtain ⟨c1, l1⟩ := x
    obtain ⟨c2, l2⟩ := y
    have hne : c2 ≠ c1 := by
      rw [List.map_cons, List.map_cons, List.nodup_cons] at hnodup
      intro h
      apply hnodup.1
      rw [h]
      exact List.mem_cons_self _ _
    apply buildAllLogConfigs_swap env pod vols c1 c2 l1 l2 l acc acc' hself hinjf
    intro n h1 h2
    exact hne (hdisj c2 l2 c1 l1 n (List.mem_cons_self _ _)
      (List.mem_cons_of_mem _ (List.mem_cons_self _ _)) h2 h1)
  | trans h1 _ ih1 ih2 =>
    have hnodup2 := (h1.map Prod.fst).nodup_iff.1 hnodup
    exact AgreeFrom_trans acc acc' _ _ _ (ih1 hnodup hdisj acc acc)
      (ih2 hnodup2
        (fun c clps c' clps' n m1 m2 =>
          hdisj c clps c' clps' n (h1.mem_iff.2 m1) (h1.mem_iff.2 m2))
        acc acc')

/-- C17 (counterexample): the name builder of `pushEnv` joins the pod UID, the
container, the category and the key by `_`, so the entry of category `b_c` of
container `a` and the entry of category `c` of container `a_b` get the same
config name.  For the same pod, policy, log volumes and config maps, the call
that visits `a` first maps that name to the config of container `a_b`, and the
call that visits `a_b` first maps it to the config of container `a`. -/
theorem buildPodLogConfigs_order_matters :
    collisionPolicy.ContainerLogPolicies.Perm collisionPolicySwapped.ContainerLogPolicies ∧
    ((ManagerImpl.buildPodLogConfigs pushEnv (annotatedPod none none) collisionPolicy
        [("v", appLogVolume)]).toOption.bind
      (fun r => r.get "u1_a_b_c_x.conf")).map (fun cfg => cfg.Metadata.ContainerName)
      = some "a_b" ∧
    ((ManagerImpl.buildPodLogConfigs pushEnv (annotatedPod none none) collisionPolicySwapped
        [("v", appLogVolume)]).toOption.bind
      (fun r => r.get "u1_a_b_c_x.conf")).map (fun cfg => cfg.Metadata.ContainerName)
      = some "a" := by
  refine ⟨List.Perm.swap _ _ _, by decide, by decide⟩

/-- C17 (amended): `buildPodLogConfigs` returns the same map whatever the order
in which the containers of the policy and the entries of each config map are
visited, provided the config names do not collide where the order of the visit
would decide which config is kept: two different keys of one config map never
get the same name for the same container and category, and no name is built
for entries of two different containers.  For a fixed pod and fixed log
volumes, take two runs: the containers of the second policy are a permutation
of those of the first (each container occurring once), and each config map
holds in the second run a permutation of the entries it holds in the first
(each key occurring once).  Then both runs fail or both succeed, and in the
second case every name is mapped to the same config in both maps. -/
theorem buildPodLogConfigs_deterministic (env env' : Env) (pod : Pod)
    (policy policy' : PodLogPolicy) (vols : logVolumesMap)
    (hname : env'.buildLogConfigName = env.buildLogConfigName)
    (hdir : env'.buildPodLogsDirectory = env.buildPodLogsDirectory)
    (hcm : SameConfigMaps env env' pod.Namespace)
    (hperm : policy.ContainerLogPolicies.Perm policy'.ContainerLogPolicies)
    (hnodup : (policy.ContainerLogPolicies.map Prod.fst).Nodup)
    (hinjf : ∀ name cm, env.getConfigMap pod.Namespace name = .ok cm →
      ∀ c g, ∀ entry ∈ cm.Data, ∀ entry' ∈ cm.Data,
        env.buildLogConfigName pod.UID c g entry.1 = env.buildLogConfigName pod.UID c g entry'.1 →
        entry.1 = entry'.1)
    (hdisj : ∀ c clps c' clps' n, (c, clps) ∈ policy.ContainerLogPolicies →
      (c', clps') ∈ policy.ContainerLogPolicies →
      WrittenBy env pod c clps n → WrittenBy env pod c' clps' n → c = c') :
    (∀ r, ManagerImpl.buildPodLogConfigs env pod policy vols = .ok r →
      ∃ r', ManagerImpl.buildPodLogConfigs env' pod policy' vols = .ok r' ∧
        ∀ n, r.get n = r'.get n) ∧
    ((∃ e, ManagerImpl.buildPodLogConfigs env pod policy vols = .error e) →
      ∃ e', ManagerImpl.buildPodLogConfigs env' pod policy' vols = .error e') := by
  have hself := SameConfigMaps_self env env' pod.Namespace hcm
  have h1 := buildAllLogConfigs_perm env pod vols policy.ContainerLogPolicies
    policy'.ContainerLogPolicies hperm hself hinjf hnodup hdisj [] []
  have h2 := buildAllLogConfigs_congr env env' pod vols policy'.ContainerLogPolicies [] []
    hname hdir hcm hinjf
  have h := AgreeFrom_trans [] [] _ _ _ h1 h2
  unfold ManagerImpl.buildPodLogConfigs
  generalize ManagerImpl.buildAllLogConfigs env pod vols policy.ContainerLogPolicies [] = r0
    at h
  generalize ManagerImpl.buildAllLogConfigs env' pod vols policy'.ContainerLogPolicies [] = r1
    at h
  cases r0 <;> cases r1 <;> simp only [AgreeFrom] at h
  · refine ⟨?_, ?_⟩
    · intro r hr; cases hr
    · intro _; exact ⟨_, rfl⟩
  · refine ⟨?_, ?_⟩
    · intro r hr
      cases hr
      exact ⟨_, rfl, fun n => h n trivial⟩
    · rintro ⟨e, he⟩; cases he

/-- C17 (amended) at a concrete pair of runs: the containers `a` and `b`, visited
in either order. -/
theorem buildPodLogConfigs_deterministic_witness :
    (∀ r, ManagerImpl.buildPodLogConfigs pushEnv (annotatedPod none none) twoContainerPolicy []
        = .ok r →
      ∃ r', ManagerImpl.buildPodLogConfigs pushEnv (annotatedPod none none)
          twoContainerPolicySwapped [] = .ok r' ∧
        ∀ n, r.get n = r'.get n) ∧
    ((∃ e, ManagerImpl.buildPodLogConfigs pushEnv (annotatedPod none none) twoContainerPolicy []
        = .error e) →
      ∃ e', ManagerImpl.buildPodLogConfigs pushEnv (annotatedPod none none)
        twoContainerPolicySwapped [] = .error e') :=
  buildPodLogConfigs_deterministic pushEnv pushEnv (annotatedPod none none) twoContainerPolicy
    twoContainerPolicySwapped [] rfl rfl
    (fun name => Or.inr ⟨_, _, rfl, rfl, List.Perm.refl _, List.nodup_singleton "x.conf"⟩)
    (List.Perm.swap _ _ _)
    (by decide)
    (by
      intro name cm h c g entry he entry' he' _
      have h1 : (Except.ok (ConfigMap.mk "ns" name [("x.conf", "A")])
          : Except Error ConfigMap) = .ok cm := h
      cases h1
      have e1 : entry = ("x.conf", "A") := by simpa using he
      have e2 : entry' = ("x.conf", "A") := by simpa using he'
      rw [e1, e2])
    (by
      intro c clps c' clps' n h1 h2 w1 w2
      obtain ⟨e, he, cm, hcm, entry, hentry, hn⟩ := w1
      obtain ⟨e', he', cm', hcm', entry', hentry', hn'⟩ := w2
      have hcm1 : (Except.ok (ConfigMap.mk "ns" e.PluginConfigMap [("x.conf", "A")])
          : Except Error ConfigMap) = .ok cm := hcm
      have hcm2 : (Except.ok (ConfigMap.mk "ns" e'.PluginConfigMap [("x.conf", "A")])
          : Except Error ConfigMap) = .ok cm' := hcm'
      cases hcm1
      cases hcm2
      have e1 : entry = ("x.conf", "A") := by simpa using hentry
      have e2 : entry' = ("x.conf", "A") := by simpa using hentry'
      subst e1
      subst e2
      have hl : ∀ x : String × List ContainerLogPolicy,
          x ∈ twoContainerPolicy.ContainerLogPolicies →
          x = ("a", [stdEntry]) ∨ x = ("b", [stdEntry]) := by
        intro x hx
        simpa [twoContainerPolicy] using hx
      rcases hl _ h1 with g1 | g1 <;> rcases hl _ h2 with g2 | g2
      · cases g1; cases g2; rfl
      · cases g1
        cases g2
        have he1 : e = stdEntry := by simpa using he
        have he2 : e' = stdEntry := by simpa using he'
        subst he1
        subst he2
        rw [hn] at hn'
        exact absurd hn' (by decide)
      · cases g1
        cases g2
        have he1 : e = stdEntry := by simpa using he
        have he2 : e' = stdEntry := by simpa using he'
        subst he1
        subst he2
        rw [hn] at hn'
        exact absurd hn' (by decide)
      · cases g1; cases g2; rfl)

/-! ## `CollectFinished` -/

/-- C21: `CollectFinished(pod)` returns true, and issues no call, when the pod has
no log-policy annotation or when no policy is stored for its UID; otherwise it
is exactly `checkCollectFinished(pod.UID, storedPolicy)`.  It returns false for
a pod with the annotation whose stored policy names a registered plugin and one
of whose observed configs is reported `Running`. -/
theorem CollectFinished_spec (env : Env) (m : ManagerImpl) (pod : Pod) :
    (IsPodLogPolicyExists pod = false → ManagerImpl.CollectFinished env m pod = (true, m)) ∧
    (m.podStateManager.getLogPolicy pod.UID = none →
      ManagerImpl.CollectFinished env m pod = (true, m)) ∧
    (∀ policy, IsPodLogPolicyExists pod = true →
      m.podStateManager.getLogPolicy pod.UID = some policy →
      ManagerImpl.CollectFinished env m pod
        = ManagerImpl.checkCollectFinished env m pod.UID policy) ∧
    (∀ policy ep n, IsPodLogPolicyExists pod = true →
      m.podStateManager.getLogPolicy pod.UID = some policy →
      m.logPlugins.get policy.LogPlugin = some ep →
      n ∈ m.pluginStateManager.getLogConfigNames pod.UID →
      env.getState ep n = .ok State.Running →
      (ManagerImpl.CollectFinished env m pod).1 = false) := by
  have h3 : ∀ policy, IsPodLogPolicyExists pod = true →
      m.podStateManager.getLogPolicy pod.UID = some policy →
      ManagerImpl.CollectFinished env m pod
        = ManagerImpl.checkCollectFinished env m pod.UID policy := by
    intro policy hann hpol
    unfold ManagerImpl.CollectFinished
    simp only [hann, hpol, Bool.not_true, Bool.false_eq_true, if_false]
  refine ⟨?_, ?_, h3, ?_⟩
  · intro hann
    unfold ManagerImpl.CollectFinished
    simp only [hann, Bool.not_false, if_true]
  · intro hpol
    unfold ManagerImpl.CollectFinished
    by_cases hann : IsPodLogPolicyExists pod = true
    · simp only [hann, hpol, Bool.not_true, Bool.false_eq_true, if_false]
    · have hann1 : IsPodLogPolicyExists pod = false := by simpa using hann
      simp only [hann1, Bool.not_false, if_true]
  · intro policy ep n hann hpol hreg hn hrun
    rw [h3 policy hann hpol, ← Bool.not_eq_true, checkCollectFinished_eq_true_iff]
    rintro (h | ⟨ep1, hep1, hall⟩)
    · rw [h] at hn; cases hn
    · rw [hreg] at hep1
      cases hep1
      obtain ⟨st, hst, hne⟩ := hall n hn
      rw [hrun] at hst
      cases hst
      exact hne rfl

/-- C21 at scenario S5: safe deletion on and one config `Running`. -/
theorem CollectFinished_spec_witness :
    (ManagerImpl.CollectFinished runningEnv (trackingManager (stdPolicy true))
      (annotatedPod none none)).1 = false :=
  (CollectFinished_spec runningEnv (trackingManager (stdPolicy true))
    (annotatedPod none none)).2.2.2 (stdPolicy true) lpEndpoint "c1" (by decide) (by decide)
    (by decide) (by decide) rfl

/-! ## `sync`: the sources-ready gate -/

/-- C24: while `sourcesReady.AllReady()` is false, `sync()` leaves the manager
exactly as it was: both stores and the endpoint table are unchanged and no call
is recorded, so no `listConfig`, `addConfig` or `delConfig` is issued and
`configMapWatcher.Sync` is not called. -/
theorem sync_not_ready (env : Env) (m : ManagerImpl) (hready : env.allReady = false) :
    ManagerImpl.sync env m = m ∧
    (ManagerImpl.sync env m).calls = m.calls ∧
    (ManagerImpl.sync env m).podStateManager = m.podStateManager ∧
    (ManagerImpl.sync env m).pluginStateManager = m.pluginStateManager := by
  have h : ManagerImpl.sync env m = m := by
    unfold ManagerImpl.sync
    simp only [hready, Bool.not_false, if_true]
  rw [h]
  exact ⟨rfl, rfl, rfl, rfl⟩

/-- C24 at a concrete manager: a plugin that would list a config, sources not
ready. -/
theorem sync_not_ready_witness :
    ManagerImpl.sync { pushEnv with allReady := false } (trackingManager (stdPolicy false))
      = trackingManager (stdPolicy false) :=
  (sync_not_ready { pushEnv with allReady := false } (trackingManager (stdPolicy false)) rfl).1

/-! ## `RemoveLogPolicy`: errors leave the pod state store alone -/

/-- C28: if `RemoveLogPolicy` returns an error, whichever it is (safe-deletion
refusal, grace period not exceeded, failed status update, plugin not
registered, failed `delConfig`), the pod state store is exactly what it was
before the call: the policy, the log volumes and the config-map keys of every
pod, and the reverse index. -/
theorem RemoveLogPolicy_error_keeps_pod_state (env : Env) (m : ManagerImpl) (pod : Option Pod)
    (err : Error) (herr : (ManagerImpl.RemoveLogPolicy env m pod).1 = some err) :
    (ManagerImpl.RemoveLogPolicy env m pod).2.1.podStateManager = m.podStateManager := by
  cases pod with
  | none => rfl
  | some pod =>
    by_contra hne
    obtain ⟨policy, hpol, _⟩ := RemoveLogPolicy_changes_only_when_allowed env m pod hne
    have hann : IsPodLogPolicyExists pod = true := by
      by_contra hann
      have hann1 : IsPodLogPolicyExists pod = false := by simpa using hann
      apply hne
      unfold ManagerImpl.RemoveLogPolicy
      simp only [hann1, Bool.not_false, if_true]
    obtain ⟨_, hps, _, _⟩ := checkCollectFinished_frame env m pod.UID policy
    unfold ManagerImpl.RemoveLogPolicy at herr hne
    simp only [hann, hpol, Bool.not_true, Bool.false_eq_true, if_false] at herr hne
    split at hne
    · exact hne hps
    · split at hne
      · exact hne hps
      · rename_i h1 h2
        simp only [h1, h2, Bool.false_eq_true, if_false] at herr
        have hset : (ManagerImpl.setCollectFinished env
            (ManagerImpl.checkCollectFinished env m pod.UID policy).2 pod).2.1.podStateManager
              = m.podStateManager := by
          unfold ManagerImpl.setCollectFinished
          by_cases hch : (UpdatePodCondition pod.Conditions collectFinishedCondition).2 = true
          · simp only [hch, if_true]
            exact hps
          · simp only [hch, Bool.false_eq_true, if_false]
            exact hps
        rcases hsc : ManagerImpl.setCollectFinished env
          (ManagerImpl.checkCollectFinished env m pod.UID policy).2 pod with ⟨e1, m1, pod1⟩
        rw [hsc] at hne herr hset
        simp only at hset
        cases e1 with
        | some e => exact hne hset
        | none =>
          simp only at hne herr
          cases hep : m1.getLogPluginEndpoint policy.LogPlugin with
          | error e =>
            rw [hep] at hne
            exact hne hset
          | ok ep =>
            rw [hep] at hne herr
            simp only at hne herr
            rcases hd : ManagerImpl.deletePluginConfigs env m1 pod1.UID ep with ⟨e2, m2⟩
            have hd2 : m2.podStateManager = m1.podStateManager := by
              have := (deletePluginConfigs_frame env m1 pod1.UID ep).1
              rw [hd] at this
              exact this
            rw [hd] at hne herr
            cases e2 with
            | some e => exact hne (hd2.trans hset)
            | none => simp only at herr; cases herr

/-- C28 at a concrete failure: the status update is refused by the API server
after the grace period is exceeded. -/
theorem RemoveLogPolicy_error_keeps_pod_state_witness :
    (ManagerImpl.RemoveLogPolicy
      { runningEnv with now := 31000000000, updateStatus := fun _ => some "conflict" }
      (trackingManager (stdPolicy false))
      (some (annotatedPod (some 0) (some 30)))).2.1.podStateManager
      = (trackingManager (stdPolicy false)).podStateManager :=
  RemoveLogPolicy_error_keeps_pod_state
    { runningEnv with now := 31000000000, updateStatus := fun _ => some "conflict" }
    (trackingManager (stdPolicy false)) (some (annotatedPod (some 0) (some 30))) "conflict"
    (by decide)

/-! ## Built configs describe themselves -/

/-- C30: every entry `(name, config)` of a map returned by `buildPodLogConfigs`
has `config.Metadata.Name = name`, and the UID, the namespace and the name of
the pod in its metadata; hence, when a `listConfig` reply holding such a config
is grouped by `updateAllLogConfigs`, the name of the config is among the config
names observed for the pod it was built for, and the pod is bound to the
endpoint of the reply. -/
theorem built_configs_self_describing (env : Env) (pod : Pod) (policy : PodLogPolicy)
    (vols : logVolumesMap) (r : logConfigsMap) (name : String) (cfg : Config)
    (hok : ManagerImpl.buildPodLogConfigs env pod policy vols = .ok r)
    (hget : r.get name = some cfg) :
    (cfg.Metadata.Name = name ∧ cfg.Metadata.PodUID = pod.UID ∧
      cfg.Metadata.PodNamespace = pod.Namespace ∧ cfg.Metadata.PodName = pod.Name) ∧
    (∀ (p : pluginStateManager) (cs : List Config) (ep : pluginEndpoint), cfg ∈ cs →
      name ∈ (p.updateAllLogConfigs (some cs) ep).getLogConfigNames pod.UID ∧
      pod.UID ∈ (p.updateAllLogConfigs (some cs) ep).getAllPodUIDs ∧
      (p.updateAllLogConfigs (some cs) ep).getLogPluginEndpoint pod.UID = some ep) := by
  have hmeta : cfg.Metadata.Name = name ∧ cfg.Metadata.PodUID = pod.UID ∧
      cfg.Metadata.PodNamespace = pod.Namespace ∧ cfg.Metadata.PodName = pod.Name := by
    rcases buildAllLogConfigs_get env pod vols policy.ContainerLogPolicies [] r name cfg hok hget
      with h | ⟨c, clps, e, _, _, ⟨_, h2, h3, h4, _⟩, hn⟩
    · simp [GoMap.get] at h
    · exact ⟨hn, h2, h3, h4⟩
  refine ⟨hmeta, ?_⟩
  intro p cs ep hmem
  exact ⟨(mem_getLogConfigNames_updateAllLogConfigs p cs ep pod.UID name).2
      ⟨cfg, hmem, hmeta.2.1, hmeta.1⟩,
    (mem_getAllPodUIDs_updateAllLogConfigs p cs ep pod.UID).2 ⟨cfg, hmem, hmeta.2.1⟩,
    getLogPluginEndpoint_updateAllLogConfigs p cs ep pod.UID ⟨cfg, hmem, hmeta.2.1⟩⟩

/-- C30 at scenario S1: the config built for `x.conf` of container `c`. -/
theorem built_configs_self_describing_witness :
    sampleConfig.Metadata.Name = "u1_c_std_x.conf" ∧
    sampleConfig.Metadata.PodUID = (annotatedPod none none).UID ∧
    sampleConfig.Metadata.PodNamespace = (annotatedPod none none).Namespace ∧
    sampleConfig.Metadata.PodName = (annotatedPod none none).Name :=
  (built_configs_self_describing pushEnv (annotatedPod none none) (stdPolicy false) []
    [("u1_c_std_x.conf", sampleConfig)] "u1_c_std_x.conf" sampleConfig (by rfl)
    (by decide)).1

/-! ## The reverse index: the half that holds -/

theorem InIndex_addPodUID_mono (podUID : UID) (idx : GoMap String StringSet) (key k : String)
    (u : UID) (h : InIndex idx k u) : InIndex (podStateManager.addPodUID podUID idx key) k u := by
  obtain ⟨s, hs, hu⟩ := h
  unfold podStateManager.addPodUID InIndex
  cases hget : idx.get key with
  | none =>
    simp only [GoMap.get_set]
    by_cases hk : k = key
    · rw [hk, hget] at hs; cases hs
    · rw [if_neg hk]; exact ⟨s, hs, hu⟩
  | some s0 =>
    simp only [GoMap.get_set]
    by_cases hk : k = key
    · rw [if_pos hk]
      rw [hk, hget] at hs
      cases hs
      exact ⟨_, rfl, (StringSet.mem_Insert _ _ _).2 (Or.inl hu)⟩
    · rw [if_neg hk]; exact ⟨s, hs, hu⟩

theorem InIndex_addPodUID_self (podUID : UID) (idx : GoMap String StringSet) (key : String) :
    InIndex (podStateManager.addPodUID podUID idx key) key podUID := by
  unfold podStateManager.addPodUID InIndex
  cases hget : idx.get key with
  | none =>
    simp only [GoMap.get_set, if_true]
    exact ⟨_, rfl, (StringSet.mem_Insert _ _ _).2 (Or.inr rfl)⟩
  | some s0 =>
    simp only [GoMap.get_set, if_true]
    exact ⟨_, rfl, (StringSet.mem_Insert _ _ _).2 (Or.inr rfl)⟩

theorem InIndex_foldl_addPodUID (podUID : UID) (keys : List String)
    (idx : GoMap String StringSet) (k : String) (u : UID)
    (h : InIndex idx k u ∨ (k ∈ keys ∧ u = podUID)) :
    InIndex (keys.foldl (podStateManager.addPodUID podUID) idx) k u := by
  induction keys generalizing idx with
  | nil =>
    rcases h with h | ⟨h, _⟩
    · exact h
    · cases h
  | cons a keys ih =>
    rw [List.foldl_cons]
    apply ih
    rcases h with h | ⟨h, hu⟩
    · exact Or.inl (InIndex_addPodUID_mono podUID idx a k u h)
    · rcases List.mem_cons.1 h with h1 | h1
      · left
        rw [h1, hu]
        exact InIndex_addPodUID_self podUID idx a
      · exact Or.inr ⟨h1, hu⟩

theorem InIndex_dropPodUID_keep (podUID : UID) (idx : GoMap String StringSet) (key k : String)
    (u : UID) (hne : u ≠ podUID) (h : InIndex idx k u) :
    InIndex (podStateManager.dropPodUID podUID idx key) k u := by
  obtain ⟨s, hs, hu⟩ := h
  unfold podStateManager.dropPodUID InIndex
  cases hget : idx.get key with
  | none => exact ⟨s, hs, hu⟩
  | some s0 =>
    simp only
    by_cases hk : k = key
    · rw [hk, hget] at hs
      cases hs
      have hmem : u ∈ StringSet.Delete s podUID := (StringSet.mem_Delete _ _ _).2 ⟨hu, hne⟩
      have hlen : ¬ (StringSet.Delete s podUID).Len = 0 := by
        intro h0
        have : StringSet.Delete s podUID = [] := List.length_eq_zero.1 h0
        rw [this] at hmem
        cases hmem
      rw [if_neg hlen, hk, GoMap.get_set, if_pos rfl]
      exact ⟨_, rfl, hmem⟩
    · by_cases hlen : (StringSet.Delete s0 podUID).Len = 0
      · rw [if_pos hlen, GoMap.get_delete, if_neg hk]
        exact ⟨s, hs, hu⟩
      · rw [if_neg hlen, GoMap.get_set, if_neg hk]
        exact ⟨s, hs, hu⟩

theorem InIndex_foldl_dropPodUID (podUID : UID) (keys : List String)
    (idx : GoMap String StringSet) (k : String) (u : UID) (hne : u ≠ podUID)
    (h : InIndex idx k u) :
    InIndex (keys.foldl (podStateManager.dropPodUID podUID) idx) k u := by
  induction keys generalizing idx with
  | nil => exact h
  | cons a keys ih =>
    rw [List.foldl_cons]
    exact ih _ (InIndex_dropPodUID_keep podUID idx a k u hne h)

theorem ForwardIndexed_apply (m : podStateManager) (op : ConfigMapOp) (h : ForwardIndexed m) :
    ForwardIndexed (op.apply m) := by
  cases op with
  | update podUID configMapKeys =>
    intro u keys hget key hkey
    show InIndex (configMapKeys.foldl (podStateManager.addPodUID podUID) m.configMapPodUIDs) key u
    have hget1 : GoMap.get (GoMap.set m.podConfigMaps podUID configMapKeys) u = some keys := hget
    rw [GoMap.get_set] at hget1
    apply InIndex_foldl_addPodUID
    by_cases hu : u = podUID
    · rw [if_pos hu] at hget1
      cases hget1
      exact Or.inr ⟨hkey, hu⟩
    · rw [if_neg hu] at hget1
      exact Or.inl (h u keys hget1 key hkey)
  | remove podUID =>
    intro u keys hget key hkey
    have hget1 : GoMap.get (GoMap.delete m.podConfigMaps podUID) u = some keys := hget
    rw [GoMap.get_delete] at hget1
    by_cases hu : u = podUID
    · rw [if_pos hu] at hget1; cases hget1
    · rw [if_neg hu] at hget1
      have hin := h u keys hget1 key hkey
      show InIndex (podStateManager.removeConfigMapKeys m podUID).configMapPodUIDs key u
      unfold podStateManager.removeConfigMapKeys
      cases hk : m.podConfigMaps.get podUID with
      | none => exact hin
      | some configMapKeys =>
        exact InIndex_foldl_dropPodUID podUID configMapKeys _ key u hu hin

theorem ForwardIndexed_run (ops : List ConfigMapOp) (m : podStateManager)
    (h : ForwardIndexed m) : ForwardIndexed (runConfigMapOps m ops) := by
  induction ops generalizing m with
  | nil => exact h
  | cons op ops ih => exact ih _ (ForwardIndexed_apply m op h)

/-- C27: in every state of the pod state store reached from the empty store by
`updateConfigMapKeys` and `removeConfigMapKeys` calls, if a key is in the key
set stored for a pod, then the pod is in `getPodUIDs(key)` and the key is in
`getAllConfigMapKeys()`. -/
theorem forward_reverse_index (ops : List ConfigMapOp) (podUID : UID) (key : String)
    (hkey : key ∈ (runConfigMapOps newPodStateManager ops).configMapKeysOf podUID) :
    podUID ∈ (runConfigMapOps newPodStateManager ops).getPodUIDs key ∧
    key ∈ (runConfigMapOps newPodStateManager ops).getAllConfigMapKeys := by
  have hinv : ForwardIndexed (runConfigMapOps newPodStateManager ops) :=
    ForwardIndexed_run ops newPodStateManager
      (by intro u keys hget; simp [newPodStateManager, GoMap.get] at hget)
  unfold podStateManager.configMapKeysOf at hkey
  cases hget : (runConfigMapOps newPodStateManager ops).podConfigMaps.get podUID with
  | none => rw [hget] at hkey; cases hkey
  | some keys =>
    rw [hget] at hkey
    obtain ⟨s, hs, hu⟩ := hinv podUID keys hget key hkey
    constructor
    · unfold podStateManager.getPodUIDs
      rw [hs]
      exact hu
    · unfold podStateManager.getAllConfigMapKeys
      rw [StringSet.mem_foldl_Insert]
      exact Or.inr (GoMap.mem_keys_of_get _ _ _ hs)

/-- C27 at the run that breaks the other half: `u` replaces `{a}` by `{b}`. -/
theorem forward_reverse_index_witness :
    "u" ∈ (runConfigMapOps newPodStateManager
      [ConfigMapOp.update "u" ["a"], ConfigMapOp.update "u" ["b"]]).getPodUIDs "b" ∧
    "b" ∈ (runConfigMapOps newPodStateManager
      [ConfigMapOp.update "u" ["a"], ConfigMapOp.update "u" ["b"]]).getAllConfigMapKeys :=
  forward_reverse_index [ConfigMapOp.update "u" ["a"], ConfigMapOp.update "u" ["b"]] "u" "b"
    (by decide)

/-! ## The plugin state store is well formed -/

theorem mem_endpoint_keys_addLogConfig (ep : pluginEndpoint)
    (acc : GoMap UID StringSet × GoMap UID pluginEndpoint) (c : Config) (podUID : UID) :
    podUID ∈ (pluginStateManager.addLogConfig ep acc c).2.keys ↔
      podUID ∈ acc.2.keys ∨ c.Metadata.PodUID = podUID := by
  rw [GoMap.mem_keys_iff_get, GoMap.mem_keys_iff_get]
  unfold pluginStateManager.addLogConfig
  cases hget : acc.2.get c.Metadata.PodUID with
  | none =>
    simp only [GoMap.get_set]
    by_cases h : podUID = c.Metadata.PodUID
    · rw [if_pos h]
      exact ⟨fun _ => Or.inr h.symm, fun _ => ⟨_, rfl⟩⟩
    · rw [if_neg h]
      exact ⟨fun h1 => Or.inl h1, fun h1 => h1.elim id (fun h2 => absurd h2.symm h)⟩
  | some e0 =>
    simp only
    constructor
    · exact fun h1 => Or.inl h1
    · rintro (h1 | h1)
      · exact h1
      · rw [← h1]; exact ⟨e0, hget⟩

theorem NoEmptyEntry_addLogConfig (ep : pluginEndpoint)
    (acc : GoMap UID StringSet × GoMap UID pluginEndpoint) (c : Config)
    (h : NoEmptyEntry acc.1) : NoEmptyEntry (pluginStateManager.addLogConfig ep acc c).1 := by
  intro p hp
  unfold pluginStateManager.addLogConfig at hp
  cases hget : acc.1.get c.Metadata.PodUID with
  | none =>
    rw [hget] at hp
    rcases (GoMap.mem_set _ _ _ _).1 hp with h1 | h1
    · rw [h1]; exact StringSet.Insert_ne_nil StringSet.NewString c.Metadata.Name
    · exact h p h1.1
  | some configNames =>
    rw [hget] at hp
    rcases (GoMap.mem_set _ _ _ _).1 hp with h1 | h1
    · rw [h1]; exact StringSet.Insert_ne_nil configNames c.Metadata.Name
    · exact h p h1.1

theorem PluginStoreWF_foldl_addLogConfig (ep : pluginEndpoint) (cs : List Config)
    (acc : GoMap UID StringSet × GoMap UID pluginEndpoint) (h : PluginStoreWF acc.1 acc.2) :
    PluginStoreWF (cs.foldl (pluginStateManager.addLogConfig ep) acc).1
      (cs.foldl (pluginStateManager.addLogConfig ep) acc).2 := by
  induction cs generalizing acc with
  | nil => exact h
  | cons c cs ih =>
    rw [List.foldl_cons]
    apply ih
    refine ⟨fun podUID => ?_, NoEmptyEntry_addLogConfig ep acc c h.2⟩
    rw [mem_keys_addLogConfig, mem_endpoint_keys_addLogConfig, h.1 podUID]

theorem PluginStoreWF_run (calls : List (Option (List Config) × pluginEndpoint))
    (m : pluginStateManager) (h : PluginStoreWF m.podLogConfigNames m.podLogPluginEndpoint) :
    PluginStoreWF (runUpdateAllLogConfigs m calls).podLogConfigNames
      (runUpdateAllLogConfigs m calls).podLogPluginEndpoint := by
  induction calls generalizing m with
  | nil => exact h
  | cons call calls ih =>
    apply ih
    obtain ⟨configs, ep⟩ := call
    cases configs with
    | none => exact h
    | some cs =>
      exact PluginStoreWF_foldl_addLogConfig ep cs ([], [])
        ⟨fun _ => Iff.rfl, by intro p hp; cases hp⟩

/-- C29: in every state of the plugin state store reached from
`newPluginStateManager()` by `updateAllLogConfigs` calls, a pod has a
config-name entry exactly when it has an endpoint binding, and every stored
config-name set is non-empty; hence for every uid of `getAllPodUIDs` the method
`getLogPluginEndpoint` finds an endpoint, and it still does after any run of
the garbage-collection loop of `sync` on a manager holding that store, so the
branch "log plugin endpoint not found" of the loop is not taken. -/
theorem plugin_store_well_formed (calls : List (Option (List Config) × pluginEndpoint))
    (podUID : UID)
    (huid : podUID ∈ (runUpdateAllLogConfigs newPluginStateManager calls).getAllPodUIDs) :
    (∀ u, (∃ s, (runUpdateAllLogConfigs newPluginStateManager calls).podLogConfigNames.get u
          = some s) ↔
        (∃ ep, (runUpdateAllLogConfigs newPluginStateManager calls).podLogPluginEndpoint.get u
          = some ep)) ∧
    (∀ u s, (runUpdateAllLogConfigs newPluginStateManager calls).podLogConfigNames.get u
        = some s → s.Len ≠ 0) ∧
    (∃ ep, (runUpdateAllLogConfigs newPluginStateManager calls).getLogPluginEndpoint podUID
        = some ep) ∧
    (∀ (env : Env) (m : ManagerImpl) (l : List String),
      m.pluginStateManager = runUpdateAllLogConfigs newPluginStateManager calls →
      ∃ ep, (ManagerImpl.removeUnknownPods env l m).pluginStateManager.getLogPluginEndpoint
        podUID = some ep) := by
  have hwf := PluginStoreWF_run calls newPluginStateManager
    ⟨fun _ => Iff.rfl, by intro p hp; cases hp⟩
  have hfound : ∃ ep,
      (runUpdateAllLogConfigs newPluginStateManager calls).getLogPluginEndpoint podUID
        = some ep := by
    unfold pluginStateManager.getAllPodUIDs at huid
    rcases (StringSet.mem_foldl_Insert _ _ _).1 huid with h | h
    · cases h
    · exact (GoMap.mem_keys_iff_get _ _).1 ((hwf.1 podUID).1 h)
  refine ⟨fun u => ?_, ?_, hfound, ?_⟩
  · rw [← GoMap.mem_keys_iff_get, ← GoMap.mem_keys_iff_get]
    exact hwf.1 u
  · intro u s hs hlen
    exact hwf.2 _ (GoMap.mem_of_get _ _ _ hs) (List.length_eq_zero.1 hlen)
  · intro env m l hm
    rw [(removeUnknownPods_frame env l m).1, hm]
    exact hfound

/-- C29 at a concrete run: a first listing names pods `u1` and `u2`, a second
listing of another plugin names `u1` only. -/
theorem plugin_store_well_formed_witness :
    "u1" ∈ (runUpdateAllLogConfigs newPluginStateManager
      [(some [sampleConfig, otherConfig], lpEndpoint),
        (some [sampleConfig], lp2Endpoint)]).getAllPodUIDs ∧
    ∃ ep, (runUpdateAllLogConfigs newPluginStateManager
      [(some [sampleConfig, otherConfig], lpEndpoint),
        (some [sampleConfig], lp2Endpoint)]).getLogPluginEndpoint "u1" = some ep :=
  ⟨by decide, (plugin_store_well_formed
    [(some [sampleConfig, otherConfig], lpEndpoint), (some [sampleConfig], lp2Endpoint)]
    "u1" (by decide)).2.2.1⟩

/-! ## Plugin registration -/

/-- C22: `Register` returns an error exactly when the version of the request
differs from the supported version; on a mismatch no `addEndpoint` is started,
so no endpoint is ever constructed for the request and the manager, its
endpoint table included, stays as it was; on a match `Register` returns no
error with the manager still unchanged and no endpoint constructed yet, the
construction being left to the `addEndpoint` call it started. -/
theorem Register_validates_version (env : Env) (m : ManagerImpl) (r : RegisterRequest) :
    ((ManagerImpl.Register env m r).err ≠ none ↔ r.Version ≠ env.Version) ∧
    (r.Version ≠ env.Version →
      (ManagerImpl.Register env m r).started = [] ∧
      (ManagerImpl.Register env m r).manager = m ∧
      (ManagerImpl.Register env m r).settle env = m) ∧
    (r.Version = env.Version →
      (ManagerImpl.Register env m r).err = none ∧
      (ManagerImpl.Register env m r).manager = m ∧
      (ManagerImpl.Register env m r).started = [r] ∧
      (ManagerImpl.Register env m r).settle env = ManagerImpl.addEndpoint env m r) := by
  unfold ManagerImpl.Register
  by_cases h : r.Version = env.Version
  · have hn : ¬ r.Version ≠ env.Version := fun hne => hne h
    rw [if_neg hn]
    exact ⟨⟨fun h1 => absurd rfl h1, fun h1 => absurd h h1⟩, fun h1 => absurd h h1,
      fun _ => ⟨rfl, rfl, rfl, rfl⟩⟩
  · have hn : r.Version ≠ env.Version := h
    rw [if_pos hn]
    exact ⟨⟨fun _ => hn, fun _ h1 => by cases h1⟩, fun _ => ⟨rfl, rfl, rfl⟩,
      fun h1 => absurd h1 h⟩

/-- C23: when the construction of the endpoint succeeds, after `addEndpoint(r)`
the endpoint table maps `r.Name` to the new endpoint and every other name to
what it was mapped to before; `stop()` was called on the endpoint the table
held under `r.Name`, if any, in a state whose table still held it, and on no
other endpoint. -/
theorem addEndpoint_replaces (env : Env) (m : ManagerImpl) (r : RegisterRequest)
    (e : pluginEndpoint)
    (hnew : env.newEndpointImpl (env.join env.LogPluginPath r.Endpoint) r.Name = .ok e) :
    (ManagerImpl.addEndpoint env m r).logPlugins.get r.Name = some e ∧
    (∀ name, name ≠ r.Name →
      (ManagerImpl.addEndpoint env m r).logPlugins.get name = m.logPlugins.get name) ∧
    (∀ old, m.logPlugins.get r.Name = some old →
      (ManagerImpl.addEndpoint env m r).calls = m.calls ++
        [Call.newEndpointImpl (env.join env.LogPluginPath r.Endpoint) r.Name, Call.stop old] ∧
      (ManagerImpl.stopOldLogPlugin m r.Name).calls = m.calls ++ [Call.stop old] ∧
      (ManagerImpl.stopOldLogPlugin m r.Name).logPlugins.get r.Name = some old) ∧
    (m.logPlugins.get r.Name = none →
      (ManagerImpl.addEndpoint env m r).calls = m.calls ++
        [Call.newEndpointImpl (env.join env.LogPluginPath r.Endpoint) r.Name]) ∧
    (ManagerImpl.addEndpoint env m r).podStateManager = m.podStateManager ∧
    (ManagerImpl.addEndpoint env m r).pluginStateManager = m.pluginStateManager := by
  have hadd : ManagerImpl.addEndpoint env m r =
      { ManagerImpl.stopOldLogPlugin
          { m with calls := m.calls ++
            [Call.newEndpointImpl (env.join env.LogPluginPath r.Endpoint) r.Name] } r.Name with
        logPlugins := (ManagerImpl.stopOldLogPlugin
          { m with calls := m.calls ++
            [Call.newEndpointImpl (env.join env.LogPluginPath r.Endpoint) r.Name] }
          r.Name).logPlugins.set r.Name e } := by
    unfold ManagerImpl.addEndpoint
    simp only [hnew]
  have hstop : ∀ (m0 : ManagerImpl),
      (ManagerImpl.stopOldLogPlugin m0 r.Name).logPlugins = m0.logPlugins ∧
      (ManagerImpl.stopOldLogPlugin m0 r.Name).podStateManager = m0.podStateManager ∧
      (ManagerImpl.stopOldLogPlugin m0 r.Name).pluginStateManager = m0.pluginStateManager ∧
      (∀ old, m0.logPlugins.get r.Name = some old →
        (ManagerImpl.stopOldLogPlugin m0 r.Name).calls = m0.calls ++ [Call.stop old]) ∧
      (m0.logPlugins.get r.Name = none →
        (ManagerImpl.stopOldLogPlugin m0 r.Name).calls = m0.calls) := by
    intro m0
    unfold ManagerImpl.stopOldLogPlugin
    cases hget : m0.logPlugins.get r.Name with
    | none => exact ⟨rfl, rfl, rfl, fun old h => (by cases h), fun _ => rfl⟩
    | some old0 =>
      exact ⟨rfl, rfl, rfl, fun old h => (by cases h; rfl), fun h => (by cases h)⟩
  obtain ⟨h1, h2, h3, h4, h5⟩ := hstop { m with calls := m.calls ++
    [Call.newEndpointImpl (env.join env.LogPluginPath r.Endpoint) r.Name] }
  rw [hadd]
  refine ⟨?_, ?_, ?_, ?_, h2, h3⟩
  · show GoMap.get (GoMap.set _ r.Name e) r.Name = some e
    rw [GoMap.get_set, if_pos rfl]
  · intro name hne
    show GoMap.get (GoMap.set _ r.Name e) name = m.logPlugins.get name
    rw [GoMap.get_set, if_neg hne, h1]
  · intro old hold
    refine ⟨?_, (hstop m).2.2.2.1 old hold, ?_⟩
    · show (ManagerImpl.stopOldLogPlugin _ r.Name).calls = _
      rw [h4 old hold]
      simp only [List.append_assoc, List.singleton_append]
    · rw [(hstop m).1]
      exact hold
  · intro hnone
    show (ManagerImpl.stopOldLogPlugin _ r.Name).calls = _
    rw [h5 hnone]

/-- C23 at a re-registration: the plugin `lp` registers again on a new socket. -/
theorem addEndpoint_replaces_witness :
    (ManagerImpl.addEndpoint quietEnv twoPluginManager lpRequest).logPlugins.get "lp" =
      some { name := "lp", socketPath := "/var/lib/kubelet/log-plugins/lp-new.sock" } ∧
    (ManagerImpl.addEndpoint quietEnv twoPluginManager lpRequest).logPlugins.get "lp2" =
      some lp2Endpoint ∧
    (ManagerImpl.addEndpoint quietEnv twoPluginManager lpRequest).calls =
      [Call.newEndpointImpl "/var/lib/kubelet/log-plugins/lp-new.sock" "lp",
        Call.stop lpEndpoint] :=
  have h := addEndpoint_replaces quietEnv twoPluginManager lpRequest
    { name := "lp", socketPath := "/var/lib/kubelet/log-plugins/lp-new.sock" } (by rfl)
  ⟨h.1, (h.2.1 "lp2" (by decide)).trans (by decide),
    (h.2.2.1 lpEndpoint (by decide)).1⟩

/-! ## `buildPodLogConfigs`: which configs are built -/

theorem buildFileConfigs_get_file (env : Env) (pod : Pod) (containerName category path : String)
    (data : GoMap String String) (acc : logConfigsMap) (n : String) (cfg : Config)
    (h : (ManagerImpl.buildFileConfigs env pod containerName category path data acc).get n
      = some cfg) :
    acc.get n = some cfg ∨
      ∃ entry ∈ data, n = env.buildLogConfigName pod.UID containerName category entry.1 ∧
        cfg = fileConfig env pod containerName category path entry := by
  induction data generalizing acc with
  | nil => exact Or.inl h
  | cons d data ih =>
    rw [buildFileConfigs_cons] at h
    rcases ih _ h with h1 | ⟨entry, hentry, hn, hcfg⟩
    · rw [GoMap.get_set] at h1
      by_cases hd : n = env.buildLogConfigName pod.UID containerName category d.1
      · rw [if_pos hd] at h1
        cases h1
        exact Or.inr ⟨d, List.mem_cons_self _ _, hd, rfl⟩
      · rw [if_neg hd] at h1
        exact Or.inl h1
    · exact Or.inr ⟨entry, List.mem_cons_of_mem _ hentry, hn, hcfg⟩

theorem buildFileConfigs_present (env : Env) (pod : Pod) (containerName category path : String)
    (data : GoMap String String) (acc : logConfigsMap) (n : String)
    (h : (∃ cfg, acc.get n = some cfg) ∨
      ∃ entry ∈ data, n = env.buildLogConfigName pod.UID containerName category entry.1) :
    ∃ cfg, (ManagerImpl.buildFileConfigs env pod containerName category path data acc).get n
      = some cfg := by
  induction data generalizing acc with
  | nil =>
    rcases h with h | ⟨entry, hentry, _⟩
    · exact h
    · cases hentry
  | cons d data ih =>
    rw [buildFileConfigs_cons]
    apply ih
    by_cases hd : n = env.buildLogConfigName pod.UID containerName category d.1
    · left
      rw [GoMap.get_set, if_pos hd]
      exact ⟨_, rfl⟩
    · rcases h with ⟨cfg, hcfg⟩ | ⟨entry, hentry, hn⟩
      · left
        rw [GoMap.get_set, if_neg hd]
        exact ⟨cfg, hcfg⟩
      · rcases List.mem_cons.1 hentry with h1 | h1
        · rw [h1] at hn
          exact absurd hn hd
        · exact Or.inr ⟨entry, h1, hn⟩

theorem buildContainerLogConfigs_get_file (env : Env) (pod : Pod) (vols : logVolumesMap)
    (containerName : String) (clps : List ContainerLogPolicy) (acc r : logConfigsMap)
    (n : String) (cfg : Config)
    (hok : ManagerImpl.buildContainerLogConfigs env pod vols containerName clps acc = .ok r)
    (hget : r.get n = some cfg) :
    acc.get n = some cfg ∨ ∃ e ∈ clps, FileOf env pod vols containerName e n cfg := by
  induction clps generalizing acc with
  | nil =>
    unfold ManagerImpl.buildContainerLogConfigs at hok
    cases hok
    exact Or.inl hget
  | cons a clps ih =>
    unfold ManagerImpl.buildContainerLogConfigs at hok
    cases hcm : env.getConfigMap pod.Namespace a.PluginConfigMap with
    | error err => rw [hcm] at hok; cases hok
    | ok cm =>
      rw [hcm] at hok
      simp only at hok
      by_cases ha : a.Category = podLogPolicyCategoryStd
      · rw [if_pos ha] at hok
        rcases ih _ hok with h | ⟨e, he, hf⟩
        · rcases buildFileConfigs_get_file env pod containerName a.Category _ cm.Data acc n cfg h
            with h1 | ⟨entry, hentry, hn, hcfg⟩
          · exact Or.inl h1
          · exact Or.inr ⟨a, List.mem_cons_self _ _, cm, entry, _, hcm, hentry,
              Or.inl ⟨ha, rfl⟩, hn, hcfg⟩
        · exact Or.inr ⟨e, List.mem_cons_of_mem _ he, hf⟩
      · rw [if_neg ha] at hok
        cases hv : vols.get a.VolumeName with
        | none =>
          rw [hv] at hok
          rcases ih _ hok with h | ⟨e, he, hf⟩
          · exact Or.inl h
          · exact Or.inr ⟨e, List.mem_cons_of_mem _ he, hf⟩
        | some lv =>
          rw [hv] at hok
          simp only at hok
          rcases ih _ hok with h | ⟨e, he, hf⟩
          · rcases buildFileConfigs_get_file env pod containerName a.Category _ cm.Data acc n
              cfg h with h1 | ⟨entry, hentry, hn, hcfg⟩
            · exact Or.inl h1
            · exact Or.inr ⟨a, List.mem_cons_self _ _, cm, entry, _, hcm, hentry,
                Or.inr ⟨ha, lv, hv, rfl⟩, hn, hcfg⟩
          · exact Or.inr ⟨e, List.mem_cons_of_mem _ he, hf⟩

theorem buildAllLogConfigs_get_file (env : Env) (pod : Pod) (vols : logVolumesMap)
    (l : List (String × List ContainerLogPolicy)) (acc r : logConfigsMap)
    (n : String) (cfg : Config)
    (hok : ManagerImpl.buildAllLogConfigs env pod vols l acc = .ok r)
    (hget : r.get n = some cfg) :
    acc.get n = some cfg ∨
      ∃ c clps e, (c, clps) ∈ l ∧ e ∈ clps ∧ FileOf env pod vols c e n cfg := by
  induction l generalizing acc with
  | nil =>
    unfold ManagerImpl.buildAllLogConfigs at hok
    cases hok
    exact Or.inl hget
  | cons a l ih =>
    obtain ⟨c0, clps0⟩ := a
    rw [buildAllLogConfigs_cons] at hok
    cases hb : ManagerImpl.buildContainerLogConfigs env pod vols c0 clps0 acc with
    | error err => rw [hb] at hok; cases hok
    | ok acc0 =>
      rw [hb] at hok
      simp only at hok
      rcases ih _ hok with h | ⟨c, clps, e, hc, he, hf⟩
      · rcases buildContainerLogConfigs_get_file env pod vols c0 clps0 acc acc0 n cfg hb h
          with h1 | ⟨e, he, hf⟩
        · exact Or.inl h1
        · exact Or.inr ⟨c0, clps0, e, List.mem_cons_self _ _, he, hf⟩
      · exact Or.inr ⟨c, clps, e, List.mem_cons_of_mem _ hc, he, hf⟩

theorem buildContainerLogConfigs_present (env : Env) (pod : Pod) (vols : logVolumesMap)
    (containerName : String) (clps : List ContainerLogPolicy) (acc r : logConfigsMap)
    (n : String)
    (hok : ManagerImpl.buildContainerLogConfigs env pod vols containerName clps acc = .ok r)
    (h : (∃ cfg, acc.get n = some cfg) ∨
      ∃ e ∈ clps, ∃ cfg, FileOf env pod vols containerName e n cfg) :
    ∃ cfg, r.get n = some cfg := by
  induction clps generalizing acc with
  | nil =>
    unfold ManagerImpl.buildContainerLogConfigs at hok
    cases hok
    rcases h with h | ⟨e, he, _⟩
    · exact h
    · cases he
  | cons a clps ih =>
    unfold ManagerImpl.buildContainerLogConfigs at hok
    cases hcm : env.getConfigMap pod.Namespace a.PluginConfigMap with
    | error err => rw [hcm] at hok; cases hok
    | ok cm =>
      rw [hcm] at hok
      simp only at hok
      have hsplit : (∃ cfg, acc.get n = some cfg) ∨
          (∃ cfg, FileOf env pod vols containerName a n cfg) ∨
          ∃ e ∈ clps, ∃ cfg, FileOf env pod vols containerName e n cfg := by
        rcases h with h | ⟨e, he, hf⟩
        · exact Or.inl h
        · rcases List.mem_cons.1 he with h1 | h1
          · rw [h1] at hf; exact Or.inr (Or.inl hf)
          · exact Or.inr (Or.inr ⟨e, h1, hf⟩)
      by_cases ha : a.Category = podLogPolicyCategoryStd
      · rw [if_pos ha] at hok
        apply ih _ hok
        rcases hsplit with h1 | ⟨cfg, cm1, entry, path, hcm1, hentry, _, hn, _⟩ | h1
        · exact Or.inl (buildFileConfigs_present env pod containerName a.Category _ cm.Data
            acc n (Or.inl h1))
        · rw [hcm] at hcm1
          cases hcm1
          exact Or.inl (buildFileConfigs_present env pod containerName a.Category _ cm.Data
            acc n (Or.inr ⟨entry, hentry, hn⟩))
        · exact Or.inr h1
      · rw [if_neg ha] at hok
        cases hv : vols.get a.VolumeName with
        | none =>
          rw [hv] at hok
          apply ih _ hok
          rcases hsplit with h1 | ⟨cfg, cm1, entry, path, _, _, hpath, _, _⟩ | h1
          · exact Or.inl h1
          · rcases hpath with ⟨hs, _⟩ | ⟨_, lv, hlv, _⟩
            · exact absurd hs ha
            · rw [hv] at hlv; cases hlv
          · exact Or.inr h1
        | some lv =>
          rw [hv] at hok
          simp only at hok
          apply ih _ hok
          rcases hsplit with h1 | ⟨cfg, cm1, entry, path, hcm1, hentry, _, hn, _⟩ | h1
          · exact Or.inl (buildFileConfigs_present env pod containerName a.Category _ cm.Data
              acc n (Or.inl h1))
          · rw [hcm] at hcm1
            cases hcm1
            exact Or.inl (buildFileConfigs_present env pod containerName a.Category _ cm.Data
              acc n (Or.inr ⟨entry, hentry, hn⟩))
          · exact Or.inr h1

theorem buildAllLogConfigs_present (env : Env) (pod : Pod) (vols : logVolumesMap)
    (l : List (String × List ContainerLogPolicy)) (acc r : logConfigsMap) (n : String)
    (hok : ManagerImpl.buildAllLogConfigs env pod vols l acc = .ok r)
    (h : (∃ cfg, acc.get n = some cfg) ∨
      ∃ c clps e, (c, clps) ∈ l ∧ e ∈ clps ∧ ∃ cfg, FileOf env pod vols c e n cfg) :
    ∃ cfg, r.get n = some cfg := by
  induction l generalizing acc with
  | nil =>
    unfold ManagerImpl.buildAllLogConfigs at hok
    cases hok
    rcases h with h | ⟨c, clps, e, hc, _⟩
    · exact h
    · cases hc
  | cons a l ih =>
    obtain ⟨c0, clps0⟩ := a
    rw [buildAllLogConfigs_cons] at hok
    cases hb : ManagerImpl.buildContainerLogConfigs env pod vols c0 clps0 acc with
    | error err => rw [hb] at hok; cases hok
    | ok acc0 =>
      rw [hb] at hok
      simp only at hok
      apply ih _ hok
      rcases h with h1 | ⟨c, clps, e, hc, he, hf⟩
      · exact Or.inl (buildContainerLogConfigs_present env pod vols c0 clps0 acc acc0 n hb
          (Or.inl h1))
      · rcases List.mem_cons.1 hc with h2 | h2
        · cases h2
          exact Or.inl (buildContainerLogConfigs_present env pod vols c0 clps0 acc acc0 n hb
            (Or.inr ⟨e, he, hf⟩))
        · exact Or.inr ⟨c, clps, e, h2, he, hf⟩

theorem mem_entries (p : Nilable.PodLogPolicy) (c : String) (e : ContainerLogPolicy) :
    (∃ clps, (c, clps) ∈ p.entries.ContainerLogPolicies ∧ e ∈ clps) ↔
      ∃ clps, (c, clps) ∈ p.ContainerLogPolicies ∧ some e ∈ clps := by
  unfold Nilable.PodLogPolicy.entries
  constructor
  · rintro ⟨clps, hc, he⟩
    obtain ⟨x, hx, hxe⟩ := List.mem_map.1 hc
    cases hxe
    obtain ⟨a, ha, hae⟩ := List.mem_filterMap.1 he
    cases hae
    exact ⟨x.2, hx, ha⟩
  · rintro ⟨clps, hc, he⟩
    exact ⟨clps.filterMap id, List.mem_map.2 ⟨(c, clps), hc, rfl⟩,
      List.mem_filterMap.2 ⟨some e, he, rfl⟩⟩

/-- C16 (counterexample): every config map can be fetched, and the policy holds
a nil entry followed by the entry `app`, whose volume is absent from the log
volumes.  `buildPodLogConfigs` does not succeed: the loop reads the config-map
name of the nil entry and panics. -/
theorem buildPodLogConfigs_panics_on_nil_entry :
    (∀ name, ∃ cm, pushEnv.getConfigMap (annotatedPod none none).Namespace name = .ok cm) ∧
    ("c", [none, some appEntry]) ∈ nilEntryPolicy.ContainerLogPolicies ∧
    appEntry.Category ≠ podLogPolicyCategoryStd ∧
    GoMap.get ([] : logVolumesMap) appEntry.VolumeName = none ∧
    Nilable.buildPodLogConfigs pushEnv (annotatedPod none none) nilEntryPolicy [] = .panics := by
  refine ⟨fun name => ⟨_, rfl⟩, by decide, by decide, by decide, rfl⟩

/-- C16 (amended): when no entry of the policy is nil and every referenced
config map can be fetched, `buildPodLogConfigs` returns a map `r`.  Every
config of `r` was built from an entry of the policy and a key of the config map
of that entry, and has the path the entry calls for:
`buildPodLogsDirectory(pod.UID)` when the category is `std`,
`logVolumes[entry.VolumeName].logDirPath` otherwise.  Every config that an
entry yields has its name in `r`, and is the config stored under that name
when no entry yields another config under the same name.  A non-`std` entry
whose volume name is absent from `logVolumes` contributes no config: the call
for the policy without that entry returns the same map `r`. -/
theorem buildPodLogConfigs_path_rule (env : Env) (pod : Pod) (policy : Nilable.PodLogPolicy)
    (vols : logVolumesMap)
    (hnil : policy.NoNilEntry)
    (hcm : ∀ c clps e, (c, clps) ∈ policy.ContainerLogPolicies → some e ∈ clps →
      ∃ cm, env.getConfigMap pod.Namespace e.PluginConfigMap = .ok cm) :
    ∃ r, Nilable.buildPodLogConfigs env pod policy vols = .returns (.ok r) ∧
      (∀ n cfg, r.get n = some cfg →
        ∃ c clps e, (c, clps) ∈ policy.ContainerLogPolicies ∧ some e ∈ clps ∧
          FileOf env pod vols c e n cfg) ∧
      (∀ n cfg, r.get n = some cfg → cfg.Spec.Category = podLogPolicyCategoryStd →
        cfg.Spec.Path = env.buildPodLogsDirectory pod.UID) ∧
      (∀ n cfg, r.get n = some cfg → cfg.Spec.Category ≠ podLogPolicyCategoryStd →
        ∃ c clps e lv, (c, clps) ∈ policy.ContainerLogPolicies ∧ some e ∈ clps ∧
          e.Category = cfg.Spec.Category ∧ vols.get e.VolumeName = some lv ∧
          cfg.Spec.Path = lv.logDirPath) ∧
      (∀ c clps e n cfg, (c, clps) ∈ policy.ContainerLogPolicies → some e ∈ clps →
        FileOf env pod vols c e n cfg → ∃ cfg1, r.get n = some cfg1) ∧
      (∀ c clps e n cfg, (c, clps) ∈ policy.ContainerLogPolicies → some e ∈ clps →
        FileOf env pod vols c e n cfg →
        (∀ c1 clps1 e1 cfg1, (c1, clps1) ∈ policy.ContainerLogPolicies → some e1 ∈ clps1 →
          FileOf env pod vols c1 e1 n cfg1 → cfg1 = cfg) →
        r.get n = some cfg) ∧
      (∀ cpre c pre e post cpost,
        policy.ContainerLogPolicies = cpre ++ (c, pre ++ some e :: post) :: cpost →
        e.Category ≠ podLogPolicyCategoryStd → vols.get e.VolumeName = none →
        Nilable.buildPodLogConfigs env pod
            { policy with ContainerLogPolicies := cpre ++ (c, pre ++ post) :: cpost } vols
          = .returns (.ok r)) := by
  have hb := (nilable_builders env pod policy.entries vols).2.2
  rw [toNilable_entries policy hnil] at hb
  have hcm1 : ∀ c clps e, (c, clps) ∈ policy.entries.ContainerLogPolicies → e ∈ clps →
      ∃ cm, env.getConfigMap pod.Namespace e.PluginConfigMap = .ok cm := by
    intro c clps e hc he
    obtain ⟨clps0, hc0, he0⟩ := (mem_entries policy c e).1 ⟨clps, hc, he⟩
    exact hcm c clps0 e hc0 he0
  obtain ⟨r, hr⟩ := buildAllLogConfigs_ok env pod vols policy.entries.ContainerLogPolicies []
    hcm1
  have hr1 : ManagerImpl.buildPodLogConfigs env pod policy.entries vols = .ok r := hr
  have hsound : ∀ n cfg, r.get n = some cfg →
      ∃ c clps e, (c, clps) ∈ policy.ContainerLogPolicies ∧ some e ∈ clps ∧
        FileOf env pod vols c e n cfg := by
    intro n cfg hget
    rcases buildAllLogConfigs_get_file env pod vols _ [] r n cfg hr hget
      with h | ⟨c, clps, e, hc, he, hf⟩
    · simp [GoMap.get] at h
    · obtain ⟨clps0, hc0, he0⟩ := (mem_entries policy c e).1 ⟨clps, hc, he⟩
      exact ⟨c, clps0, e, hc0, he0, hf⟩
  have hpresent : ∀ c clps e n cfg, (c, clps) ∈ policy.ContainerLogPolicies → some e ∈ clps →
      FileOf env pod vols c e n cfg → ∃ cfg1, r.get n = some cfg1 := by
    intro c clps e n cfg hc he hf
    obtain ⟨clps1, hc1, he1⟩ := (mem_entries policy c e).2 ⟨clps, hc, he⟩
    exact buildAllLogConfigs_present env pod vols _ [] r n hr
      (Or.inr ⟨c, clps1, e, hc1, he1, cfg, hf⟩)
  refine ⟨r, by rw [hb, hr1], hsound, ?_, ?_, hpresent, ?_, ?_⟩
  · intro n cfg hget hstd
    obtain ⟨c, clps, e, _, _, cm, entry, path, _, _, hpath, _, hcfg⟩ := hsound n cfg hget
    rw [hcfg] at hstd ⊢
    rcases hpath with ⟨_, hp⟩ | ⟨hne, _⟩
    · exact hp
    · exact absurd hstd hne
  · intro n cfg hget hstd
    obtain ⟨c, clps, e, hc, he, cm, entry, path, _, _, hpath, _, hcfg⟩ := hsound n cfg hget
    rw [hcfg] at hstd ⊢
    rcases hpath with ⟨hs, _⟩ | ⟨_, lv, hlv, hp⟩
    · exact absurd hs hstd
    · exact ⟨c, clps, e, lv, hc, he, rfl, hlv, hp⟩
  · intro c clps e n cfg hc he hf huniq
    obtain ⟨cfg1, hcfg1⟩ := hpresent c clps e n cfg hc he hf
    obtain ⟨c1, clps1, e1, hc1, he1, hf1⟩ := hsound n cfg1 hcfg1
    rw [hcfg1, huniq c1 clps1 e1 cfg1 hc1 he1 hf1]
  · intro cpre c pre e post cpost hsplit hstd hmiss
    have hnil1 : Nilable.PodLogPolicy.NoNilEntry
        { policy with ContainerLogPolicies := cpre ++ (c, pre ++ post) :: cpost } := by
      intro x hx hnone
      have hx1 : x ∈ cpre ∨ x = (c, pre ++ post) ∨ x ∈ cpost := by
        simpa using hx
      rcases hx1 with h | h | h
      · exact hnil x (by rw [hsplit]; simp [h]) hnone
      · rw [h] at hnone
        refine hnil (c, pre ++ some e :: post) (by rw [hsplit]; simp) ?_
        rcases List.mem_append.1 hnone with h1 | h1
        · exact List.mem_append.2 (Or.inl h1)
        · exact List.mem_append.2 (Or.inr (List.mem_cons_of_mem _ h1))
      · exact hnil x (by rw [hsplit]; simp [h]) hnone
    have hb1 := (nilable_builders env pod
      (Nilable.PodLogPolicy.entries
        { policy with ContainerLogPolicies := cpre ++ (c, pre ++ post) :: cpost }) vols).2.2
    rw [toNilable_entries _ hnil1] at hb1
    rw [hb1, ← hr1]
    obtain ⟨cm, hcme⟩ := hcm c (pre ++ some e :: post) e (by rw [hsplit]; simp) (by simp)
    have hskip := buildAllLogConfigs_skip env pod vols
      (cpre.map (fun x => (x.1, x.2.filterMap id)))
      (cpost.map (fun x => (x.1, x.2.filterMap id))) c (pre.filterMap id)
      (post.filterMap id) e cm [] hstd hmiss hcme
    unfold ManagerImpl.buildPodLogConfigs Nilable.PodLogPolicy.entries
    simp only [hsplit, List.map_append, List.map_cons, List.filterMap_append,
      List.filterMap_cons, id]
    rw [hskip]

/-- The configs that the entries of `pathRulePolicy` yield in `pushEnv` with the
log volume of `app` stored: one for `std`, one for `app`, none for `audit`. -/
theorem pathRulePolicy_FileOf (c : String) (clps : List (Option ContainerLogPolicy))
    (e : ContainerLogPolicy) (n : String) (cfg : Config)
    (hc : (c, clps) ∈ pathRulePolicy.toNilable.ContainerLogPolicies) (he : some e ∈ clps)
    (hf : FileOf pushEnv (annotatedPod none none) [("v", appLogVolume)] c e n cfg) :
    (n = "u1_c_std_x.conf" ∧ cfg = sampleConfig) ∨ (n = "u1_c_app_x.conf" ∧ cfg = appConfig) := by
  have hc1 : (c, clps) = ("c", [some stdEntry, some appEntry, some auditEntry]) := by
    simpa [pathRulePolicy, PodLogPolicy.toNilable] using hc
  cases hc1
  obtain ⟨cm, entry, path, hcm, hentry, hpath, hn, hcfg⟩ := hf
  have hcm1 : (Except.ok (ConfigMap.mk "ns" e.PluginConfigMap [("x.conf", "A")])
      : Except Error ConfigMap) = .ok cm := hcm
  cases hcm1
  have hentry1 : entry = ("x.conf", "A") := by simpa using hentry
  subst hentry1
  have he1 : e = stdEntry ∨ e = appEntry ∨ e = auditEntry := by simpa using he
  rcases he1 with h | h | h
  · subst h
    rcases hpath with ⟨_, hp⟩ | ⟨hne, _⟩
    · subst hp
      exact Or.inl ⟨hn, hcfg⟩
    · exact absurd rfl hne
  · subst h
    rcases hpath with ⟨hs, _⟩ | ⟨_, lv, hlv, hp⟩
    · exact absurd hs (by decide)
    · have hlv1 : lv = appLogVolume := by
        have : GoMap.get [("v", appLogVolume)] appEntry.VolumeName = some appLogVolume := by
          decide
        rw [this] at hlv
        cases hlv
        rfl
      subst hlv1
      subst hp
      exact Or.inr ⟨hn, hcfg⟩
  · subst h
    rcases hpath with ⟨hs, _⟩ | ⟨_, lv, hlv, _⟩
    · exact absurd hs (by decide)
    · have : GoMap.get [("v", appLogVolume)] auditEntry.VolumeName = none := by decide
      rw [this] at hlv
      cases hlv

/-- C16 (amended) at a policy with three entries of container `c`: `std`, `app`
on the stored volume `v`, and `audit` on the volume `w`, which is absent from
the log volumes.  The call returns a map holding the config of `std` with the
standard log directory and the config of `app` with the log directory of its
volume, and the same map is returned for the policy without `audit`. -/
theorem buildPodLogConfigs_path_rule_witness :
    ∃ r, Nilable.buildPodLogConfigs pushEnv (annotatedPod none none) pathRulePolicy.toNilable
        [("v", appLogVolume)] = .returns (.ok r) ∧
      r.get "u1_c_std_x.conf" = some sampleConfig ∧
      r.get "u1_c_app_x.conf" = some appConfig ∧
      sampleConfig.Spec.Path = pushEnv.buildPodLogsDirectory "u1" ∧
      appConfig.Spec.Path = appLogVolume.logDirPath ∧
      Nilable.buildPodLogConfigs pushEnv (annotatedPod none none)
          { pathRulePolicy.toNilable with
            ContainerLogPolicies := [] ++ ("c", [some stdEntry, some appEntry] ++ []) :: [] }
          [("v", appLogVolume)] = .returns (.ok r) := by
  obtain ⟨r, hr, _, _, _, _, hexact, hskip⟩ :=
    buildPodLogConfigs_path_rule pushEnv (annotatedPod none none) pathRulePolicy.toNilable
      [("v", appLogVolume)] (toNilable_NoNilEntry pathRulePolicy)
      (fun c clps e _ _ => ⟨_, rfl⟩)
  refine ⟨r, hr, ?_, ?_, by decide, by decide, ?_⟩
  · refine hexact "c" [some stdEntry, some appEntry, some auditEntry] stdEntry
      "u1_c_std_x.conf" sampleConfig (by decide) (by decide)
      ⟨_, ("x.conf", "A"), _, rfl, by decide, Or.inl ⟨rfl, rfl⟩, by decide, by decide⟩ ?_
    intro c1 clps1 e1 cfg1 hc1 he1 hf1
    rcases pathRulePolicy_FileOf c1 clps1 e1 _ cfg1 hc1 he1 hf1 with ⟨_, h⟩ | ⟨h, _⟩
    · exact h
    · exact absurd h (by decide)
  · refine hexact "c" [some stdEntry, some appEntry, some auditEntry] appEntry
      "u1_c_app_x.conf" appConfig (by decide) (by decide)
      ⟨_, ("x.conf", "A"), _, rfl, by decide,
        Or.inr ⟨by decide, appLogVolume, by decide, rfl⟩, by decide, by decide⟩ ?_
    intro c1 clps1 e1 cfg1 hc1 he1 hf1
    rcases pathRulePolicy_FileOf c1 clps1 e1 _ cfg1 hc1 he1 hf1 with ⟨h, _⟩ | ⟨_, h⟩
    · exact absurd h (by decide)
    · exact h
  · exact hskip [] "c" [some stdEntry, some appEntry] auditEntry [] [] (by decide) (by decide)
      (by decide)

end LogManager

namespace CPUManagerState

/-! ## `restoreState` is all-or-nothing -/

theorem parseEntries_ok (env : Env) (l : List (String × String))
    (acc r : ContainerCPUAssignments) (h : parseEntries env l acc = .ok r) :
    ∀ p ∈ l, ∃ c, env.parse p.2 = .ok c := by
  induction l generalizing acc with
  | nil => intro p hp; cases hp
  | cons a l ih =>
    obtain ⟨containerID, cpuString⟩ := a
    unfold parseEntries at h
    cases hp : env.parse cpuString with
    | error err => rw [hp] at h; cases h
    | ok c =>
      rw [hp] at h
      intro p hmem
      rcases List.mem_cons.1 hmem with h1 | h1
      · rw [h1]; exact ⟨c, hp⟩
      · exact ih _ h p h1

theorem parseEntries_total (env : Env) (l : List (String × String))
    (acc : ContainerCPUAssignments) (h : ∀ p ∈ l, ∃ c, env.parse p.2 = .ok c) :
    ∃ r, parseEntries env l acc = .ok r := by
  induction l generalizing acc with
  | nil => exact ⟨acc, rfl⟩
  | cons a l ih =>
    obtain ⟨containerID, cpuString⟩ := a
    obtain ⟨c, hc⟩ := h (containerID, cpuString) (List.mem_cons_self _ _)
    unfold parseEntries
    simp only at hc
    rw [hc]
    exact ih _ (fun p hp => h p (List.mem_cons_of_mem _ hp))

/-- C26: `restoreState` is all-or-nothing on the in-memory cache: whenever it
returns an error (the checkpoint cannot be read or written, its policy name
differs from the configured one, its default CPU set does not parse, or one of
its entries does not parse) the cache, default CPU set and container
assignments, is what it was before the call; the cache differs afterwards only
when the checkpoint was read, its policy name matches, and the default CPU set
and every entry parse; and in that case `restoreState` returns no error and the
cache holds the parsed default CPU set and the parsed assignments. -/
theorem restoreState_all_or_nothing (env : Env) (sc : stateCheckpoint) :
    ((sc.restoreState env).1 ≠ none → (sc.restoreState env).2.cache = sc.cache) ∧
    ((sc.restoreState env).2.cache ≠ sc.cache →
      ∃ checkpoint, env.getCheckpoint sc.checkpointName = .ok checkpoint ∧
        sc.policyName = checkpoint.PolicyName ∧
        (∃ d, env.parse checkpoint.DefaultCPUSet = .ok d) ∧
        ∀ p ∈ checkpoint.Entries, ∃ c, env.parse p.2 = .ok c) ∧
    (∀ checkpoint d, env.getCheckpoint sc.checkpointName = .ok checkpoint →
      sc.policyName = checkpoint.PolicyName →
      env.parse checkpoint.DefaultCPUSet = .ok d →
      (∀ p ∈ checkpoint.Entries, ∃ c, env.parse p.2 = .ok c) →
      (sc.restoreState env).1 = none ∧ (sc.restoreState env).2.cache.defaultCPUSet = d ∧
      parseEntries env checkpoint.Entries [] = .ok (sc.restoreState env).2.cache.assignments) := by
  unfold stateCheckpoint.restoreState
  cases hg : env.getCheckpoint sc.checkpointName with
  | error e =>
    cases e with
    | ErrCheckpointNotFound =>
      refine ⟨fun _ => rfl, fun h => absurd rfl h, ?_⟩
      intro checkpoint d h
      cases h
    | other err =>
      refine ⟨fun _ => rfl, fun h => absurd rfl h, ?_⟩
      intro checkpoint d h
      cases h
  | ok checkpoint =>
    simp only
    by_cases hp : sc.policyName = checkpoint.PolicyName
    · have hnp : ¬ sc.policyName ≠ checkpoint.PolicyName := fun h => h hp
      rw [if_neg hnp]
      cases hd : env.parse checkpoint.DefaultCPUSet with
      | error err =>
        refine ⟨fun _ => rfl, fun h => absurd rfl h, ?_⟩
        intro checkpoint1 d h _ h2
        cases h
        rw [hd] at h2
        cases h2
      | ok tmpDefaultCPUSet =>
        simp only
        cases he : parseEntries env checkpoint.Entries [] with
        | error err =>
          refine ⟨fun _ => rfl, fun h => absurd rfl h, ?_⟩
          intro checkpoint1 d h _ _ h3
          cases h
          obtain ⟨r, hr⟩ := parseEntries_total env checkpoint.Entries [] h3
          rw [hr] at he
          cases he
        | ok tmpAssignments =>
          refine ⟨fun h => absurd rfl h, fun _ => ⟨checkpoint, rfl, hp, ⟨_, hd⟩,
            parseEntries_ok env _ _ _ he⟩, ?_⟩
          intro checkpoint1 d h _ h2 _
          cases h
          rw [hd] at h2
          cases h2
          exact ⟨rfl, rfl, he⟩
    · have hnp : sc.policyName ≠ checkpoint.PolicyName := hp
      rw [if_pos hnp]
      refine ⟨fun _ => rfl, fun h => absurd rfl h, ?_⟩
      intro checkpoint1 d h h1
      cases h
      exact absurd h1 hp

end CPUManagerState

namespace Container

/-! ## `hackGoString19to18` -/

theorem stripLiteral_eq_some (lit l rest : List Char) :
    stripLiteral lit l = some rest ↔ l = lit ++ rest := by
  induction lit generalizing l with
  | nil => simp [stripLiteral, eq_comm]
  | cons a lit ih =>
    cases l with
    | nil => simp [stripLiteral]
    | cons b l =>
      unfold stripLiteral
      by_cases h : a = b
      · rw [if_pos h, ih, h]; simp
      · rw [if_neg h]
        constructor
        · intro h1; cases h1
        · intro h1
          simp only [List.cons_append, List.cons.injEq] at h1
          exact absurd h1.1.symm h

theorem stripLiteral_of_append (lit p q x : List Char) (s : Char) (hs : s ∉ lit)
    (h : stripLiteral lit (p ++ s :: q) = some x) : ∃ y, stripLiteral lit p = some y := by
  induction lit generalizing p with
  | nil => exact ⟨p, rfl⟩
  | cons a lit ih =>
    cases p with
    | nil =>
      simp only [List.nil_append] at h
      unfold stripLiteral at h
      by_cases h1 : a = s
      · exact absurd (h1 ▸ List.mem_cons_self a lit) hs
      · rw [if_neg h1] at h; cases h
    | cons b p =>
      simp only [List.cons_append] at h
      unfold stripLiteral at h ⊢
      by_cases h1 : a = b
      · rw [if_pos h1] at h ⊢
        exact ih p (fun hm => hs (List.mem_cons_of_mem _ hm)) h
      · rw [if_neg h1] at h; cases h

theorem hasField_iff (l : List Char) : hasField l = true ↔ ContainsField l := by
  induction l with
  | nil =>
    simp only [hasField, ContainsField]
    constructor
    · intro h; cases h
    · rintro ⟨pre, post, h⟩
      have := congrArg List.length h
      simp [fieldName] at this
      omega
  | cons c rest ih =>
    unfold hasField
    rw [Bool.or_eq_true, ih, Option.isSome_iff_exists]
    constructor
    · rintro (⟨y, hy⟩ | ⟨pre, post, h⟩)
      · exact ⟨[], y, by rw [(stripLiteral_eq_some _ _ _).1 hy]; rfl⟩
      · exact ⟨c :: pre, post, by rw [h]; rfl⟩
    · rintro ⟨pre, post, h⟩
      cases pre with
      | nil => exact Or.inl ⟨post, (stripLiteral_eq_some _ _ _).2 (by rw [h]; rfl)⟩
      | cons a pre =>
        simp only [List.cons_append, List.cons.injEq] at h
        exact Or.inr ⟨pre, post, by rw [h.2]⟩

theorem matchAt_contains (l : List Char) (r : Char × List Char) (h : matchAt l = some r) :
    ContainsField l := by
  unfold matchAt at h
  cases hs : stripLiteral fieldName (l.dropWhile isSpace) with
  | none => rw [hs] at h; cases h
  | some rest =>
    refine ⟨l.takeWhile isSpace, rest, ?_⟩
    rw [List.append_assoc, ← (stripLiteral_eq_some _ _ _).1 hs, List.takeWhile_append_dropWhile]

theorem not_contains_tail (c : Char) (l : List Char) (h : ¬ ContainsField (c :: l)) :
    ¬ ContainsField l := by
  rintro ⟨pre, post, h1⟩
  exact h ⟨c :: pre, post, by rw [h1]; rfl⟩

theorem replaceAllFrom_of_not_contains (fuel : Nat) (l : List Char) (h : ¬ ContainsField l) :
    replaceAllFrom fuel l = l := by
  induction fuel generalizing l with
  | zero => rfl
  | succ fuel ih =>
    cases l with
    | nil => rfl
    | cons c rest =>
      unfold replaceAllFrom
      cases hm : matchAt (c :: rest) with
      | some r => exact absurd (matchAt_contains _ _ hm) h
      | none =>
        simp only
        rw [ih rest (not_contains_tail c rest h)]

theorem matchValue_append (v : List Char) (t : Char) (B : List Char)
    (hv : ∀ c ∈ v, isTerminator c = false) (ht : isTerminator t = true) :
    matchValue (v ++ t :: B) = some (t, B) := by
  induction v with
  | nil => simp [matchValue, ht]
  | cons a v ih =>
    simp only [List.cons_append]
    unfold matchValue
    rw [hv a (List.mem_cons_self _ _)]
    simp only [Bool.false_eq_true, if_false]
    exact ih (fun c hc => hv c (List.mem_cons_of_mem _ hc))

theorem dropWhile_append_of_last (A rest : List Char) (hne : A ≠ [])
    (hA : ∀ c, A.getLast? = some c → isSpace c = false) :
    List.dropWhile isSpace (A ++ rest) = List.dropWhile isSpace A ++ rest := by
  induction A with
  | nil => exact absurd rfl hne
  | cons a A ih =>
    simp only [List.cons_append, List.dropWhile_cons]
    by_cases ha : isSpace a = true
    · rw [if_pos ha, if_pos ha]
      cases A with
      | nil =>
        have := hA a rfl
        rw [ha] at this; cases this
      | cons b A =>
        apply ih (by simp)
        intro c hc
        apply hA c
        rw [List.getLast?_cons_cons]
        exact hc
    · rw [if_neg ha, if_neg ha]
      rfl

theorem matchAt_append_none (A q : List Char) (hne : A ≠ [])
    (hA : ∀ c, A.getLast? = some c → isSpace c = false) (hAn : ¬ ContainsField A) :
    matchAt (A ++ Char.ofNat 32 :: q) = none := by
  unfold matchAt
  rw [dropWhile_append_of_last A _ hne hA]
  cases hs : stripLiteral fieldName (List.dropWhile isSpace A ++ Char.ofNat 32 :: q) with
  | none => rfl
  | some x =>
    exfalso
    obtain ⟨y, hy⟩ := stripLiteral_of_append fieldName _ q x (Char.ofNat 32) (by decide) hs
    apply hAn
    refine ⟨A.takeWhile isSpace, y, ?_⟩
    rw [List.append_assoc, ← (stripLiteral_eq_some _ _ _).1 hy, List.takeWhile_append_dropWhile]

theorem replaceAllFrom_field (A v B : List Char) (t : Char) (fuel : Nat)
    (hfuel : (A ++ Char.ofNat 32 :: (fieldName ++ (v ++ t :: B))).length ≤ fuel)
    (hA : ∀ c, A.getLast? = some c → isSpace c = false)
    (hv : ∀ c ∈ v, isTerminator c = false) (ht : isTerminator t = true)
    (hAn : ¬ ContainsField A) (hBn : ¬ ContainsField B) :
    replaceAllFrom fuel (A ++ Char.ofNat 32 :: (fieldName ++ (v ++ t :: B))) = A ++ t :: B := by
  induction A generalizing fuel with
  | nil =>
    cases fuel with
    | zero => simp at hfuel
    | succ fuel =>
      simp only [List.nil_append]
      unfold replaceAllFrom
      have hm : matchAt (Char.ofNat 32 :: (fieldName ++ (v ++ t :: B))) = some (t, B) := by
        unfold matchAt
        have hd : List.dropWhile isSpace (Char.ofNat 32 :: (fieldName ++ (v ++ t :: B)))
            = fieldName ++ (v ++ t :: B) := by
          rw [List.dropWhile_cons, if_pos (by decide)]
          rfl
        rw [hd, (stripLiteral_eq_some _ _ _).2 rfl]
        exact matchValue_append v t B hv ht
      rw [hm]
      simp only
      rw [replaceAllFrom_of_not_contains fuel B hBn]
  | cons a A ih =>
    cases fuel with
    | zero => simp at hfuel
    | succ fuel =>
      have hm := matchAt_append_none (a :: A) (fieldName ++ (v ++ t :: B)) (by simp) hA hAn
      simp only [List.cons_append] at hm ⊢
      unfold replaceAllFrom
      rw [hm]
      simp only
      rw [ih fuel (by simp only [List.cons_append, List.length_cons] at hfuel; omega) ?_
        (not_contains_tail a A hAn)]
      intro c hc
      cases A with
      | nil => cases hc
      | cons b A =>
        apply hA c
        rw [List.getLast?_cons_cons]
        exact hc

theorem stripLiteral_length (lit l rest : List Char) (h : stripLiteral lit l = some rest) :
    rest.length ≤ l.length := by
  rw [(stripLiteral_eq_some lit l rest).1 h, List.length_append]
  omega

theorem matchValue_length (l : List Char) (r : Char × List Char) (h : matchValue l = some r) :
    r.2.length < l.length := by
  induction l with
  | nil => cases h
  | cons c rest ih =>
    unfold matchValue at h
    by_cases hc : isTerminator c = true
    · rw [if_pos hc] at h
      cases h
      exact Nat.lt_succ_self _
    · rw [if_neg hc] at h
      exact Nat.lt_succ_of_lt (ih h)

theorem matchAt_length (l : List Char) (r : Char × List Char) (h : matchAt l = some r) :
    r.2.length < l.length := by
  unfold matchAt at h
  cases hs : stripLiteral fieldName (l.dropWhile isSpace) with
  | none => rw [hs] at h; cases h
  | some rest =>
    rw [hs] at h
    have h1 := matchValue_length rest r h
    have h2 := stripLiteral_length _ _ _ hs
    have h3 : (l.dropWhile isSpace).length ≤ l.length :=
      (List.dropWhile_sublist _).length_le
    omega

/-- The fuel of `ReplaceAllString` never runs out: any fuel from the length of the
text on gives the same result. -/
theorem replaceAllFrom_fuel (f1 f2 : Nat) (l : List Char) (h1 : l.length ≤ f1)
    (h2 : l.length ≤ f2) : replaceAllFrom f1 l = replaceAllFrom f2 l := by
  induction f1 generalizing f2 l with
  | zero =>
    have hl : l = [] := List.length_eq_zero.1 (Nat.le_zero.1 h1)
    subst hl
    cases f2 <;> rfl
  | succ f1 ih =>
    cases l with
    | nil => cases f2 <;> rfl
    | cons c rest =>
      cases f2 with
      | zero => simp at h2
      | succ f2 =>
        simp only [List.length_cons] at h1 h2
        unfold replaceAllFrom
        cases hm : matchAt (c :: rest) with
        | none =>
          simp only
          rw [ih f2 rest (by omega) (by omega)]
        | some r =>
          obtain ⟨t, after⟩ := r
          have hlen := matchAt_length _ _ hm
          simp only [List.length_cons] at hlen
          simp only
          rw [ih f2 after (by omega) (by omega)]

/-- C25: for all strings `A`, `v`, `B` and every character `t` of the class
`[\s}]` (tab, newline, form feed, carriage return, space, or the closing
brace), if `A` does not end in a character of the class `\s`, `v` holds no
character of the class `[\s}]`, and neither `A` nor `B` contains
`VolumeDevices:`, then `hackGoString19to18` maps
`A ++ " VolumeDevices:" ++ v ++ t ++ B` to `A ++ t ++ B`; and every string that
does not contain `VolumeDevices:` is returned unchanged. -/
theorem hackGoString19to18_removes_field (A v B : String) (t : Char)
    (hA : ∀ c, A.data.getLast? = some c → isSpace c = false)
    (hv : ∀ c ∈ v.data, isTerminator c = false) (ht : isTerminator t = true)
    (hAn : ¬ ContainsField A.data) (hBn : ¬ ContainsField B.data) :
    hackGoString19to18 (A ++ " VolumeDevices:" ++ v ++ String.singleton t ++ B)
      = A ++ String.singleton t ++ B ∧
    ∀ s : String, ¬ ContainsField s.data → hackGoString19to18 s = s := by
  constructor
  · unfold hackGoString19to18 ReplaceAllString
    have hd : (A ++ " VolumeDevices:" ++ v ++ String.singleton t ++ B).data
        = A.data ++ Char.ofNat 32 :: (fieldName ++ (v.data ++ t :: B.data)) := by
      simp only [String.data_append, List.append_assoc]
      rfl
    rw [hd, replaceAllFrom_field A.data v.data B.data t _ (le_refl _) hA hv ht hAn hBn]
    apply String.ext
    simp only [String.data_append, List.append_assoc]
    rfl
  · intro s hs
    unfold hackGoString19to18 ReplaceAllString
    rw [replaceAllFrom_of_not_contains _ _ hs]

/-- C25 at a shortened form of the string of the test: the field stands between
`SubPath` and `LivenessProbe`. -/
theorem hackGoString19to18_removes_field_witness :
    hackGoString19to18 "SubPath:(string) VolumeDevices:([]v1.VolumeDevice)<nil> LivenessProbe:(*v1.Probe)<nil>\x7d"
      = "SubPath:(string) LivenessProbe:(*v1.Probe)<nil>\x7d" :=
  (hackGoString19to18_removes_field "SubPath:(string)" "([]v1.VolumeDevice)<nil>" "LivenessProbe:(*v1.Probe)<nil>\x7d"
    (Char.ofNat 32)
    (by intro c hc
        have h : "SubPath:(string)".data.getLast? = some (Char.ofNat 41) := by decide
        rw [h] at hc
        cases hc
        decide)
    (by decide) (by decide)
    (by rw [← hasField_iff]; decide)
    (by rw [← hasField_iff]; decide)).1

end Container
